import Mathlib

/-!
docker-reassembler: the layer transfer pipeline

A shallow embedding of `pkg/upload/upload.go`, `pkg/docker/manifest.go`,
`pkg/docker/types.go` and `pkg/download/download.go`, followed by theorems about
the chunk splitter (`layerBlobParts`), the multi-part upload
(`doUploadLayerParts`, `uploadLayerParts`), the repository (`checkRepo`), the
manifest PUT (`putEcrImage`), the coordinator (`Upload`) and the bulk retriever
(`S3Downloader.Download`).

Conventions of the embedding:

* a Go pointer or interface value is an `Option` (`none` is `nil`), a Go
  `error` is an `Option GoError`, and a Go result tuple is a Lean tuple;
* a run-time panic (nil dereference, `make` with a negative length) is the
  outcome `Outcome.panic` with the message of the Go runtime;
* memory is not modelled. The chunk splitter holds every chunk of a blob at
  once, and a statement that a run returns is about a machine with the memory
  for the blob. For the blob of the part-count slip, which no machine holds,
  the statements say what a run computes and what a run that returns would
  hold, not that the run returns;
* `float64` is modelled by `Float64`, a significand and a binary exponent, with
  every operation rounded to 53 bits, ties to even. Infinities, NaN and
  subnormals are not modelled: the values of this program lie between `2^-24`
  and `2^64`;
* `int64` arithmetic wraps (`wrap64`);
* the registry client is a record of functions of the history of calls made so
  far, so its answers may change from call to call; every call is appended
  to the trace together with its answer;
* the local file system is read-only during an upload and is a record of
  functions of the path. A file handle carries the bytes of the file and, for
  each call of `Read`, whether the call fills the buffer, is short, or fails;
* the pager, the file system and the download manager of `Download` are records
  of functions of the history of calls, like the registry client. The page loop
  of `Download` ends when the pager says so; the embedding bounds the number of
  pages by a parameter `fuel` and has the outcome `none` when the pager still
  reports more pages after `fuel` pages.
-/

namespace DockerReassembler

/-! ## Go values -/

/-- One byte. -/
abbrev Byte := Fin 256

/-- The dynamic types of the error values that the code tells apart with
`errors.As`, and the ones it produces itself. -/
inductive ErrKind
  | LayerAlreadyExistsException
  | InvalidLayerException
  | RepositoryNotFoundException
  | EOF
  | errorString
  | other (tag : String)
  deriving DecidableEq, Repr

/-- A Go error value: either a value without `Unwrap` (`leaf`), or a wrapper
(`fmt.Errorf` with `%w`, or a wrapper of the SDK) around another error. `msg` is
what `Error()` returns. -/
inductive GoError
  | leaf (kind : ErrKind) (msg : String)
  | wrap (msg : String) (inner : GoError)
  deriving DecidableEq, Repr

/-- The method `Error()`. -/
def GoError.Error : GoError → String
  | .leaf _ msg => msg
  | .wrap msg _ => msg

/-- Go `errors.As(err, &target)` for a target of dynamic type `k`: the first
error of the chain whose type is `k`. Wrappers have none of the target types. -/
def GoError.As : GoError → ErrKind → Option GoError
  | .leaf kind msg, k => if kind = k then some (.leaf kind msg) else none
  | .wrap _ inner, k => inner.As k

/-- Go `errors.Is(err, target)` restricted to chains: `target` is one of the
errors of the chain of `err`. -/
def GoError.Is : GoError → GoError → Bool
  | .leaf kind msg, t => decide (GoError.leaf kind msg = t)
  | .wrap msg inner, t => decide (GoError.wrap msg inner = t) || inner.Is t

/-- Go `fmt.Errorf(format, args...)` without `%w`: a plain error string. -/
def Errorf (msg : String) : GoError := .leaf .errorString msg

/-- Go `fmt.Errorf(pre + "%w" + post, err)`: wraps `err`. -/
def ErrorfW (pre : String) (err : GoError) (post : String) : GoError :=
  .wrap (pre ++ err.Error ++ post) err

/-- The verb `%q` of a string (escaping of special characters left out). -/
def fmtQ (s : String) : String := "\"" ++ s ++ "\""

/-- The verb `%d`. -/
def fmtD (n : Nat) : String := (Nat.toDigits 10 n).asString

/-- The verb `%d` of a signed integer. -/
def fmtInt (z : Int) : String := if z < 0 then "-" ++ fmtD z.natAbs else fmtD z.natAbs

/-- The result of running a piece of Go code that can panic. -/
inductive Outcome (α : Type)
  | ret (a : α)
  | panic (msg : String)
  deriving Repr, DecidableEq

/-- Wrap-around of a mathematical integer to `int64`. -/
def wrap64 (z : Int) : Int := (z + 2 ^ 63) % 2 ^ 64 - 2 ^ 63

/-! ## `pkg/docker/types.go` -/

/-- The constant `LAYER_PART_MAX_SIZE`. -/
def LAYER_PART_MAX_SIZE : Int := 10485760

/-- The constant `IMAGE_MANIFEST_MAX_SIZE`. -/
def IMAGE_MANIFEST_MAX_SIZE : Int := 4194304

/-! ## `float64` -/

/-- A finite `float64`: the value is `man * 2 ^ exp`. -/
structure Float64 where
  man : Int
  exp : Int
  deriving Repr, DecidableEq

/-- Floor of the binary logarithm, by halving (`fuel` bounds the number of
halvings). -/
def log2Fuel : Nat → Nat → Nat
  | 0, _ => 0
  | fuel + 1, n => if n < 2 then 0 else 1 + log2Fuel fuel (n / 2)

/-- Floor of the binary logarithm of `n` (`0` for `n = 0`). -/
def ilog2 (n : Nat) : Nat := log2Fuel n n

/-- Rounds the integer quotient `q` with remainder `r` of a division by `d` to the
nearest integer, ties to even. -/
def roundHalfEven (q r d : Nat) : Nat :=
  if 2 * r < d then q
  else if d < 2 * r then q + 1
  else if q % 2 = 0 then q else q + 1

/-- The positive rational `n / d` rounded to a 53-bit significand, ties to even:
the result `(m, e)` stands for `m * 2 ^ e`, where `e` is chosen so that
`2^52 ≤ n / (d * 2^e) < 2^53`. -/
def roundRatio (n d : Nat) : Nat × Int :=
  if n = 0 then (0, 0)
  else
    let e0 : Int := (ilog2 n : Int) - (ilog2 d : Int) - 52
    let e : Int := if n * 2 ^ (-e0).toNat < 2 ^ 52 * (d * 2 ^ e0.toNat) then e0 - 1 else e0
    let num := n * 2 ^ (-e).toNat
    let den := d * 2 ^ e.toNat
    (roundHalfEven (num / den) (num % den) den, e)

/-- The conversion `float64(x)` of an integer. -/
def Float64.ofInt (x : Int) : Float64 :=
  let r := roundRatio x.natAbs 1
  ⟨x.sign * r.1, r.2⟩

/-- The quotient `a / b` of two floats, `b` not zero. -/
def Float64.div (a b : Float64) : Float64 :=
  let sh := a.exp - b.exp
  let r := roundRatio (a.man.natAbs * 2 ^ sh.toNat) (b.man.natAbs * 2 ^ (-sh).toNat)
  ⟨a.man.sign * b.man.sign * r.1, r.2⟩

/-- Go `math.Ceil`. -/
def Float64.ceil (a : Float64) : Float64 :=
  if 0 ≤ a.exp then a else ⟨-((-a.man) / ((2 ^ (-a.exp).toNat : Nat) : Int)), 0⟩

/-- The comparison `a <= b` of two floats. -/
def Float64.le (a b : Float64) : Bool :=
  decide (a.man * ((2 ^ (a.exp - b.exp).toNat : Nat) : Int)
    ≤ b.man * ((2 ^ (b.exp - a.exp).toNat : Nat) : Int))

/-- Go `math.Min`. -/
def Float64.min (a b : Float64) : Float64 := if a.le b then a else b

/-- The conversion `int(a)` or `int64(a)`: truncation toward zero. -/
def Float64.toInt (a : Float64) : Int :=
  if 0 ≤ a.exp then a.man * ((2 ^ a.exp.toNat : Nat) : Int)
  else Int.tdiv a.man ((2 ^ (-a.exp).toNat : Nat) : Int)

/-- The conversion `uint64(a)` of a float that is not negative. -/
def Float64.toUint64 (a : Float64) : Nat := a.toInt.toNat % 2 ^ 64

/-! ## Paths and strings -/

/-- Splits a path at every `/`. -/
def splitSlash : List Char → List (List Char)
  | [] => [[]]
  | c :: cs =>
    if c = '/' then [] :: splitSlash cs
    else
      match splitSlash cs with
      | [] => [[c]]
      | w :: ws => (c :: w) :: ws

/-- The element loop of `filepath.Clean`: `acc` holds the elements kept so far,
the last one first. -/
def cleanElems (rooted : Bool) : List (List Char) → List (List Char) → List (List Char)
  | [], acc => acc.reverse
  | el :: rest, acc =>
    if el = [] ∨ el = ['.'] then cleanElems rooted rest acc
    else if el = ['.', '.'] then
      match acc with
      | [] => if rooted then cleanElems rooted rest [] else cleanElems rooted rest [el]
      | top :: acc1 =>
        if top = ['.', '.'] then cleanElems rooted rest (el :: top :: acc1)
        else cleanElems rooted rest acc1
    else cleanElems rooted rest (el :: acc)

/-- Go `filepath.Clean` on a Unix path. -/
def filepathClean (p : String) : String :=
  if p = "" then "."
  else
    let rooted := p.data.head? = some '/'
    let body := String.mk (List.intercalate ['/'] (cleanElems rooted (splitSlash p.data) []))
    let res := if rooted then "/" ++ body else body
    if res = "" then "." else res

/-- Go `filepath.Join`: the elements from the first non-empty one on are joined
with `/` and the result is cleaned; no non-empty element gives `""`. -/
def filepathJoin : List String → String
  | [] => ""
  | e :: es => if e = "" then filepathJoin es else filepathClean ("/".intercalate (e :: es))

/-- Replaces the first `:` of a list of characters by `__`. -/
def replaceFirstColon : List Char → List Char
  | [] => []
  | c :: cs => if c = ':' then '_' :: '_' :: cs else c :: replaceFirstColon cs

/-- Go `strings.Replace(digest, ":", "__", 1)`. -/
def stringsReplaceColon (digest : String) : String := String.mk (replaceFirstColon digest.data)

/-! ## The logger (`pkg/logger/logger.go`) -/

/-- A value of the interface `ILogger`; what it prints is not modelled. -/
inductive ILogger
  | mk
  deriving DecidableEq, Repr

/-- The message of the run-time panic of a nil dereference. -/
def nilDeref : String := "runtime error: invalid memory address or nil pointer dereference"

/-- A call `logger.Printfln(...)`: panics on a nil logger. -/
def Printfln (logger : Option ILogger) : Outcome Unit :=
  match logger with
  | none => .panic nilDeref
  | some _ => .ret ()

/-! ## Local files -/

/-- What one call of `file.Read` does. -/
inductive ReadStep
  | full
  | short (n : Nat)
  | fail (e : GoError)

/-- An open file: its bytes, the error of `file.Stat()` if any, and the
behaviour of the successive calls of `file.Read`. -/
structure File where
  data : List Byte
  statErr : Option GoError
  reads : Nat → ReadStep

/-- The error `io.EOF`. -/
def EOF : GoError := .leaf .EOF "EOF"

/-- The call number `j` of `file.Read(buf)` with `len(buf) = size` (the buffer is
all zero before the call) at file offset `pos`: the buffer after the call, the
number of bytes read and the error. A call that obtains no byte for a non-empty
buffer reports `io.EOF`. -/
def File.Read (f : File) (j pos size : Nat) : List Byte × Nat × Option GoError :=
  if size = 0 then ([], 0, none)
  else
    match f.reads j with
    | .fail e => (List.replicate size 0, 0, some e)
    | step =>
      let want := min size (f.data.length - pos)
      let n := match step with
        | .short k => min k want
        | _ => want
      if n = 0 then (List.replicate size 0, 0, some EOF)
      else ((f.data.drop pos).take n ++ List.replicate (size - n) 0, n, none)

/-- The ordered map of `github.com/elliotchance/orderedmap/v2`, keys in insertion
order. -/
structure OrderedMap where
  entries : List (String × List Byte)
  deriving DecidableEq, Repr

/-- The map `orderedmap.NewOrderedMap()`. -/
def OrderedMap.empty : OrderedMap := ⟨[]⟩

/-- Replaces the value of key `k` in a list of entries where it occurs. -/
def replaceValue (k : String) (v : List Byte) : List (String × List Byte) → List (String × List Byte)
  | [] => []
  | (k1, v1) :: es => if k1 = k then (k1, v) :: es else (k1, v1) :: replaceValue k v es

/-- The method `Set`: a present key keeps its place and takes the new value, a new key
goes last. -/
def OrderedMap.Set (m : OrderedMap) (k : String) (v : List Byte) : OrderedMap :=
  if (m.entries.map Prod.fst).contains k then ⟨replaceValue k v m.entries⟩
  else ⟨m.entries ++ [(k, v)]⟩

/-- The method `Keys`. -/
def OrderedMap.Keys (m : OrderedMap) : List String := m.entries.map Prod.fst

/-- The method `Get`. -/
def OrderedMap.Get (m : OrderedMap) (k : String) : Option (List Byte) :=
  (m.entries.find? (fun kv => kv.1 == k)).map Prod.snd

/-- The part of the local file system that the upload reads. -/
structure FileSystem where
  ReadFile : String → Except GoError (List Byte)
  Stat : String → Except GoError Int
  Open : String → Except GoError File

/-! ## `layerBlobParts` -/

/-- The constant `fileChunk` of `layerBlobParts`. -/
def fileChunk : Int := LAYER_PART_MAX_SIZE

/-- The expression `uint64(math.Ceil(float64(fileSize) / float64(fileChunk)))`. -/
def totalPartsNum (fileSize : Int) : Nat :=
  ((Float64.ofInt fileSize).div (Float64.ofInt fileChunk)).ceil.toUint64

/-- The expression
`int(math.Min(float64(fileChunk), float64(fileSize-int64(int64(i)*fileChunk))))`. -/
def partSize (fileSize : Int) (i : Nat) : Int :=
  ((Float64.ofInt fileChunk).min
    (Float64.ofInt (wrap64 (fileSize - wrap64 (wrap64 i * fileChunk))))).toInt

/-- The loop of `layerBlobParts` with `k` iterations left, at index `i` and file
offset `pos`. -/
def layerBlobPartsLoop (file : File) (fileSize : Int) :
    Nat → Nat → Nat → OrderedMap → Outcome (Option OrderedMap × Option GoError)
  | 0, _, _, blobsOrdered => .ret (some blobsOrdered, none)
  | k + 1, i, pos, blobsOrdered =>
    if partSize fileSize i < 0 then .panic "runtime error: makeslice: len out of range"
    else
      let r := file.Read i pos (partSize fileSize i).toNat
      match r.2.2 with
      | some err => .ret (none, some (ErrorfW "error reading partBuffer: " err ""))
      | none =>
        layerBlobPartsLoop file fileSize k (i + 1) (pos + r.2.1)
          (blobsOrdered.Set ("part_" ++ fmtD i) r.1)

/-- The function `layerBlobParts`. -/
def layerBlobParts (fs : FileSystem) (_digest blobPath : String) (logger : Option ILogger) :
    Outcome (Option OrderedMap × Option GoError) :=
  match fs.Open blobPath with
  | .error err => .ret (none, some (ErrorfW ("error reading " ++ fmtQ blobPath ++ ": ") err ""))
  | .ok file =>
    match file.statErr with
    | some err => .ret (none, some (ErrorfW "error with file.Stat(): " err ""))
    | none =>
      let fileSize : Int := wrap64 file.data.length
      match Printfln logger with
      | .panic msg => .panic msg
      | .ret _ => layerBlobPartsLoop file fileSize (totalPartsNum fileSize) 0 0 OrderedMap.empty


/-! ## The registry client (`IClient`) -/

/-- The type `ecrTypes.Repository` (the fields that the code reads). -/
structure Repository where
  RepositoryName : Option String
  RepositoryArn : Option String
  RepositoryUri : Option String
  deriving DecidableEq, Repr

/-- The type `ecr.DescribeRepositoriesInput`. -/
structure DescribeRepositoriesInput where
  RegistryId : String
  RepositoryNames : List String
  deriving DecidableEq, Repr

/-- The type `ecr.DescribeRepositoriesOutput`. -/
structure DescribeRepositoriesOutput where
  Repositories : List Repository
  deriving DecidableEq, Repr

/-- The type `ecr.CreateRepositoryInput`. -/
structure CreateRepositoryInput where
  RepositoryName : String
  EncryptionType : String
  ScanOnPush : Bool
  ImageTagMutability : String
  RegistryId : String
  Tags : List (String × String)
  deriving DecidableEq, Repr

/-- The type `ecr.CreateRepositoryOutput`. -/
structure CreateRepositoryOutput where
  Repository : Option Repository
  deriving DecidableEq, Repr

/-- The type `ecr.InitiateLayerUploadInput`. -/
structure InitiateLayerUploadInput where
  RepositoryName : String
  RegistryId : String
  deriving DecidableEq, Repr

/-- The type `ecr.InitiateLayerUploadOutput`. -/
structure InitiateLayerUploadOutput where
  UploadId : Option String
  deriving DecidableEq, Repr

/-- The type `ecr.UploadLayerPartInput`. -/
structure UploadLayerPartInput where
  LayerPartBlob : List Byte
  PartFirstByte : Int
  PartLastByte : Int
  RepositoryName : String
  UploadId : Option String
  RegistryId : String
  deriving DecidableEq, Repr

/-- The type `ecr.UploadLayerPartOutput`. -/
structure UploadLayerPartOutput where
  LastByteReceived : Option Int
  deriving DecidableEq, Repr

/-- The type `ecr.CompleteLayerUploadInput`. -/
structure CompleteLayerUploadInput where
  LayerDigests : List String
  RepositoryName : String
  UploadId : Option String
  RegistryId : String
  deriving DecidableEq, Repr

/-- The type `ecr.CompleteLayerUploadOutput`. -/
structure CompleteLayerUploadOutput where
  LayerDigest : Option String
  deriving DecidableEq, Repr

/-- The type `ecr.PutImageInput`; the manifest string is kept as its bytes. -/
structure PutImageInput where
  ImageManifest : List Byte
  RepositoryName : String
  ImageTag : String
  RegistryId : String
  deriving DecidableEq, Repr

/-- The type `ecrTypes.Image`. -/
structure Image where
  ImageDigest : Option String
  ImageTag : Option String
  ImageManifest : Option (List Byte)
  RegistryId : Option String
  RepositoryName : Option String
  deriving DecidableEq, Repr

/-- The type `ecr.PutImageOutput`. -/
structure PutImageOutput where
  Image : Option Image
  deriving DecidableEq, Repr

/-- One call to the registry: the input, and the output and error it returned. -/
inductive Event
  | DescribeRepositories (inp : DescribeRepositoriesInput)
      (out : Option DescribeRepositoriesOutput) (err : Option GoError)
  | CreateRepository (inp : CreateRepositoryInput)
      (out : Option CreateRepositoryOutput) (err : Option GoError)
  | InitiateLayerUpload (inp : InitiateLayerUploadInput)
      (out : Option InitiateLayerUploadOutput) (err : Option GoError)
  | UploadLayerPart (inp : UploadLayerPartInput)
      (out : Option UploadLayerPartOutput) (err : Option GoError)
  | CompleteLayerUpload (inp : CompleteLayerUploadInput)
      (out : Option CompleteLayerUploadOutput) (err : Option GoError)
  | PutImage (inp : PutImageInput) (out : Option PutImageOutput) (err : Option GoError)
  deriving DecidableEq, Repr

/-- A value of the interface `IClient`: each method answers from the calls made so far and
its input. -/
structure IClient where
  InitiateLayerUpload : List Event → InitiateLayerUploadInput →
    Option InitiateLayerUploadOutput × Option GoError
  UploadLayerPart : List Event → UploadLayerPartInput →
    Option UploadLayerPartOutput × Option GoError
  CompleteLayerUpload : List Event → CompleteLayerUploadInput →
    Option CompleteLayerUploadOutput × Option GoError
  PutImage : List Event → PutImageInput → Option PutImageOutput × Option GoError
  DescribeRepositories : List Event → DescribeRepositoriesInput →
    Option DescribeRepositoriesOutput × Option GoError
  CreateRepository : List Event → CreateRepositoryInput →
    Option CreateRepositoryOutput × Option GoError

/-- The struct `UploadInput`. -/
structure UploadInput where
  Client : Option IClient
  RepositoryName : String
  RegistryId : String
  ImageLayersPath : String
  Tag : String
  RoleToAssume : String
  Logger : Option ILogger

/-- The result of a piece of code that calls the registry: its outcome and the trace of
all the calls made so far. -/
abbrev Run (α : Type) := Outcome α × List Event

/-! ## The manifest (`github.com/containers/image/v5/manifest`) -/

/-- The type `types.BlobInfo`: a digest, a size and a media type. -/
structure BlobInfo where
  Digest : String
  Size : Int
  MediaType : String
  deriving DecidableEq, Repr

/-- A parsed manifest: what `ConfigInfo()` and `LayerInfos()` return. -/
structure Manifest where
  ConfigInfo : BlobInfo
  LayerInfos : List BlobInfo
  deriving DecidableEq, Repr

/-- What the code uses of the world outside the registry: the file system, the manifest
library (`man.GuessMIMEType`, `man.FromBlob`) and the terminal spinner
(`pterm.DefaultSpinner.Start`, as a function of the part key and the part length). -/
structure Env where
  fs : FileSystem
  GuessMIMEType : List Byte → String
  ManifestFromBlob : List Byte → String → Except GoError Manifest
  SpinnerStart : String → Nat → Option GoError

/-- A call `logger.Printfln(...)` whose arguments dereference the pointers `ptrs`. -/
def logDeref (logger : Option ILogger) (ptrs : List (Option String)) : Outcome Unit :=
  if ptrs.all Option.isSome then Printfln logger else .panic nilDeref

/-! ## `pkg/docker/manifest.go` -/

/-- The function `FromBlob`. -/
def FromBlob (env : Env) (manifestBlob : List Byte) (logger : Option ILogger) :
    Outcome (Option Manifest × Option GoError) :=
  let mimeType := env.GuessMIMEType manifestBlob
  if mimeType = "" then .ret (none, some (Errorf "MIME type is unknown or unrecognised"))
  else
    match env.ManifestFromBlob manifestBlob mimeType with
    | .error err => .ret (none, some (ErrorfW "error parsing image from blob: " err ""))
    | .ok parsed =>
      match Printfln logger with
      | .panic msg => .panic msg
      | .ret _ => .ret (some parsed, none)

/-! ## `pkg/upload/upload.go` -/

/-- The input of `CreateRepository` that `checkRepo` builds. -/
def createRepositoryInput (input : UploadInput) : CreateRepositoryInput :=
  { RepositoryName := input.RepositoryName
    EncryptionType := "KMS"
    ScanOnPush := true
    ImageTagMutability := "IMMUTABLE"
    RegistryId := input.RegistryId
    Tags := [("bu", "corporate"), ("div", "coe"), ("proj", "adc")] }

/-- The input of `DescribeRepositories` that `checkRepo` builds. -/
def describeRepositoriesInput (input : UploadInput) : DescribeRepositoriesInput :=
  { RegistryId := input.RegistryId, RepositoryNames := [input.RepositoryName] }

/-- The input of `InitiateLayerUpload` that `initLayerUpload` builds. -/
def initiateLayerUploadInput (input : UploadInput) : InitiateLayerUploadInput :=
  { RepositoryName := input.RepositoryName, RegistryId := input.RegistryId }

/-- The input of `UploadLayerPart` that `doUploadLayerParts` builds for the part `v` at
offset `firstPart`. -/
def uploadLayerPartInput (input : UploadInput) (initOut : InitiateLayerUploadOutput)
    (v : List Byte) (firstPart : Int) : UploadLayerPartInput :=
  { LayerPartBlob := v
    PartFirstByte := firstPart
    PartLastByte := firstPart + ((v.length : Int) - 1)
    RepositoryName := input.RepositoryName
    UploadId := initOut.UploadId
    RegistryId := input.RegistryId }

/-- The input of `CompleteLayerUpload` that `completeLayerUpload` builds. -/
def completeLayerUploadInput (input : UploadInput) (uploadId : Option String)
    (layerDigest : List String) : CompleteLayerUploadInput :=
  { LayerDigests := layerDigest, RepositoryName := input.RepositoryName,
    UploadId := uploadId, RegistryId := input.RegistryId }

/-- The input of `PutImage` that `putEcrImage` builds from the bytes of the manifest
file. -/
def putImageInput (input : UploadInput) (manBuffer : List Byte) : PutImageInput :=
  { ImageManifest := manBuffer, RepositoryName := input.RepositoryName,
    ImageTag := input.Tag, RegistryId := input.RegistryId }

/-- The function `checkRepo`. -/
def checkRepo (input : UploadInput) (tr : List Event) :
    Run (Option DescribeRepositoriesOutput × Option CreateRepositoryOutput × Option GoError) :=
  match input.Client with
  | none => (.panic nilDeref, tr)
  | some client =>
    let r := client.DescribeRepositories tr (describeRepositoriesInput input)
    let tr1 := tr ++ [Event.DescribeRepositories (describeRepositoriesInput input) r.1 r.2]
    match r.2 with
    | some err =>
      match err.As .RepositoryNotFoundException with
      | some _ =>
        let c := client.CreateRepository tr1 (createRepositoryInput input)
        let tr2 := tr1 ++ [Event.CreateRepository (createRepositoryInput input) c.1 c.2]
        match c.2 with
        | some _ => (.ret (none, none, some (ErrorfW "error creating repository: " err "")), tr2)
        | none => (.ret (none, c.1, none), tr2)
      | none => (.ret (none, none, some (ErrorfW "error describing repositories: " err "")), tr1)
    | none =>
      match r.1 with
      | none => (.panic nilDeref, tr1)
      | some descOut =>
        if descOut.Repositories.length ≠ 1 then
          (.ret (none, none, some (Errorf ("invalid number of repositories found ("
            ++ fmtD descOut.Repositories.length ++ "), expected 1"))), tr1)
        else (.ret (some descOut, none, none), tr1)

/-- The function `initLayerUpload`. -/
def initLayerUpload (input : UploadInput) (tr : List Event) :
    Run (Option InitiateLayerUploadOutput × Option GoError) :=
  match input.Client with
  | none => (.panic nilDeref, tr)
  | some client =>
    let r := client.InitiateLayerUpload tr (initiateLayerUploadInput input)
    (.ret r, tr ++ [Event.InitiateLayerUpload (initiateLayerUploadInput input) r.1 r.2])

/-- The verb `%v` of a slice of strings. -/
def fmtV (l : List String) : String := "[" ++ " ".intercalate l ++ "]"

/-- The function `completeLayerUpload`. -/
def completeLayerUpload (input : UploadInput) (uploadId : Option String)
    (layerDigest : List String) (tr : List Event) : Run (String × Option GoError) :=
  match input.Client with
  | none => (.panic nilDeref, tr)
  | some client =>
    let r := client.CompleteLayerUpload tr (completeLayerUploadInput input uploadId layerDigest)
    let tr1 := tr ++ [Event.CompleteLayerUpload
      (completeLayerUploadInput input uploadId layerDigest) r.1 r.2]
    match r.2 with
    | some err =>
      match err.As .InvalidLayerException with
      | some digestEx =>
        (.ret ("", some (ErrorfW "completeLayerUpload invalid layer: " digestEx
          ("\nlayer digest: " ++ fmtV layerDigest))), tr1)
      | none =>
        (.ret ("", some (ErrorfW "completeLayerUpload: " err
          ("\nlayer digest: " ++ fmtV layerDigest))), tr1)
    | none =>
      match r.1 with
      | none => (.panic nilDeref, tr1)
      | some output =>
        match output.LayerDigest with
        | none => (.panic nilDeref, tr1)
        | some d => (.ret (d, none), tr1)

/-- The loop over `blobs.Keys()` of `doUploadLayerParts`. The result `some err` is an
early return of the function with `err`; `none` means that the loop ran to its end. -/
def uploadPartsLoop (env : Env) (client : Option IClient) (input : UploadInput)
    (initOut : InitiateLayerUploadOutput) (blobs : OrderedMap) :
    List String → Int → List Event → Run (Option GoError)
  | [], _, tr => (.ret none, tr)
  | key :: keys, firstPart, tr =>
    match blobs.Get key with
    | none => (.ret (some (Errorf "error getting blob")), tr)
    | some v =>
      match env.SpinnerStart key v.length with
      | some err => (.ret (some (ErrorfW "error starting spinner: " err "")), tr)
      | none =>
        match logDeref input.Logger [initOut.UploadId] with
        | .panic msg => (.panic msg, tr)
        | .ret _ =>
          match client with
          | none => (.panic nilDeref, tr)
          | some c =>
            let r := c.UploadLayerPart tr (uploadLayerPartInput input initOut v firstPart)
            let tr1 := tr ++ [Event.UploadLayerPart
              (uploadLayerPartInput input initOut v firstPart) r.1 r.2]
            match r.2 with
            | some err => (.ret (some (ErrorfW "upload layer part error: " err "")), tr1)
            | none =>
              match r.1 with
              | none => (.panic nilDeref, tr1)
              | some _ =>
                uploadPartsLoop env client input initOut blobs keys
                  (firstPart + (v.length : Int)) tr1

/-- The function `doUploadLayerParts`. -/
def doUploadLayerParts (env : Env) (client : Option IClient) (input : UploadInput)
    (digest : String) (tr : List Event) : Run (Option GoError) :=
  match initLayerUpload input tr with
  | (.panic msg, tr1) => (.panic msg, tr1)
  | (.ret (_, some err), tr1) => (.ret (some (ErrorfW "error initiating layer upload: " err "")), tr1)
  | (.ret (initOutPtr, none), tr1) =>
    let blobPath := filepathJoin [input.ImageLayersPath, stringsReplaceColon digest]
    match env.fs.Stat blobPath with
    | .error _ => (.ret (some (Errorf ("error reading file info for " ++ blobPath))), tr1)
    | .ok _ =>
      match Printfln input.Logger with
      | .panic msg => (.panic msg, tr1)
      | .ret _ =>
        match initOutPtr with
        | none => (.panic nilDeref, tr1)
        | some initOut =>
          match logDeref input.Logger [initOut.UploadId] with
          | .panic msg => (.panic msg, tr1)
          | .ret _ =>
            match layerBlobParts env.fs digest blobPath input.Logger with
            | .panic msg => (.panic msg, tr1)
            | .ret (_, some err) => (.ret (some (ErrorfW "error getting layer parts: " err "")), tr1)
            | .ret (none, none) => (.panic nilDeref, tr1)
            | .ret (some blobs, none) =>
              match uploadPartsLoop env client input initOut blobs blobs.Keys 0 tr1 with
              | (.panic msg, tr2) => (.panic msg, tr2)
              | (.ret (some err), tr2) => (.ret (some err), tr2)
              | (.ret none, tr2) =>
                match completeLayerUpload input initOut.UploadId [digest] tr2 with
                | (.panic msg, tr3) => (.panic msg, tr3)
                | (.ret (_, none), tr3) => (.ret none, tr3)
                | (.ret (_, some err), tr3) =>
                  match err.As .LayerAlreadyExistsException with
                  | some _ =>
                    match Printfln input.Logger with
                    | .panic msg => (.panic msg, tr3)
                    | .ret _ => (.ret none, tr3)
                  | none => (.ret (some err), tr3)

/-- The loop over `manifest.LayerInfos()` of `uploadLayerParts`. -/
def uploadLayersLoop (env : Env) (input : UploadInput) :
    List BlobInfo → List Event → Run (Option GoError)
  | [], tr => (.ret none, tr)
  | layer :: layers, tr =>
    match Printfln input.Logger with
    | .panic msg => (.panic msg, tr)
    | .ret _ =>
      match doUploadLayerParts env input.Client input layer.Digest tr with
      | (.panic msg, tr1) => (.panic msg, tr1)
      | (.ret (some err), tr1) => (.ret (some (ErrorfW "error uploading layer: " err "")), tr1)
      | (.ret none, tr1) => uploadLayersLoop env input layers tr1

/-- The function `uploadLayerParts`. -/
def uploadLayerParts (env : Env) (input : UploadInput) (manifest : Manifest)
    (tr : List Event) : Run (Option GoError) :=
  match Printfln input.Logger with
  | .panic msg => (.panic msg, tr)
  | .ret _ =>
    match doUploadLayerParts env input.Client input manifest.ConfigInfo.Digest tr with
    | (.panic msg, tr1) => (.panic msg, tr1)
    | (.ret (some err), tr1) => (.ret (some (ErrorfW "error uploading config layer: " err "")), tr1)
    | (.ret none, tr1) => uploadLayersLoop env input manifest.LayerInfos tr1

/-- The function `putEcrImage`. -/
def putEcrImage (env : Env) (input : UploadInput) (_manifest : Manifest) (tr : List Event) :
    Run (Option Image × Option GoError) :=
  let manifestPath := filepathJoin [input.ImageLayersPath, "manifest.json"]
  match env.fs.ReadFile manifestPath with
  | .error _ => (.ret (none, some (Errorf ("error reading " ++ fmtQ manifestPath))), tr)
  | .ok manBuffer =>
    if (manBuffer.length : Int) > IMAGE_MANIFEST_MAX_SIZE then
      (.ret (none, some (Errorf ("image manifest too large, " ++ fmtD manBuffer.length
        ++ " is greated than " ++ fmtInt IMAGE_MANIFEST_MAX_SIZE))), tr)
    else
      match input.Client with
      | none => (.panic nilDeref, tr)
      | some client =>
        let r := client.PutImage tr (putImageInput input manBuffer)
        let tr1 := tr ++ [Event.PutImage (putImageInput input manBuffer) r.1 r.2]
        match r.2 with
        | some err => (.ret (none, some (ErrorfW "put image error: " err "")), tr1)
        | none =>
          match r.1 with
          | none => (.panic nilDeref, tr1)
          | some output => (.ret (output.Image, none), tr1)

/-- The error of `Upload` for a manifest of `total` layers, config included, above the
limit. -/
def tooManyLayers (total : Nat) : GoError :=
  Errorf ("too many layers (100 max): " ++ fmtD total
    ++ " - https://docs.aws.amazon.com/AmazonECR/latest/APIReference/API_PutImage.html")

/-- The log lines of `Upload` about the repository that `checkRepo` found or created. -/
def logRepository (logger : Option ILogger) (descOut : Option DescribeRepositoriesOutput)
    (createOut : Option CreateRepositoryOutput) : Outcome Unit :=
  let found : Outcome Unit :=
    match descOut with
    | none => .ret ()
    | some d =>
      match d.Repositories with
      | [] => .panic "runtime error: index out of range [0] with length 0"
      | repo :: _ =>
        logDeref logger [repo.RepositoryName, repo.RepositoryArn, repo.RepositoryUri]
  match found with
  | .panic msg => .panic msg
  | .ret _ =>
    match createOut with
    | none => .ret ()
    | some c =>
      match c.Repository with
      | none => .panic nilDeref
      | some repo => logDeref logger [repo.RepositoryName, repo.RepositoryArn, repo.RepositoryUri]

/-- The function `Upload`. -/
def Upload (env : Env) (input : UploadInput) (tr : List Event) :
    Run (Option Image × Option GoError) :=
  match env.fs.ReadFile (filepathJoin [input.ImageLayersPath, "manifest.json"]) with
  | .error err => (.ret (none, some (ErrorfW "error reading manifest file: " err "")), tr)
  | .ok manBuffer =>
    match FromBlob env manBuffer input.Logger with
    | .panic msg => (.panic msg, tr)
    | .ret (_, some err) =>
      (.ret (none, some (ErrorfW "error parsing manifest from blob: " err "")), tr)
    | .ret (none, none) => (.panic nilDeref, tr)
    | .ret (some manifest, none) =>
      if manifest.LayerInfos.length + 1 > 100 then
        (.ret (none, some (tooManyLayers (manifest.LayerInfos.length + 1))), tr)
      else
        match checkRepo input tr with
        | (.panic msg, tr1) => (.panic msg, tr1)
        | (.ret (_, _, some err), tr1) =>
          (.ret (none, some (ErrorfW "error checking Repository: " err "")), tr1)
        | (.ret (descOut, createOut, none), tr1) =>
          match logRepository input.Logger descOut createOut with
          | .panic msg => (.panic msg, tr1)
          | .ret _ =>
            match uploadLayerParts env input manifest tr1 with
            | (.panic msg, tr2) => (.panic msg, tr2)
            | (.ret (some err), tr2) =>
              (.ret (none, some (ErrorfW "error uploading layer parts: " err "")), tr2)
            | (.ret none, tr2) =>
              match putEcrImage env input manifest tr2 with
              | (.panic msg, tr3) => (.panic msg, tr3)
              | (.ret (_, some err), tr3) =>
                (.ret (none, some (ErrorfW "error putting image: " err "")), tr3)
              | (.ret (image, none), tr3) => (.ret (image, none), tr3)

/-! ## Vocabulary of the statements -/

/-- The number of parts that covers `S` bytes: `ceil(S / LAYER_PART_MAX_SIZE)`. -/
def ceilParts (S : Nat) : Nat := (S + 10485759) / 10485760

/-- The key of part `i`: `fmt.Sprintf("part_%d", i)`. -/
def partKey (i : Nat) : String := "part_" ++ fmtD i

/-- The parts `i`, ..., `i + k - 1` of `data` cut at multiples of `LAYER_PART_MAX_SIZE`,
with their keys. -/
def chunksFrom (data : List Byte) (i k : Nat) : List (String × List Byte) :=
  (List.range' i k).map (fun j => (partKey j, (data.drop (j * 10485760)).take 10485760))

/-! ## Concrete inputs -/

/-- A file of three bytes that is read without short reads or errors. -/
def smallFile : File := { data := [1, 2, 3], statErr := none, reads := fun _ => .full }

/-- A file system in which every blob is `smallFile` and the manifest file is empty. -/
def smallFs : FileSystem :=
  { ReadFile := fun _ => .ok [], Stat := fun _ => .ok 3, Open := fun _ => .ok smallFile }

/-- A file of three bytes whose reads return at most two bytes, without an error. -/
def shortFile : File := { data := [1, 2, 3], statErr := none, reads := fun _ => .short 2 }

/-- A file system in which every blob is `shortFile`. -/
def shortFs : FileSystem :=
  { ReadFile := fun _ => .ok [], Stat := fun _ => .ok 3, Open := fun _ => .ok shortFile }

/-! ## The upload protocol as a state machine -/

/-- The digests that `Upload` transfers, in order: the config blob, then the layers of the
manifest. -/
def allDigests (manifest : Manifest) : List String :=
  manifest.ConfigInfo.Digest :: manifest.LayerInfos.map (fun layer => layer.Digest)

/-- Where a run of `Upload` stands, as seen from the registry: nothing asked yet; the
repository is being created; no blob in transfer and the blobs `todo` left; the blob `d`
in transfer and `todo` left after it; the image put; a call failed fatally. -/
inductive Phase
  | start (todo : List String)
  | creating (todo : List String)
  | idle (todo : List String)
  | uploading (d : String) (todo : List String)
  | done
  | failed
  deriving DecidableEq, Repr

/-- The calls that the protocol admits in a phase, and the phase that follows. -/
def protocolStep : Phase → Event → Option Phase
  | .start todo, .DescribeRepositories _ _ none => some (.idle todo)
  | .start todo, .DescribeRepositories _ _ (some e) =>
    if (e.As .RepositoryNotFoundException).isSome then some (.creating todo) else some .failed
  | .creating todo, .CreateRepository _ _ none => some (.idle todo)
  | .creating _, .CreateRepository _ _ (some _) => some .failed
  | .idle (d :: todo), .InitiateLayerUpload _ _ none => some (.uploading d todo)
  | .idle (_ :: _), .InitiateLayerUpload _ _ (some _) => some .failed
  | .uploading d todo, .UploadLayerPart _ _ none => some (.uploading d todo)
  | .uploading _ _, .UploadLayerPart _ _ (some _) => some .failed
  | .uploading d todo, .CompleteLayerUpload inp _ none =>
    if inp.LayerDigests = [d] then some (.idle todo) else none
  | .uploading d todo, .CompleteLayerUpload inp _ (some e) =>
    if inp.LayerDigests = [d] then
      (if (e.As .LayerAlreadyExistsException).isSome then some (.idle todo) else some .failed)
    else none
  | .idle [], .PutImage _ _ none => some .done
  | .idle [], .PutImage _ _ (some _) => some .failed
  | _, _ => none

/-- Runs the protocol over a sequence of calls; `none` when a call is not admitted. -/
def protocolRun : Phase → List Event → Option Phase
  | p, [] => some p
  | p, e :: es =>
    match protocolStep p e with
    | none => none
    | some q => protocolRun q es

/-- A registry call that failed fatally: `InitiateLayerUpload` or `UploadLayerPart` with an
error, or `CompleteLayerUpload` with an error that is not a `LayerAlreadyExistsException`. -/
def Event.fatal : Event → Bool
  | .InitiateLayerUpload _ _ (some _) => true
  | .UploadLayerPart _ _ (some _) => true
  | .CompleteLayerUpload _ _ (some e) => (e.As .LayerAlreadyExistsException).isNone
  | _ => false

/-- The event is a call of `PutImage`. -/
def Event.isPutImage : Event → Bool
  | .PutImage _ _ _ => true
  | _ => false

/-- The digest lists of the `CompleteLayerUpload` calls of a trace, in order. -/
def completions : List Event → List (List String)
  | [] => []
  | .CompleteLayerUpload inp _ _ :: es => inp.LayerDigests :: completions es
  | _ :: es => completions es

/-- The inputs of the `UploadLayerPart` calls of a trace, in order. -/
def partInputs : List Event → List UploadLayerPartInput
  | [] => []
  | .UploadLayerPart inp _ _ :: es => inp :: partInputs es
  | _ :: es => partInputs es

/-- The byte ranges of a sequence of part uploads are contiguous from `first` on: each
part starts at the byte after the previous one and ends `len(part) - 1` bytes later. -/
def Contiguous : Int → List UploadLayerPartInput → Prop
  | _, [] => True
  | first, p :: ps =>
    p.PartFirstByte = first ∧ p.PartLastByte = p.PartFirstByte + (p.LayerPartBlob.length : Int) - 1
      ∧ Contiguous (p.PartLastByte + 1) ps

/-- The completions that the protocol still expects in a phase, in order. -/
def Phase.remaining : Phase → List (List String)
  | .start todo => todo.map (fun d => [d])
  | .creating todo => todo.map (fun d => [d])
  | .idle todo => todo.map (fun d => [d])
  | .uploading d todo => [d] :: todo.map (fun d => [d])
  | .done => []
  | .failed => []

/-- The part uploads that `doUploadLayerParts` issues for the buffers `vs`, the first one
at offset `first`. -/
def partCalls (input : UploadInput) (initOut : InitiateLayerUploadOutput) :
    List (List Byte) → Int → List UploadLayerPartInput
  | [], _ => []
  | v :: vs, first =>
    uploadLayerPartInput input initOut v first :: partCalls input initOut vs (first + (v.length : Int))

/-- The byte range and the length of a part upload. -/
def partRange (p : UploadLayerPartInput) : Int × Int × Int :=
  (p.PartFirstByte, p.PartLastByte, (p.LayerPartBlob.length : Int))

/-- The event is a call of `UploadLayerPart`. -/
def Event.isPart : Event → Bool
  | .UploadLayerPart _ _ _ => true
  | _ => false

/-- A registry client whose calls all succeed; the upload id names the number of calls
made before. -/
def okClient : IClient :=
  { InitiateLayerUpload := fun h _ => (some ⟨some ("upload-" ++ fmtD h.length)⟩, none)
    UploadLayerPart := fun _ inp => (some ⟨some inp.PartLastByte⟩, none)
    CompleteLayerUpload := fun _ inp => (some ⟨inp.LayerDigests.head?⟩, none)
    PutImage := fun _ inp =>
      (some ⟨some ⟨none, some inp.ImageTag, some inp.ImageManifest, some inp.RegistryId,
        some inp.RepositoryName⟩⟩, none)
    DescribeRepositories := fun _ inp =>
      (some ⟨[⟨inp.RepositoryNames.head?, some "arn", some "uri"⟩]⟩, none)
    CreateRepository := fun _ inp => (some ⟨some ⟨some inp.RepositoryName, some "arn", some "uri"⟩⟩, none) }

/-- The error that a layer is already in the repository. -/
def layerExists : GoError := .leaf .LayerAlreadyExistsException "LayerAlreadyExistsException"

/-- The client `okClient`, except that every completion reports that the layer exists. -/
def existsClient : IClient :=
  { okClient with CompleteLayerUpload := fun _ _ => (none, some layerExists) }

/-- The client `okClient`, except that `InitiateLayerUpload` fails. -/
def initFailClient : IClient :=
  { okClient with
    InitiateLayerUpload := fun _ _ => (none, some (.leaf (.other "ServerException") "server")) }

/-- A manifest with the config blob and `k` layers. -/
def manifestOf (k : Nat) : Manifest :=
  { ConfigInfo := ⟨"sha256:cfg", 3, "application/vnd.oci.image.config.v1+json"⟩
    LayerInfos := List.replicate k ⟨"sha256:aaaa", 3, "application/vnd.oci.image.layer.v1.tar"⟩ }

/-- A manifest with the config blob and the two layers `sha256:aaaa` and `sha256:bbbb`. -/
def manifest2 : Manifest :=
  { ConfigInfo := ⟨"sha256:cfg", 3, "application/vnd.oci.image.config.v1+json"⟩
    LayerInfos := [⟨"sha256:aaaa", 3, "application/vnd.oci.image.layer.v1.tar"⟩,
      ⟨"sha256:bbbb", 3, "application/vnd.oci.image.layer.v1.tar"⟩] }

/-- A world in which the manifest file parses to `manifest` and every blob is the
three-byte file. -/
def envOf (manifest : Manifest) : Env :=
  { fs := { ReadFile := fun _ => .ok [123, 125], Stat := fun _ => .ok 3,
            Open := fun _ => .ok smallFile }
    GuessMIMEType := fun _ => "application/vnd.oci.image.manifest.v1+json"
    ManifestFromBlob := fun _ _ => .ok manifest
    SpinnerStart := fun _ _ => none }

/-- An upload input around the client `client`. -/
def inputOf (client : IClient) : UploadInput :=
  { Client := some client, RepositoryName := "repo", RegistryId := "123456789012",
    ImageLayersPath := "layers", Tag := "v1", RoleToAssume := "", Logger := some ILogger.mk }


/-- A file of `25000000` zero bytes that is read without short reads or errors. -/
def midFile : File :=
  { data := List.replicate 25000000 0, statErr := none, reads := fun _ => .full }

/-- The world `envOf manifest2`, except that every blob is `midFile`. -/
def midEnv : Env :=
  { envOf manifest2 with
    fs := { ReadFile := fun _ => .ok [123, 125], Stat := fun _ => .ok 25000000,
            Open := fun _ => .ok midFile } }

/-! ## `pkg/download/download.go` -/

/-- Go `filepath.Dir` on a Unix path: the path up to its last `/`, cleaned. -/
def filepathDir (p : String) : String :=
  filepathClean (String.mk ((p.data.reverse.dropWhile (fun c => c ≠ '/')).reverse))

/-- The type `s3types.Object` (the field that the code reads). -/
structure S3Object where
  Key : Option String
  deriving DecidableEq, Repr

/-- The type `s3.ListObjectsV2Output`. -/
structure ListObjectsV2Output where
  Contents : List S3Object
  deriving DecidableEq, Repr

/-- The type `s3.GetObjectInput`. -/
structure GetObjectInput where
  Bucket : String
  Key : String
  deriving DecidableEq, Repr

/-- A value that a `*os.File` points to: `file` is the name of the underlying open file,
`none` for the zero value `os.File{}`, whose `Name()` dereferences a nil pointer. -/
structure OsFile where
  file : Option String
  deriving DecidableEq, Repr

/-- One call of `Download` to the pager, the file system or the download manager, with
what it returned. -/
inductive S3Event
  | NextPage (out : Option ListObjectsV2Output) (err : Option GoError)
  | MkdirAll (name : String) (perm : Nat) (err : Option GoError)
  | Create (name : String) (file : Option OsFile) (err : Option GoError)
  | Download (w : Option OsFile) (inp : GetObjectInput) (n : Int) (err : Option GoError)
  deriving DecidableEq, Repr

/-- A value of the interface `IListObjectsV2Pager`: each method answers from the calls made
so far. -/
structure IListObjectsV2Pager where
  HasMorePages : List S3Event → Bool
  NextPage : List S3Event → Option ListObjectsV2Output × Option GoError

/-- A value of the interface `IDownloadManager`. -/
structure IDownloadManager where
  Download : List S3Event → Option OsFile → GetObjectInput → Int × Option GoError

/-- A value of the interface `IFileSystem`. -/
structure IFileSystem where
  Create : List S3Event → String → Option OsFile × Option GoError
  MkdirAll : List S3Event → String → Nat → Option GoError

/-- The struct `S3DownloaderInput`. -/
structure S3DownloaderInput where
  Pager : Option IListObjectsV2Pager
  Downloader : Option IDownloadManager
  Filesystem : Option IFileSystem
  Bucket : String
  LocalDirectory : String
  Logger : Option ILogger

/-- The result of a piece of `download.go`: its outcome and the trace of the calls made so
far. -/
abbrev S3Run (α : Type) := Outcome α × List S3Event

/-- The lines `if logger != nil { logger.Printfln(..., fd.Name(), ...) }` of
`downloadToFile`: with a logger, `fd.Name()` dereferences `fd` and its file. -/
def logDownloaded (logger : Option ILogger) (fd : Option OsFile) : Outcome Unit :=
  match logger with
  | none => .ret ()
  | some _ =>
    match fd with
    | none => .panic nilDeref
    | some f =>
      match f.file with
      | none => .panic nilDeref
      | some _ => .ret ()

/-- The function `downloadToFile`. The deferred `fd.Close()` has no effect on the result
and is left out; `0o775` is `509`. -/
def downloadToFile (downloader : Option IDownloadManager) (localDirectory bucket key : String)
    (fs : Option IFileSystem) (logger : Option ILogger) (tr : List S3Event) :
    S3Run (Int × Option GoError) :=
  let file := filepathJoin [localDirectory, bucket, key]
  match fs with
  | none => (.panic nilDeref, tr)
  | some fsys =>
    let m := fsys.MkdirAll tr (filepathDir file) 509
    let tr1 := tr ++ [S3Event.MkdirAll (filepathDir file) 509 m]
    match m with
    | some err => (.ret (0, some (ErrorfW "failed to create directories for file: " err "")), tr1)
    | none =>
      let c := fsys.Create tr1 file
      let tr2 := tr1 ++ [S3Event.Create file c.1 c.2]
      match c.2 with
      | some err => (.ret (0, some (ErrorfW "failed to create file: " err "")), tr2)
      | none =>
        match downloader with
        | none => (.panic nilDeref, tr2)
        | some dm =>
          let d := dm.Download tr2 c.1 ⟨bucket, key⟩
          let tr3 := tr2 ++ [S3Event.Download c.1 ⟨bucket, key⟩ d.1 d.2]
          match d.2 with
          | some err => (.ret (0, some (ErrorfW "failed to download file: " err "")), tr3)
          | none =>
            match logDownloaded logger c.1 with
            | .panic msg => (.panic msg, tr3)
            | .ret _ => (.ret (d.1, none), tr3)

/-- The loop over `page.Contents` of `Download`. The result `.error err` is an early return
of `Download` with `(nil, err)`; `.ok downloaded` is the slice after the loop. -/
def downloadObjects (input : S3DownloaderInput) :
    List S3Object → List String → List S3Event → S3Run (Except GoError (List String))
  | [], downloaded, tr => (.ret (.ok downloaded), tr)
  | object :: rest, downloaded, tr =>
    match object.Key with
    | none => (.panic nilDeref, tr)
    | some key =>
      match downloadToFile input.Downloader input.LocalDirectory input.Bucket key
          input.Filesystem input.Logger tr with
      | (.panic msg, tr1) => (.panic msg, tr1)
      | (.ret (_, some err), tr1) =>
        (.ret (.error (ErrorfW "failed to download object: " err "")), tr1)
      | (.ret (_, none), tr1) =>
        downloadObjects input rest
          (downloaded ++ [filepathJoin [input.LocalDirectory, input.Bucket, key]]) tr1

/-- The loop `for input.Pager.HasMorePages()` of `Download`. `fuel` bounds the number of
pages that are requested: the outcome is `none` when the pager still reports more pages
after `fuel` pages. A nil result slice is `none`. -/
def DownloadLoop (input : S3DownloaderInput) (pager : IListObjectsV2Pager) :
    Nat → List String → List S3Event →
      Option (Outcome (Option (List String) × Option GoError)) × List S3Event
  | 0, downloaded, tr =>
    if pager.HasMorePages tr then (none, tr) else (some (.ret (some downloaded, none)), tr)
  | fuel + 1, downloaded, tr =>
    if pager.HasMorePages tr then
      let p := pager.NextPage tr
      let tr1 := tr ++ [S3Event.NextPage p.1 p.2]
      match p.2 with
      | some err => (some (.ret (none, some (ErrorfW "failed to list objects: " err ""))), tr1)
      | none =>
        match p.1 with
        | none => (some (.panic nilDeref), tr1)
        | some page =>
          match downloadObjects input page.Contents downloaded tr1 with
          | (.panic msg, tr2) => (some (.panic msg), tr2)
          | (.ret (.error err), tr2) => (some (.ret (none, some err)), tr2)
          | (.ret (.ok downloaded2), tr2) => DownloadLoop input pager fuel downloaded2 tr2
    else (some (.ret (some downloaded, none)), tr)

/-- The method `S3Downloader.Download`, for at most `fuel` pages. -/
def S3Downloader.Download (input : S3DownloaderInput) (fuel : Nat) (tr : List S3Event) :
    Option (Outcome (Option (List String) × Option GoError)) × List S3Event :=
  match input.Pager with
  | none => (some (.panic nilDeref), tr)
  | some pager => DownloadLoop input pager fuel [] tr

/-! ## The mocks of `pkg/download/download_test.go` -/

/-- The field `PageNum` of the mock pager after the calls `h`: the number of pages
returned. -/
def pageNum : List S3Event → Nat
  | [] => 0
  | .NextPage (some _) none :: es => pageNum es + 1
  | _ :: es => pageNum es

/-- The pager of the tests: `mockListObjectsV2Pager` with the given `Pages`. -/
def mockPager (pages : List ListObjectsV2Output) : IListObjectsV2Pager :=
  { HasMorePages := fun h => decide (pageNum h < pages.length)
    NextPage := fun h =>
      match pages.get? (pageNum h) with
      | none => (none, some (Errorf "no more pages"))
      | some page => (some page, none) }

/-- The pager of `TestDownloaderDownloadPagerError`. -/
def failingPager : IListObjectsV2Pager :=
  { HasMorePages := fun _ => true
    NextPage := fun _ => (none, some (Errorf "error getting next page")) }

/-- The file system of the tests: `MkdirAll` answers `mkdirErr`, and `Create` answers
`createErr` or else `&os.File{}`. -/
def mockFs (mkdirErr createErr : Option GoError) : IFileSystem :=
  { MkdirAll := fun _ _ _ => mkdirErr
    Create := fun _ _ =>
      match createErr with
      | some err => (none, some err)
      | none => (some ⟨none⟩, none) }

/-- The download manager of the tests. -/
def mockDownloadManager (r : Int × Option GoError) : IDownloadManager :=
  { Download := fun _ _ _ => r }

/-- The page with the one object `test-key`. -/
def testPage : ListObjectsV2Output := ⟨[⟨some "test-key"⟩]⟩

/-- The input of `TestDownload`. -/
def testInput : S3DownloaderInput :=
  { Pager := some (mockPager [testPage]), Downloader := some (mockDownloadManager (123, none)),
    Filesystem := some (mockFs none none), Bucket := "test-bucket", LocalDirectory := "",
    Logger := none }

/-- The input of `TestErrorDownloadingObjects`. -/
def testInputTransferError : S3DownloaderInput :=
  { Pager := some (mockPager [testPage]),
    Downloader := some (mockDownloadManager (0, some (Errorf "object not found"))),
    Filesystem := some (mockFs none none), Bucket := "", LocalDirectory := "", Logger := none }

/-- The input of `TestDownloadErrorMkdir`. -/
def testInputMkdirError : S3DownloaderInput :=
  { Pager := some (mockPager [testPage]),
    Downloader := some (mockDownloadManager (0, some (Errorf "error creating directory"))),
    Filesystem := some (mockFs (some (Errorf "error creating directory")) none),
    Bucket := "test-bucket", LocalDirectory := "./testdata", Logger := none }

/-- The input of `TestDownloadErrorFsCreate`. -/
def testInputCreateError : S3DownloaderInput :=
  { Pager := some (mockPager [testPage]),
    Downloader := some (mockDownloadManager (0, some (Errorf "error creating file"))),
    Filesystem := some (mockFs none (some (Errorf "permission error"))),
    Bucket := "test-bucket", LocalDirectory := "./testdata", Logger := none }

/-- Two pages: the objects `a` and `b`, then the object `c`. -/
def twoPages : List ListObjectsV2Output := [⟨[⟨some "a"⟩, ⟨some "b"⟩]⟩, ⟨[⟨some "c"⟩]⟩]

/-- The input of `TestDownload` with the pager of the two pages `twoPages`. -/
def twoPageInput : S3DownloaderInput :=
  { Pager := some (mockPager twoPages), Downloader := some (mockDownloadManager (123, none)),
    Filesystem := some (mockFs none none), Bucket := "test-bucket", LocalDirectory := "",
    Logger := none }

/-! ## The order of the calls of `Download` -/

/-- The local path of the object `key`: `filepath.Join(LocalDirectory, Bucket, key)`. -/
def localPath (input : S3DownloaderInput) (key : String) : String :=
  filepathJoin [input.LocalDirectory, input.Bucket, key]

/-- The call that is due for the first pending object. -/
inductive Stage
  | mkdir
  | create
  | transfer
  deriving DecidableEq, Repr

/-- Where a run of `Download` stands: the objects of the current page that are not yet
downloaded, the call that is due for the first of them and the paths collected so far; or
the error the run has failed with; or `dead` after a page that is nil without an error. -/
inductive S3Phase
  | run (pending : List S3Object) (stage : Stage) (results : List String)
  | failed (err : GoError)
  | dead
  deriving DecidableEq, Repr

/-- The error of `Download` when `downloadToFile` fails with `pre ++ e`. -/
def objectError (pre : String) (e : GoError) : GoError :=
  ErrorfW "failed to download object: " (ErrorfW pre e "") ""

/-- One call in a phase: a page is requested only when no object is pending, and the first
pending object gets its directories, then its file, then its transfer. A call that is out
of order has no next phase. -/
def s3Step (input : S3DownloaderInput) : S3Phase → S3Event → Option S3Phase
  | .run [] .mkdir results, .NextPage (some page) none =>
    some (.run page.Contents .mkdir results)
  | .run [] .mkdir _, .NextPage none none => some .dead
  | .run [] .mkdir _, .NextPage _ (some err) =>
    some (.failed (ErrorfW "failed to list objects: " err ""))
  | .run (o :: rest) .mkdir results, .MkdirAll name perm err =>
    if o.Key.map (fun k => filepathDir (localPath input k)) = some name ∧ perm = 509 then
      match err with
      | none => some (.run (o :: rest) .create results)
      | some e => some (.failed (objectError "failed to create directories for file: " e))
    else none
  | .run (o :: rest) .create results, .Create name _ err =>
    if o.Key.map (localPath input) = some name then
      match err with
      | none => some (.run (o :: rest) .transfer results)
      | some e => some (.failed (objectError "failed to create file: " e))
    else none
  | .run (o :: rest) .transfer results, .Download _ inp _ err =>
    if o.Key = some inp.Key ∧ inp.Bucket = input.Bucket then
      match err with
      | none => some (.run rest .mkdir (results ++ [localPath input inp.Key]))
      | some e => some (.failed (objectError "failed to download file: " e))
    else none
  | _, _ => none

/-- The phase after a sequence of calls, if every call is in order. -/
def s3Run (input : S3DownloaderInput) : S3Phase → List S3Event → Option S3Phase
  | p, [] => some p
  | p, e :: es =>
    match s3Step input p e with
    | none => none
    | some q => s3Run input q es

/-- The call returned an error. -/
def S3Event.failed : S3Event → Bool
  | .NextPage _ err => err.isSome
  | .MkdirAll _ _ err => err.isSome
  | .Create _ _ err => err.isSome
  | .Download _ _ _ err => err.isSome

/-- The call is to the file system or to the download manager. -/
def S3Event.isObjectCall : S3Event → Bool
  | .NextPage _ _ => false
  | _ => true

/-- The objects that the pages of a trace list, in order. -/
def listed : List S3Event → List S3Object
  | [] => []
  | .NextPage (some page) none :: es => page.Contents ++ listed es
  | _ :: es => listed es

/-- The number of `NextPage` calls of a trace. -/
def pageCalls : List S3Event → Nat
  | [] => 0
  | .NextPage _ _ :: es => pageCalls es + 1
  | _ :: es => pageCalls es

/-- Every `NextPage` call of the second trace, made after the calls of the first, was made
while the pager reported more pages, and the trace records what the pager answered. -/
def pagesRecorded (pager : IListObjectsV2Pager) : List S3Event → List S3Event → Bool
  | _, [] => true
  | h, .NextPage out err :: rest =>
    pager.HasMorePages h && decide (pager.NextPage h = (out, err))
      && pagesRecorded pager (h ++ [.NextPage out err]) rest
  | h, ev :: rest => pagesRecorded pager (h ++ [ev]) rest

/-! ## More about `upload.go`: errors and upload ids -/

/-- The error of `putEcrImage` for a manifest file of `n` bytes, above the limit. -/
def manifestTooLarge (n : Nat) : GoError :=
  Errorf ("image manifest too large, " ++ fmtD n ++ " is greated than "
    ++ fmtInt IMAGE_MANIFEST_MAX_SIZE)

/-- The zero value `UploadInput{}`. -/
def zeroInput : UploadInput :=
  { Client := none, RepositoryName := "", RegistryId := "", ImageLayersPath := "", Tag := "",
    RoleToAssume := "", Logger := none }

/-- The error of reading a file that does not exist. -/
def notExist : GoError := .leaf (.other "PathError") "open manifest.json: no such file or directory"

/-- A world without any file. -/
def missingEnv : Env :=
  { envOf manifest2 with
    fs := { ReadFile := fun _ => .error notExist, Stat := fun _ => .error notExist,
            Open := fun _ => .error notExist } }

/-- The error that the repository does not exist. -/
def notFound : GoError :=
  .leaf .RepositoryNotFoundException "RepositoryNotFoundException: repo not found"

/-- The error of a creation that is denied. -/
def createDenied : GoError := .leaf (.other "AccessDeniedException") "access denied"

/-- The client `okClient`, except that the repository does not exist yet. -/
def notFoundClient : IClient :=
  { okClient with DescribeRepositories := fun _ _ => (none, some notFound) }

/-- The client `notFoundClient`, except that the creation of the repository is denied. -/
def createFailClient : IClient :=
  { notFoundClient with CreateRepository := fun _ _ => (none, some createDenied) }

/-- The client `notFoundClient`, except that `CreateRepository` returns a nil output and a
nil error. -/
def nilCreateClient : IClient :=
  { notFoundClient with CreateRepository := fun _ _ => (none, none) }

/-- The number of `CreateRepository` calls of a trace. -/
def createCalls : List Event → Nat
  | [] => 0
  | .CreateRepository _ _ _ :: es => createCalls es + 1
  | _ :: es => createCalls es

/-- The number of `InitiateLayerUpload` calls of a trace. -/
def initiateCalls : List Event → Nat
  | [] => 0
  | .InitiateLayerUpload _ _ _ :: es => initiateCalls es + 1
  | _ :: es => initiateCalls es

/-- Scans a trace for the use of upload ids. `cur` is the id that the latest
`InitiateLayerUpload` returned, `none` before the first one, after a failed one and after
a `CompleteLayerUpload`. Every `UploadLayerPart` and `CompleteLayerUpload` must carry the
id `cur` with the repository name and the registry id of the input, and a completion must
list one digest. -/
def layerIds (input : UploadInput) : Option (Option String) → List Event → Bool
  | _, [] => true
  | _, .InitiateLayerUpload inp out _ :: es =>
    decide (inp = initiateLayerUploadInput input)
      && layerIds input (out.map (fun o => o.UploadId)) es
  | cur, .UploadLayerPart inp _ _ :: es =>
    decide (cur = some inp.UploadId) && decide (inp.RepositoryName = input.RepositoryName)
      && decide (inp.RegistryId = input.RegistryId) && layerIds input cur es
  | cur, .CompleteLayerUpload inp _ _ :: es =>
    decide (cur = some inp.UploadId) && decide (inp.RepositoryName = input.RepositoryName)
      && decide (inp.RegistryId = input.RegistryId) && decide (inp.LayerDigests.length = 1)
      && layerIds input none es
  | cur, _ :: es => layerIds input cur es

/-- The client `okClient`, except that the upload id names the number of layers initiated
before. -/
def countingClient : IClient :=
  { okClient with
    InitiateLayerUpload := fun h _ => (some ⟨some ("upload-" ++ fmtD (initiateCalls h))⟩, none) }

/-- The client `okClient`, except that `DescribeRepositories` finds no repository. -/
def noRepoClient : IClient :=
  { okClient with DescribeRepositories := fun _ _ => (some ⟨[]⟩, none) }

/-- The calls of `doUploadLayerParts` for one layer: none at all, or one
`InitiateLayerUpload` with the repository of the input, followed by part uploads and at
most one completion, which all carry the upload id that this initiation returned; the
completion lists the digest of the layer. -/
def layerCalls (input : UploadInput) (digest : String) (evs : List Event) : Prop :=
  evs = [] ∨ ∃ out err parts compl,
    evs = Event.InitiateLayerUpload (initiateLayerUploadInput input) out err
      :: (parts ++ compl) ∧
    (∀ ev ∈ parts, ∃ initOut v first o e, out = some initOut ∧
      ev = Event.UploadLayerPart (uploadLayerPartInput input initOut v first) o e) ∧
    (compl = [] ∨ ∃ initOut o e, out = some initOut ∧
      compl = [Event.CompleteLayerUpload
        (completeLayerUploadInput input initOut.UploadId [digest]) o e])

/-! ## The elements of a cleaned path -/

/-- The path starts with `/`. -/
def isRooted (p : String) : Bool := decide (p.data.head? = some '/')

/-- The elements that `filepath.Clean` keeps of a path, in order. -/
def pathElems (p : String) : List (List Char) :=
  cleanElems (isRooted p) (splitSlash p.data) []

/-- The elements of a key that are neither empty nor `.`. -/
def keyElems (key : String) : List (List Char) :=
  (splitSlash key.data).filter (fun el => decide (¬ (el = [] ∨ el = ['.'])))

/-- An input whose bucket lists the one key `../../etc/passwd`, with the destination
`/data/bkt`. -/
def escapeInput : S3DownloaderInput :=
  { Pager := some (mockPager [⟨[⟨some "../../etc/passwd"⟩]⟩]),
    Downloader := some (mockDownloadManager (123, none)),
    Filesystem := some (mockFs none none), Bucket := "bkt", LocalDirectory := "/data",
    Logger := none }

/-- The calls of `doUploadLayerParts` for a layer that is uploaded in full while the
registry reports that it exists already: one `InitiateLayerUpload` that succeeds, then one
`UploadLayerPart` that succeeds for every chunk that `layerBlobParts` returns for the blob,
in key order, with contiguous ranges from `0` on and the upload id of the initiation, then
one `CompleteLayerUpload` for the digest, with that upload id, whose error is a
`LayerAlreadyExistsException`. -/
def layerUploaded (env : Env) (input : UploadInput) (digest : String) (evs : List Event) :
    Prop :=
  ∃ initOut blobs outs o err,
    layerBlobParts env.fs digest
      (filepathJoin [input.ImageLayersPath, stringsReplaceColon digest]) input.Logger
      = .ret (some blobs, none) ∧
    outs.length = blobs.Keys.length ∧
    evs = Event.InitiateLayerUpload (initiateLayerUploadInput input) (some initOut) none
      :: (List.zipWith (fun p out => Event.UploadLayerPart p (some out) none)
            (partCalls input initOut (blobs.Keys.map (fun k => (blobs.Get k).getD [])) 0) outs
          ++ [Event.CompleteLayerUpload
                (completeLayerUploadInput input initOut.UploadId [digest]) o (some err)]) ∧
    (err.As .LayerAlreadyExistsException).isSome = true
/-! ## Arithmetic of `float64` -/

theorem log2Fuel_spec : ∀ (fuel n : Nat), 0 < n → n ≤ fuel →
    2 ^ log2Fuel fuel n ≤ n ∧ n < 2 ^ (log2Fuel fuel n + 1)
  | 0, n, h0, h => by omega
  | fuel + 1, n, h0, h => by
    unfold log2Fuel
    by_cases h2 : n < 2
    · simp only [h2, if_true]
      omega
    · simp only [h2, if_false]
      have ih := log2Fuel_spec fuel (n / 2) (by omega) (by omega)
      obtain ⟨a, b⟩ := ih
      constructor
      · have : 2 ^ (1 + log2Fuel fuel (n / 2)) = 2 * 2 ^ log2Fuel fuel (n / 2) := by
          ring
        omega
      · have : 2 ^ (1 + log2Fuel fuel (n / 2) + 1) = 2 * 2 ^ (log2Fuel fuel (n / 2) + 1) := by
          ring
        omega

theorem ilog2_spec (n : Nat) (h : 0 < n) : 2 ^ ilog2 n ≤ n ∧ n < 2 ^ (ilog2 n + 1) :=
  log2Fuel_spec n n h (Nat.le_refl n)

theorem roundHalfEven_bounds (q r d : Nat) :
    q ≤ roundHalfEven q r d ∧ roundHalfEven q r d ≤ q + 1 ∧
    (roundHalfEven q r d = q → 2 * r ≤ d) ∧ (roundHalfEven q r d = q + 1 → d ≤ 2 * r) := by
  unfold roundHalfEven
  split_ifs <;> refine ⟨?_, ?_, ?_, ?_⟩ <;> intros <;> omega



/-- The exponent chosen by `roundRatio`. -/
theorem roundRatio_exp (n d : Nat) (hn : 0 < n) :
    (roundRatio n d).2 =
      if n * 2 ^ (-((ilog2 n : Int) - (ilog2 d : Int) - 52)).toNat
          < 2 ^ 52 * (d * 2 ^ ((ilog2 n : Int) - (ilog2 d : Int) - 52).toNat)
      then (ilog2 n : Int) - (ilog2 d : Int) - 52 - 1 else (ilog2 n : Int) - (ilog2 d : Int) - 52 := by
  unfold roundRatio
  simp only [Nat.ne_of_gt hn, if_false]

theorem roundRatio_man (n d : Nat) (hn : 0 < n) :
    (roundRatio n d).1 =
      roundHalfEven (n * 2 ^ (-(roundRatio n d).2).toNat / (d * 2 ^ (roundRatio n d).2.toNat))
        (n * 2 ^ (-(roundRatio n d).2).toNat % (d * 2 ^ (roundRatio n d).2.toNat))
        (d * 2 ^ (roundRatio n d).2.toNat) := by
  unfold roundRatio
  simp only [Nat.ne_of_gt hn, if_false]

theorem roundRatio_range_aux (A n d a b : Nat) (_hd : 0 < d)
    (ha1 : 2 ^ a ≤ n) (ha2 : n < 2 ^ (a + 1)) (hb1 : 2 ^ b ≤ d) (hb2 : d < 2 ^ (b + 1))
    (e : Int)
    (he : e = if n * 2 ^ (-((a : Int) - (b : Int) - 52)).toNat
          < A * (d * 2 ^ ((a : Int) - (b : Int) - 52).toNat)
      then (a : Int) - (b : Int) - 52 - 1 else (a : Int) - (b : Int) - 52)
    (hA : ∀ k, 2 ^ (k + 52) = A * 2 ^ k) :
    A * (d * 2 ^ e.toNat) ≤ n * 2 ^ (-e).toNat ∧
    n * 2 ^ (-e).toNat < 2 * A * (d * 2 ^ e.toNat) := by
  subst he
  have hp : ∀ k : Nat, 0 < 2 ^ k := fun k => pow_pos (by norm_num) k
  have hA0 : 0 < A := by have := hA 0; have := hp 52; simp at *; omega
  rcases Nat.lt_or_ge a (b + 52) with h | h
  · -- negative exponent
    have e1 : (-((a : Int) - (b : Int) - 52)).toNat = b + 52 - a := by omega
    have e2 : ((a : Int) - (b : Int) - 52).toNat = 0 := by omega
    have e3 : (-((a : Int) - (b : Int) - 52 - 1)).toNat = b + 52 - a + 1 := by omega
    have e4 : ((a : Int) - (b : Int) - 52 - 1).toNat = 0 := by omega
    rw [e1, e2]
    have k1 : 2 ^ a * 2 ^ (b + 52 - a) = A * 2 ^ b := by
      rw [← pow_add, ← hA]; congr 1; omega
    have k2 : 2 ^ (a + 1) * 2 ^ (b + 52 - a) = 2 * A * 2 ^ b := by
      rw [← pow_add, mul_assoc, ← hA, ← pow_succ']; congr 1; omega
    have hq := hp (b + 52 - a)
    have u1 : n * 2 ^ (b + 52 - a) < 2 * A * 2 ^ b := by
      rw [← k2]; exact Nat.mul_lt_mul_of_pos_right ha2 hq
    have u2 : A * 2 ^ b ≤ n * 2 ^ (b + 52 - a) := by
      rw [← k1]; exact Nat.mul_le_mul_right _ ha1
    have u3 : 2 * A * 2 ^ b ≤ 2 * A * d := Nat.mul_le_mul_left _ hb1
    have u4 : 2 ^ (b + 1) = 2 * 2 ^ b := by ring
    split_ifs with hc
    · rw [e3, e4]
      have : 2 ^ (b + 52 - a + 1) = 2 * 2 ^ (b + 52 - a) := by ring
      rw [this]
      simp only [pow_zero, mul_one] at hc ⊢
      constructor
      · have : A * d < A * (2 * 2 ^ b) := by
          apply Nat.mul_lt_mul_of_pos_left _ hA0; omega
        nlinarith
      · nlinarith
    · rw [e1, e2]
      simp only [pow_zero, mul_one] at hc ⊢
      constructor
      · omega
      · omega
  · -- non-negative exponent
    have e1 : (-((a : Int) - (b : Int) - 52)).toNat = 0 := by omega
    have e2 : ((a : Int) - (b : Int) - 52).toNat = a - (b + 52) := by omega
    rw [e1, e2]
    have k1 : 2 ^ a = A * (2 ^ b * 2 ^ (a - (b + 52))) := by
      rw [← pow_add, ← hA]; congr 1; omega
    have k2 : 2 ^ (a + 1) = 2 * A * (2 ^ b * 2 ^ (a - (b + 52))) := by
      rw [← pow_add, mul_assoc, ← hA, ← pow_succ']; congr 1; omega
    have hq := hp (a - (b + 52))
    have u1 : 2 ^ b * 2 ^ (a - (b + 52)) ≤ d * 2 ^ (a - (b + 52)) := Nat.mul_le_mul_right _ hb1
    have u2 : d * 2 ^ (a - (b + 52)) < 2 ^ (b + 1) * 2 ^ (a - (b + 52)) :=
      Nat.mul_lt_mul_of_pos_right hb2 hq
    have u4 : 2 ^ (b + 1) = 2 * 2 ^ b := by ring
    rw [u4] at u2
    split_ifs with hc
    · simp only [pow_zero, mul_one] at hc
      rcases Nat.eq_or_lt_of_le h with h0 | h0
      · have e3 : (-((a : Int) - (b : Int) - 52 - 1)).toNat = 1 := by omega
        have e4 : ((a : Int) - (b : Int) - 52 - 1).toNat = 0 := by omega
        rw [e3, e4]
        have : a - (b + 52) = 0 := by omega
        rw [this] at hc k1
        simp only [pow_zero, mul_one, pow_one] at hc k1 ⊢
        have hb3 : d ≤ 2 * 2 ^ b := by omega
        have v2 : A * d ≤ A * (2 * 2 ^ b) := Nat.mul_le_mul_left A hb3
        have v3 : A * (2 * 2 ^ b) = 2 * (A * 2 ^ b) := by ring
        have v4 : 2 * A * d = 2 * (A * d) := by ring
        rw [v4]
        generalize A * d = X at *
        generalize A * 2 ^ b = Y at *
        generalize 2 ^ a = Z at *
        clear hA u1 u2 hq hp
        constructor
        · omega
        · omega
      · have e3 : (-((a : Int) - (b : Int) - 52 - 1)).toNat = 0 := by omega
        have e4 : ((a : Int) - (b : Int) - 52 - 1).toNat = a - (b + 52) - 1 := by omega
        rw [e3, e4]
        have : 2 ^ (a - (b + 52)) = 2 * 2 ^ (a - (b + 52) - 1) := by
          rw [← pow_succ']; congr 1; omega
        rw [this] at hc k1
        simp only [pow_zero, mul_one]
        generalize 2 ^ (a - (b + 52) - 1) = T at *
        have hb3 : d ≤ 2 * 2 ^ b := by omega
        have v1 : d * T ≤ 2 * 2 ^ b * T := Nat.mul_le_mul_right T hb3
        have v2 : A * (d * T) ≤ A * (2 * 2 ^ b * T) := Nat.mul_le_mul_left A v1
        have v3 : A * (2 * 2 ^ b * T) = A * (2 ^ b * (2 * T)) := by ring
        have v4 : A * (d * (2 * T)) = 2 * A * (d * T) := by ring
        constructor
        · omega
        · omega
    · rw [e1, e2]
      simp only [pow_zero, mul_one] at hc ⊢
      constructor
      · exact Nat.le_of_not_lt hc
      · exact lt_of_lt_of_le ha2 (by rw [k2]; exact Nat.mul_le_mul_left _ u1)

theorem roundRatio_range (n d : Nat) (hn : 0 < n) (hd : 0 < d) :
    2 ^ 52 * (d * 2 ^ (roundRatio n d).2.toNat) ≤ n * 2 ^ (-(roundRatio n d).2).toNat ∧
    n * 2 ^ (-(roundRatio n d).2).toNat < 2 * 2 ^ 52 * (d * 2 ^ (roundRatio n d).2.toNat) := by
  obtain ⟨ha1, ha2⟩ := ilog2_spec n hn
  obtain ⟨hb1, hb2⟩ := ilog2_spec d hd
  have hA : ∀ k, 2 ^ (k + 52) = 2 ^ 52 * 2 ^ k := fun k => by rw [pow_add, mul_comm]
  have he := roundRatio_exp n d hn
  generalize (roundRatio n d).2 = e at he ⊢
  generalize 2 ^ 52 = A at he hA ⊢
  exact roundRatio_range_aux A n d (ilog2 n) (ilog2 d) hd ha1 ha2 hb1 hb2 e he hA



theorem roundRatio_err (n d : Nat) (hn : 0 < n) (hd : 0 < d) :
    2 * ((roundRatio n d).1 * (d * 2 ^ (roundRatio n d).2.toNat))
      ≤ 2 * (n * 2 ^ (-(roundRatio n d).2).toNat) + d * 2 ^ (roundRatio n d).2.toNat ∧
    2 * (n * 2 ^ (-(roundRatio n d).2).toNat)
      ≤ 2 * ((roundRatio n d).1 * (d * 2 ^ (roundRatio n d).2.toNat))
        + d * 2 ^ (roundRatio n d).2.toNat := by
  rw [roundRatio_man n d hn]
  generalize (roundRatio n d).2 = e
  have hD : 0 < d * 2 ^ e.toNat := Nat.mul_pos hd (pow_pos (by norm_num) _)
  generalize d * 2 ^ e.toNat = D at hD ⊢
  generalize n * 2 ^ (-e).toNat = N
  have h1 := Nat.div_add_mod N D
  have h2 := Nat.mod_lt N hD
  obtain ⟨b1, b2, b3, b4⟩ := roundHalfEven_bounds (N / D) (N % D) D
  generalize roundHalfEven (N / D) (N % D) D = m at *
  have h3 : m = N / D ∨ m = N / D + 1 := by omega
  rcases h3 with h3 | h3
  · have := b3 h3
    subst h3
    rw [Nat.mul_comm (N / D) D]
    generalize D * (N / D) = X at *
    omega
  · have := b4 h3
    subst h3
    have : (N / D + 1) * D = D * (N / D) + D := by ring
    rw [this]
    generalize D * (N / D) = X at *
    omega

theorem roundRatio_zero (d : Nat) : roundRatio 0 d = (0, 0) := by
  unfold roundRatio
  simp

/-- Below `2^53` the conversion of a positive integer to `float64` is exact. -/
theorem roundRatio_one_small (x : Nat) (h0 : 0 < x) (h : x < 2 ^ 53) :
    (roundRatio x 1).2 ≤ 0 ∧ (roundRatio x 1).1 = x * 2 ^ (-(roundRatio x 1).2).toNat := by
  obtain ⟨r1, r2⟩ := roundRatio_range x 1 h0 (by norm_num)
  have hm := roundRatio_man x 1 h0
  generalize (roundRatio x 1).2 = e at *
  generalize (roundRatio x 1).1 = m at *
  have he : e ≤ 0 := by
    by_contra hc
    have e1 : (-e).toNat = 0 := by omega
    have e2 : 1 ≤ e.toNat := by omega
    rw [e1] at r1
    have : 2 ^ 1 ≤ 2 ^ e.toNat := Nat.pow_le_pow_right (by norm_num) e2
    simp only [pow_zero, mul_one, one_mul, pow_one] at r1 this
    have : 2 ^ 52 * 2 ≤ 2 ^ 52 * 2 ^ e.toNat := Nat.mul_le_mul_left _ this
    norm_num at h this r1
    omega
  refine ⟨he, ?_⟩
  have e2 : e.toNat = 0 := by omega
  rw [hm, e2]
  simp only [pow_zero, mul_one, Nat.div_one, Nat.mod_one]
  unfold roundHalfEven
  simp

/-- From `2^53` on the conversion to `float64` has a positive exponent. -/
theorem roundRatio_one_big (x : Nat) (h : 2 ^ 53 ≤ x) :
    1 ≤ (roundRatio x 1).2 ∧ 2 ^ 52 ≤ (roundRatio x 1).1 := by
  have h0 : 0 < x := lt_of_lt_of_le (by norm_num) h
  obtain ⟨r1, r2⟩ := roundRatio_range x 1 h0 (by norm_num)
  have hm := roundRatio_man x 1 h0
  generalize (roundRatio x 1).2 = e at *
  generalize (roundRatio x 1).1 = m at *
  have he : 1 ≤ e := by
    by_contra hc
    have e2 : e.toNat = 0 := by omega
    rw [e2] at r2
    simp only [pow_zero, mul_one, one_mul] at r2
    have : x * 1 ≤ x * 2 ^ (-e).toNat := Nat.mul_le_mul_left _ (Nat.one_le_two_pow)
    norm_num at h r2 this
    omega
  refine ⟨he, ?_⟩
  have hD : 0 < 1 * 2 ^ e.toNat := Nat.mul_pos (by norm_num) (pow_pos (by norm_num) _)
  generalize 1 * 2 ^ e.toNat = D at *
  generalize x * 2 ^ (-e).toNat = N at *
  have := (roundHalfEven_bounds (N / D) (N % D) D).1
  have : 2 ^ 52 ≤ N / D := (Nat.le_div_iff_mul_le hD).2 r1
  omega



/-- Rounding the quotient `S / LAYER_PART_MAX_SIZE` to 53 bits does not move it across an
integer, as long as `S < 2^53`. -/
theorem roundRatio_ceil (S c : Nat) (hS : 0 < S) (hS2 : S < 2 ^ 53) (hc : 0 < c) :
    (roundRatio (S * c) (10485760 * c)).2 < 0 ∧
    -((-((roundRatio (S * c) (10485760 * c)).1 : Int))
        / ((2 ^ (-(roundRatio (S * c) (10485760 * c)).2).toNat : Nat) : Int))
      = (ceilParts S : Int) := by
  have hn : 0 < S * c := Nat.mul_pos hS hc
  have hd : 0 < 10485760 * c := Nat.mul_pos (by norm_num) hc
  obtain ⟨r1, r2⟩ := roundRatio_range _ _ hn hd
  obtain ⟨v1, v2⟩ := roundRatio_err _ _ hn hd
  generalize (roundRatio (S * c) (10485760 * c)).2 = e at *
  generalize (roundRatio (S * c) (10485760 * c)).1 = m at *
  have hp : ∀ k : Nat, 0 < 2 ^ k := fun k => pow_pos (by norm_num) k
  -- the exponent is at most -23
  have he : e ≤ -23 := by
    by_contra hne
    have hQ : 2 ^ (-e).toNat ≤ 2 ^ 22 := Nat.pow_le_pow_right (by norm_num) (by omega)
    have hP : 1 ≤ 2 ^ e.toNat := hp _
    have a1 : 2 ^ 52 * (10485760 * c * 1) ≤ 2 ^ 52 * (10485760 * c * 2 ^ e.toNat) :=
      Nat.mul_le_mul_left _ (Nat.mul_le_mul_left _ hP)
    have a2 : S * c * 2 ^ (-e).toNat ≤ S * c * 2 ^ 22 := Nat.mul_le_mul_left _ hQ
    have a3 : S * c * 2 ^ 22 < 2 ^ 53 * c * 2 ^ 22 :=
      Nat.mul_lt_mul_of_pos_right (Nat.mul_lt_mul_of_pos_right hS2 hc) (hp 22)
    have a4 : 2 ^ 52 * (10485760 * c * 1) = 43980465111040 * (2 ^ 30 * c) := by norm_num; ring
    have a5 : 2 ^ 53 * c * 2 ^ 22 = 35184372088832 * (2 ^ 30 * c) := by norm_num; ring
    have a6 : 0 < 2 ^ 30 * c := Nat.mul_pos (hp 30) hc
    generalize 2 ^ 30 * c = Y at *
    omega
  have e1 : e.toNat = 0 := by omega
  rw [e1] at v1 v2
  simp only [pow_zero, mul_one] at v1 v2
  obtain ⟨t, ht⟩ : ∃ t : Nat, (-e).toNat = t + 23 := ⟨(-e).toNat - 23, by omega⟩
  rw [ht] at v1 v2 ⊢
  have hQ : 2 ^ (t + 23) = 8388608 * 2 ^ t := by rw [pow_add]; norm_num; ring
  have hT := hp t
  rw [hQ] at v1 v2 ⊢
  generalize 2 ^ t = T at *
  -- cancel the common factor
  have w1 : 2 * (m * 10485760) ≤ 2 * (S * (8388608 * T)) + 10485760 := by
    have : 2 * (m * (10485760 * c)) = (2 * (m * 10485760)) * c := by ring
    have : 2 * (S * c * (8388608 * T)) + 10485760 * c
        = (2 * (S * (8388608 * T)) + 10485760) * c := by ring
    apply Nat.le_of_mul_le_mul_right _ hc
    omega
  have w2 : 2 * (S * (8388608 * T)) ≤ 2 * (m * 10485760) + 10485760 := by
    have : 2 * (m * (10485760 * c)) = (2 * (m * 10485760)) * c := by ring
    have : 2 * (m * (10485760 * c)) + 10485760 * c
        = (2 * (m * 10485760) + 10485760) * c := by ring
    have : 2 * (S * c * (8388608 * T)) = (2 * (S * (8388608 * T))) * c := by ring
    apply Nat.le_of_mul_le_mul_right _ hc
    omega
  clear v1 v2 r1 r2
  unfold ceilParts
  obtain ⟨k, hk⟩ : ∃ k, (S + 10485759) / 10485760 = k := ⟨_, rfl⟩
  rw [hk]
  have k1 : S ≤ k * 10485760 := by omega
  have k2 : 1 ≤ k := by omega
  have k3 : (k - 1) * 10485760 + 1 ≤ S := by omega
  have k4 : S * T ≤ k * 10485760 * T := Nat.mul_le_mul_right _ k1
  have k5 : ((k - 1) * 10485760 + 1) * T ≤ S * T := Nat.mul_le_mul_right _ k3
  obtain ⟨j, hj⟩ : ∃ j, k = j + 1 := ⟨k - 1, by omega⟩
  subst hj
  simp only [Nat.add_sub_cancel] at k5
  have k6 : (j + 1) * 10485760 * T = 10485760 * (j * T) + 10485760 * T := by ring
  have k7 : (j * 10485760 + 1) * T = 10485760 * (j * T) + T := by ring
  have k8 : S * (8388608 * T) = 8388608 * (S * T) := by ring
  rw [k6] at k4
  rw [k7] at k5
  rw [k8] at w1 w2
  generalize S * T = X at *
  obtain ⟨Y, hY⟩ : ∃ Y, Y = j * T := ⟨_, rfl⟩
  rw [← hY] at k4 k5
  have m1 : m ≤ 8388608 * Y + 8388608 * T := by omega
  have m2 : 8388608 * Y < m := by omega
  refine ⟨by omega, ?_⟩
  have hq : (0 : Int) < ((8388608 * T : Nat) : Int) := by exact_mod_cast Nat.mul_pos (by norm_num) hT
  have hY2 : (Y : Int) = (j : Int) * (T : Int) := by exact_mod_cast hY
  have m1z : (m : Int) ≤ 8388608 * (Y : Int) + 8388608 * (T : Int) := by exact_mod_cast m1
  have m2z : 8388608 * (Y : Int) < (m : Int) := by exact_mod_cast m2
  have g1 : -(m : Int) / ((8388608 * T : Nat) : Int) = -((j : Int) + 1) := by
    apply le_antisymm
    · have : -(m : Int) / ((8388608 * T : Nat) : Int) < -((j : Int) + 1) + 1 := by
        rw [Int.ediv_lt_iff_lt_mul hq]
        push_cast
        have : (-((j : Int) + 1) + 1) * (8388608 * (T : Int)) = -(8388608 * ((j : Int) * (T : Int))) := by
          ring
        rw [this, ← hY2]
        omega
      omega
    · rw [Int.le_ediv_iff_mul_le hq]
      push_cast
      have : -((j : Int) + 1) * (8388608 * (T : Int))
          = -(8388608 * ((j : Int) * (T : Int)) + 8388608 * (T : Int)) := by
        ring
      rw [this, ← hY2]
      omega
  rw [g1]
  push_cast
  ring



theorem ofInt_zero : Float64.ofInt 0 = ⟨0, 0⟩ := by decide

theorem ofInt_fileChunk : Float64.ofInt fileChunk = ⟨5629499534213120, -29⟩ := by decide

theorem ofInt_small (s : Nat) (h0 : 0 < s) (h : s < 2 ^ 53) :
    ∃ t : Nat, Float64.ofInt (s : Int) = ⟨((s * 2 ^ t : Nat) : Int), -(t : Int)⟩ := by
  obtain ⟨he, hm⟩ := roundRatio_one_small s h0 h
  refine ⟨(-(roundRatio s 1).2).toNat, ?_⟩
  unfold Float64.ofInt
  have hs : ((s : Int)).sign = 1 := Int.sign_eq_one_of_pos (by exact_mod_cast h0)
  simp only [Int.natAbs_ofNat, hs, one_mul]
  rw [← hm]
  congr 1
  omega

theorem ofInt_big (s : Nat) (h : 2 ^ 53 ≤ s) :
    ∃ m e : Nat, Float64.ofInt (s : Int) = ⟨(m : Int), (e : Int)⟩ ∧ 1 ≤ e ∧ 2 ^ 52 ≤ m := by
  obtain ⟨he, hm⟩ := roundRatio_one_big s h
  refine ⟨(roundRatio s 1).1, (roundRatio s 1).2.toNat, ?_, by omega, hm⟩
  unfold Float64.ofInt
  have h0 : 0 < s := lt_of_lt_of_le (by norm_num) h
  have hs : ((s : Int)).sign = 1 := Int.sign_eq_one_of_pos (by exact_mod_cast h0)
  simp only [Int.natAbs_ofNat, hs, one_mul]
  congr 1
  omega

theorem totalPartsNum_zero : totalPartsNum 0 = 0 := by decide

/-- Below `2^53` bytes the number of parts is `ceil(S / LAYER_PART_MAX_SIZE)`. -/
theorem totalPartsNum_small (s : Nat) (h : s < 2 ^ 53) : totalPartsNum (s : Int) = ceilParts s := by
  rcases Nat.eq_zero_or_pos s with h0 | h0
  · subst h0
    exact totalPartsNum_zero
  obtain ⟨t, ht⟩ := ofInt_small s h0 h
  unfold totalPartsNum
  rw [ht, ofInt_fileChunk]
  unfold Float64.div
  simp only
  have hp : ∀ k : Nat, 0 < 2 ^ k := fun k => pow_pos (by norm_num) k
  obtain ⟨c, hc, hn, hd⟩ : ∃ c : Nat, 0 < c ∧
      (((s * 2 ^ t : Nat) : Int)).natAbs * 2 ^ (-(t : Int) - (-29)).toNat = s * c ∧
      (5629499534213120 : Int).natAbs * 2 ^ (-(-(t : Int) - (-29))).toNat = 10485760 * c := by
    rcases Nat.le_total t 29 with h29 | h29
    · refine ⟨2 ^ 29, hp 29, ?_, ?_⟩
      · have : (-(t : Int) - (-29)).toNat = 29 - t := by omega
        rw [this, Int.natAbs_ofNat, mul_assoc, ← pow_add]
        congr 2
        omega
      · have : (-(-(t : Int) - (-29))).toNat = 0 := by omega
        rw [this]
        norm_num
    · refine ⟨2 ^ t, hp t, ?_, ?_⟩
      · have : (-(t : Int) - (-29)).toNat = 0 := by omega
        rw [this, Int.natAbs_ofNat]
        simp
      · have : (-(-(t : Int) - (-29))).toNat = t - 29 := by omega
        rw [this]
        have : 2 ^ t = 2 ^ 29 * 2 ^ (t - 29) := by rw [← pow_add]; congr 1; omega
        rw [this]
        norm_num
        ring
  rw [hn, hd]
  obtain ⟨q1, q2⟩ := roundRatio_ceil s c h0 h hc
  have hs1 : (((s * 2 ^ t : Nat) : Int)).sign = 1 :=
    Int.sign_eq_one_of_pos (by exact_mod_cast Nat.mul_pos h0 (hp t))
  have hs2 : (5629499534213120 : Int).sign = 1 := by decide
  rw [hs1, hs2]
  unfold Float64.ceil
  simp only [one_mul]
  rw [if_neg (by omega)]
  rw [q2]
  unfold Float64.toUint64 Float64.toInt
  simp only [le_refl, if_true, Int.toNat_zero, pow_zero, Nat.cast_one, mul_one, Int.toNat_ofNat]
  apply Nat.mod_eq_of_lt
  unfold ceilParts
  norm_num at h ⊢
  omega



theorem wrap64_id (z : Int) (h1 : -9223372036854775808 ≤ z) (h2 : z < 9223372036854775808) :
    wrap64 z = z := by
  unfold wrap64
  norm_num
  omega

/-- The part size computed with `float64` is `min(fileChunk, x)` for every `x ≥ 0`. -/
theorem min_toInt (x : Nat) :
    ((Float64.ofInt fileChunk).min (Float64.ofInt (x : Int))).toInt = min 10485760 (x : Int) := by
  have hp : ∀ k : Nat, 0 < 2 ^ k := fun k => pow_pos (by norm_num) k
  rw [ofInt_fileChunk]
  have hM : (Float64.mk 5629499534213120 (-29)).toInt = 10485760 := by decide
  rcases Nat.eq_zero_or_pos x with h0 | h0
  · subst h0
    simp only [Nat.cast_zero, ofInt_zero]
    decide
  rcases Nat.lt_or_ge x (2 ^ 53) with h | h
  · obtain ⟨t, ht⟩ := ofInt_small x h0 h
    rw [ht]
    unfold Float64.min Float64.le
    simp only
    have key : ((5629499534213120 : Int) * ((2 ^ (-29 - -(t : Int)).toNat : Nat) : Int)
        ≤ ((x * 2 ^ t : Nat) : Int) * ((2 ^ (-(t : Int) - -29).toNat : Nat) : Int))
        ↔ 10485760 ≤ x := by
      rcases Nat.le_total t 29 with h29 | h29
      · have e1 : (-29 - -(t : Int)).toNat = 0 := by omega
        have e2 : (-(t : Int) - -29).toNat = 29 - t := by omega
        rw [e1, e2]
        have : x * 2 ^ t * 2 ^ (29 - t) = x * 536870912 := by
          rw [mul_assoc, ← pow_add]
          have : t + (29 - t) = 29 := by omega
          rw [this]
          norm_num
        norm_cast
        rw [this]
        omega
      · have e1 : (-29 - -(t : Int)).toNat = t - 29 := by omega
        have e2 : (-(t : Int) - -29).toNat = 0 := by omega
        rw [e1, e2]
        have : 2 ^ t = 536870912 * 2 ^ (t - 29) := by
          have : t = 29 + (t - 29) := by omega
          conv_lhs => rw [this, pow_add]
          norm_num
        norm_cast
        rw [this]
        have hT := hp (t - 29)
        generalize 2 ^ (t - 29) = T at *
        constructor
        · intro hle
          by_contra hc
          have : x * (536870912 * T) ≤ 10485759 * (536870912 * T) :=
            Nat.mul_le_mul_right _ (by omega)
          have e5 : 5629499534213120 * T = 10485760 * (536870912 * T) := by ring
          simp only [pow_zero, mul_one] at hle
          generalize 536870912 * T = Y at *
          omega
        · intro hle
          have : 10485760 * (536870912 * T) ≤ x * (536870912 * T) := Nat.mul_le_mul_right _ hle
          have e5 : 5629499534213120 * T = 10485760 * (536870912 * T) := by ring
          simp only [pow_zero, mul_one]
          generalize 536870912 * T = Y at *
          omega
    by_cases hx : 10485760 ≤ x
    · rw [decide_eq_true (key.2 hx), if_pos rfl, hM]
      omega
    · rw [decide_eq_false (fun hh => hx (key.1 hh))]
      simp only [Bool.false_eq_true, if_false]
      unfold Float64.toInt
      simp only
      rcases Nat.eq_zero_or_pos t with t0 | t0
      · subst t0
        simp
        omega
      · rw [if_neg (by omega)]
        have : (-(-(t : Int))).toNat = t := by omega
        rw [this]
        push_cast
        rw [Int.tdiv_eq_ediv (by positivity) (by positivity)]
        rw [Int.mul_ediv_cancel _ (by positivity)]
        omega
  · obtain ⟨m, e, hme, he, hm⟩ := ofInt_big x h
    rw [hme]
    unfold Float64.min Float64.le
    simp only
    have e1 : (-29 - (e : Int)).toNat = 0 := by omega
    have e2 : ((e : Int) - -29).toNat = e + 29 := by omega
    rw [e1, e2]
    have hnat : 5629499534213120 ≤ m * 2 ^ (e + 29) := by
      have h1 : 2 ^ 1 ≤ 2 ^ (e + 29) := Nat.pow_le_pow_right (by norm_num) (by omega)
      have h2 : m * 2 ^ 1 ≤ m * 2 ^ (e + 29) := Nat.mul_le_mul_left _ h1
      generalize m * 2 ^ (e + 29) = Z at *
      norm_num at hm h2
      omega
    have hint : (5629499534213120 : Int) * ((2 ^ 0 : Nat) : Int)
        ≤ (m : Int) * ((2 ^ (e + 29) : Nat) : Int) := by
      have h3 : ((5629499534213120 : Nat) : Int) ≤ ((m * 2 ^ (e + 29) : Nat) : Int) :=
        Int.ofNat_le.2 hnat
      rw [Nat.cast_mul] at h3
      simpa using h3
    rw [decide_eq_true hint, if_pos rfl, hM]
    have h4 : (10485760 : Int) ≤ (x : Int) := by
      have : 10485760 ≤ x := le_trans (by norm_num) h
      exact_mod_cast this
    omega

theorem partSize_eq (s i : Nat) (hs : s < 2 ^ 63) (hi : i * 10485760 ≤ s) :
    partSize (s : Int) i = min 10485760 ((s - i * 10485760 : Nat) : Int) := by
  unfold partSize
  norm_num at hs
  have h1 : wrap64 (i : Int) = i := wrap64_id _ (by omega) (by omega)
  have h2 : wrap64 ((i : Int) * fileChunk) = i * 10485760 := by
    unfold fileChunk LAYER_PART_MAX_SIZE
    exact wrap64_id _ (by omega) (by omega)
  have h3 : wrap64 ((s : Int) - (i : Int) * 10485760) = ((s - i * 10485760 : Nat) : Int) := by
    rw [wrap64_id _ (by omega) (by omega)]
    omega
  rw [h1, h2, h3]
  exact min_toInt _


/-! ## Keys and the ordered map -/

theorem toDigitsCore_acc (fuel : Nat) : ∀ (n : Nat) (ds : List Char),
    Nat.toDigitsCore 10 fuel n ds = Nat.toDigitsCore 10 fuel n [] ++ ds := by
  induction fuel with
  | zero => intro n ds; simp [Nat.toDigitsCore]
  | succ fuel ih =>
    intro n ds
    simp only [Nat.toDigitsCore]
    split_ifs with h
    · simp
    · rw [ih (n / 10) (Nat.digitChar (n % 10) :: ds), ih (n / 10) [Nat.digitChar (n % 10)]]
      simp

/-- The number that a list of decimal digits denotes. -/
theorem digitChar_val : ∀ k, k < 10 → (Nat.digitChar k).toNat - 48 = k := by decide

theorem toDigitsCore_val (fuel : Nat) : ∀ n, n < fuel →
    (Nat.toDigitsCore 10 fuel n []).foldl (fun a c => 10 * a + (c.toNat - 48)) 0 = n := by
  induction fuel with
  | zero => intro n h; omega
  | succ fuel ih =>
    intro n h
    simp only [Nat.toDigitsCore]
    have hd := digitChar_val (n % 10) (Nat.mod_lt _ (by norm_num))
    split_ifs with h0
    · simp only [List.foldl_cons, List.foldl_nil, hd]
      omega
    · rw [toDigitsCore_acc, List.foldl_append, ih (n / 10) (by omega)]
      simp only [List.foldl_cons, List.foldl_nil, hd]
      omega

theorem fmtD_injective : Function.Injective fmtD := by
  intro a b h
  unfold fmtD Nat.toDigits List.asString at h
  have h1 : Nat.toDigitsCore 10 (a + 1) a [] = Nat.toDigitsCore 10 (b + 1) b [] := by
    injection h
  have := congrArg (List.foldl (fun a c => 10 * a + (c.toNat - 48)) 0) h1
  rwa [toDigitsCore_val _ _ (Nat.lt_succ_self a), toDigitsCore_val _ _ (Nat.lt_succ_self b)] at this

theorem partKey_injective : Function.Injective partKey := by
  intro a b h
  unfold partKey at h
  apply fmtD_injective
  have := congrArg String.data h
  simp only [String.data_append, List.append_cancel_left_eq] at this
  exact String.ext this

theorem partKey_not_mem (i : Nat) : partKey i ∉ (List.range i).map partKey := by
  intro h
  obtain ⟨j, hj, hk⟩ := List.mem_map.1 h
  have := partKey_injective hk
  have := List.mem_range.1 hj
  omega

theorem Set_new (m : OrderedMap) (k : String) (v : List Byte) (h : k ∉ m.Keys) :
    m.Set k v = ⟨m.entries ++ [(k, v)]⟩ := by
  unfold OrderedMap.Set
  unfold OrderedMap.Keys at h
  have : (m.entries.map Prod.fst).contains k = false := by
    simpa using h
  rw [this]
  rfl

theorem Set_partKey (m : OrderedMap) (i : Nat) (v : List Byte)
    (h : m.Keys = (List.range i).map partKey) :
    m.Set (partKey i) v = ⟨m.entries ++ [(partKey i, v)]⟩ ∧
    (m.Set (partKey i) v).Keys = (List.range (i + 1)).map partKey := by
  have hn : partKey i ∉ m.Keys := by rw [h]; exact partKey_not_mem i
  rw [Set_new m _ v hn]
  refine ⟨rfl, ?_⟩
  unfold OrderedMap.Keys at h ⊢
  simp only [List.map_append, h, List.range_succ, List.map_cons, List.map_nil]

theorem File_Read_length (f : File) (j pos size : Nat) : (f.Read j pos size).1.length = size := by
  unfold File.Read
  split_ifs with h0
  · simp [h0]
  · split
    · simp
    · dsimp only
      split_ifs with hn
      · simp
      · simp only [List.length_append, List.length_take, List.length_drop, List.length_replicate]
        split <;> omega

/-! ## The loop of `layerBlobParts` -/

theorem layerBlobPartsLoop_succ (file : File) (S : Int) (k i pos : Nat) (om : OrderedMap) :
    layerBlobPartsLoop file S (k + 1) i pos om =
      if partSize S i < 0 then .panic "runtime error: makeslice: len out of range"
      else
        match (file.Read i pos (partSize S i).toNat).2.2 with
        | some err => .ret (none, some (ErrorfW "error reading partBuffer: " err ""))
        | none =>
          layerBlobPartsLoop file S k (i + 1) (pos + (file.Read i pos (partSize S i).toNat).2.1)
            (om.Set (partKey i) (file.Read i pos (partSize S i).toNat).1) := by
  rfl

/-- Whatever the reads do, a successful loop adds the keys `part_i`, ... in order, each with
a buffer of the computed part size. -/
theorem loop_shape (file : File) (S : Int) : ∀ (k i pos : Nat) (om res : OrderedMap),
    om.Keys = (List.range i).map partKey →
    layerBlobPartsLoop file S k i pos om = .ret (some res, none) →
    res.entries.map (fun kv => (kv.1, (kv.2.length : Int)))
      = om.entries.map (fun kv => (kv.1, (kv.2.length : Int)))
        ++ (List.range' i k).map (fun j => (partKey j, partSize S j)) := by
  intro k
  induction k with
  | zero =>
    intro i pos om res _ h
    simp only [layerBlobPartsLoop, Outcome.ret.injEq, Prod.mk.injEq, Option.some.injEq,
      and_true] at h
    subst h
    simp
  | succ k ih =>
    intro i pos om res hk h
    rw [layerBlobPartsLoop_succ] at h
    split_ifs at h with hneg
    split at h
    · simp at h
    · obtain ⟨hset, hkeys⟩ := Set_partKey om i (file.Read i pos (partSize S i).toNat).1 hk
      have := ih _ _ _ _ hkeys h
      rw [this, hset, List.range'_succ]
      simp only [List.map_append, List.map_cons, List.map_nil, List.append_assoc,
        List.singleton_append, File_Read_length]
      congr 3
      omega

theorem File_Read_ok (f : File) (j pos size : Nat) (hns : ∀ n, f.reads j ≠ .short n)
    (h0 : 0 < size) (hle : pos + size ≤ f.data.length)
    (hok : (f.Read j pos size).2.2 = none) :
    (f.Read j pos size).1 = (f.data.drop pos).take size ∧ (f.Read j pos size).2.1 = size := by
  unfold File.Read at hok ⊢
  rw [if_neg (by omega)] at hok ⊢
  have hw : min size (f.data.length - pos) = size := by omega
  cases hr : f.reads j with
  | fail e =>
    rw [hr] at hok
    simp at hok
  | short n => exact absurd hr (hns n)
  | full =>
    simp only [hw]
    rw [if_neg (by omega)]
    simp

theorem File_Read_full (f : File) (j pos size : Nat) (hfull : f.reads j = .full)
    (h0 : 0 < size) (hle : pos + size ≤ f.data.length) :
    (f.Read j pos size).2.2 = none := by
  unfold File.Read
  rw [if_neg (by omega)]
  have hw : min size (f.data.length - pos) = size := by omega
  rw [hfull]
  simp only [hw]
  rw [if_neg (by omega)]

theorem take_min_drop (data : List Byte) (p m : Nat) :
    (data.drop p).take (min m (data.length - p)) = (data.drop p).take m := by
  rw [List.take_eq_take]
  simp only [List.length_drop]
  omega

/-- The part size and the reading position at iteration `i`, when that part lies inside
the file. -/
theorem partSize_inside (S i : Nat) (h63 : S < 2 ^ 63) (hi : i * 10485760 < S) :
    ¬ partSize (S : Int) i < 0 ∧ 0 < (partSize (S : Int) i).toNat ∧
    (partSize (S : Int) i).toNat = min 10485760 (S - i * 10485760) := by
  rw [partSize_eq S i h63 (le_of_lt hi)]
  omega

/-- Without short reads a successful loop returns the parts of the file. -/
theorem loop_content (file : File) (h63 : file.data.length < 2 ^ 63)
    (hns : ∀ j n, file.reads j ≠ .short n) : ∀ (k i : Nat) (om res : OrderedMap),
    (∀ j, j < i + k → j * 10485760 < file.data.length) →
    om.Keys = (List.range i).map partKey →
    layerBlobPartsLoop file (file.data.length : Int) k i (i * 10485760) om = .ret (some res, none) →
    res.entries = om.entries ++ chunksFrom file.data i k := by
  intro k
  induction k with
  | zero =>
    intro i om res _ _ h
    simp only [layerBlobPartsLoop, Outcome.ret.injEq, Prod.mk.injEq, Option.some.injEq,
      and_true] at h
    subst h
    simp [chunksFrom]
  | succ k ih =>
    intro i om res hcov hk h
    rw [layerBlobPartsLoop_succ] at h
    obtain ⟨p1, p2, p3⟩ := partSize_inside file.data.length i h63 (hcov i (by omega))
    rw [if_neg p1] at h
    split at h
    · simp at h
    · rename_i hok
      have hi := hcov i (by omega)
      obtain ⟨r1, r2⟩ := File_Read_ok file i (i * 10485760) _ (hns i) p2 (by omega) hok
      rw [r1, r2, p3] at h
      have hpos : i * 10485760 + min 10485760 (file.data.length - i * 10485760)
          = (i + 1) * 10485760 ∨ k = 0 := by
        rcases Nat.eq_zero_or_pos k with h0 | h0
        · right; exact h0
        · left
          have := hcov (i + 1) (by omega)
          omega
      obtain ⟨hset, hkeys⟩ := Set_partKey om i
        (List.take (min 10485760 (file.data.length - i * 10485760))
          (List.drop (i * 10485760) file.data)) hk
      rcases hpos with hpos | hpos
      · rw [hpos] at h
        have := ih (i + 1) _ res (fun j hj => hcov j (by omega)) hkeys h
        rw [this, hset, take_min_drop]
        simp [chunksFrom, List.range'_succ]
      · subst hpos
        simp only [layerBlobPartsLoop, Outcome.ret.injEq, Prod.mk.injEq, Option.some.injEq,
          and_true] at h
        rw [← h, hset, take_min_drop]
        simp [chunksFrom, List.range'_succ]

/-- With full reads the loop succeeds. -/
theorem loop_full (file : File) (h63 : file.data.length < 2 ^ 63)
    (hfull : ∀ j, file.reads j = .full) : ∀ (k i : Nat) (om : OrderedMap),
    (∀ j, j < i + k → j * 10485760 < file.data.length) →
    om.Keys = (List.range i).map partKey →
    layerBlobPartsLoop file (file.data.length : Int) k i (i * 10485760) om
      = .ret (some ⟨om.entries ++ chunksFrom file.data i k⟩, none) := by
  intro k
  induction k with
  | zero =>
    intro i om _ _
    simp [layerBlobPartsLoop, chunksFrom]
  | succ k ih =>
    intro i om hcov hk
    rw [layerBlobPartsLoop_succ]
    obtain ⟨p1, p2, p3⟩ := partSize_inside file.data.length i h63 (hcov i (by omega))
    rw [if_neg p1]
    have hi := hcov i (by omega)
    have hok := File_Read_full file i (i * 10485760) (partSize (file.data.length : Int) i).toNat
      (hfull i) p2 (by omega)
    have hns : ∀ n, file.reads i ≠ .short n := by
      intro n; rw [hfull i]; simp
    obtain ⟨r1, r2⟩ := File_Read_ok file i (i * 10485760) _ hns p2 (by omega) hok
    rw [hok]
    dsimp only
    rw [r1, r2, p3]
    obtain ⟨hset, hkeys⟩ := Set_partKey om i
      (List.take (min 10485760 (file.data.length - i * 10485760))
        (List.drop (i * 10485760) file.data)) hk
    rcases Nat.eq_zero_or_pos k with h0 | h0
    · subst h0
      simp only [layerBlobPartsLoop]
      rw [hset, take_min_drop]
      simp [chunksFrom, List.range'_succ]
    · have hpos : i * 10485760 + min 10485760 (file.data.length - i * 10485760)
          = (i + 1) * 10485760 := by
        have := hcov (i + 1) (by omega)
        omega
      rw [hpos, ih (i + 1) _ (fun j hj => hcov j (by omega)) hkeys, hset, take_min_drop]
      simp [chunksFrom, List.range'_succ]

/-- The parts `0`, ..., `n - 1` concatenated are the first `n * LAYER_PART_MAX_SIZE` bytes. -/
theorem chunksFrom_flatten (data : List Byte) (n : Nat) :
    ((chunksFrom data 0 n).map Prod.snd).flatten = data.take (n * 10485760) := by
  induction n with
  | zero => simp [chunksFrom]
  | succ n ih =>
    have : chunksFrom data 0 (n + 1)
        = chunksFrom data 0 n ++ [(partKey n, (data.drop (n * 10485760)).take 10485760)] := by
      simp [chunksFrom, List.range'_concat]
    rw [this, List.map_append, List.flatten_append, ih]
    simp only [List.map_cons, List.map_nil, List.flatten_cons, List.flatten_nil,
      List.append_nil]
    rw [Nat.succ_mul, List.take_add]

theorem chunksFrom_keys (data : List Byte) (n : Nat) :
    (chunksFrom data 0 n).map Prod.fst = (List.range n).map partKey := by
  simp [chunksFrom, List.range_eq_range', Function.comp_def]

theorem chunksFrom_length (data : List Byte) (i n : Nat) : (chunksFrom data i n).length = n := by
  simp [chunksFrom]

/-! ## `layerBlobParts`: claims C1, C2 and C4 -/

theorem layerBlobParts_open (fs : FileSystem) (digest blobPath : String)
    (logger : Option ILogger) (file : File) (hopen : fs.Open blobPath = .ok file)
    (h63 : file.data.length < 2 ^ 63) (hstat : file.statErr = none) (l : ILogger)
    (hlog : logger = some l) :
    layerBlobParts fs digest blobPath logger
      = layerBlobPartsLoop file (file.data.length : Int)
          (totalPartsNum (file.data.length : Int)) 0 (0 * 10485760) OrderedMap.empty := by
  unfold layerBlobParts
  rw [hopen]
  simp only [hstat, hlog, Printfln]
  rw [wrap64_id _ (by omega) (by norm_num at h63; omega)]

theorem layerBlobParts_ok (fs : FileSystem) (digest blobPath : String)
    (logger : Option ILogger) (file : File) (om : OrderedMap)
    (hopen : fs.Open blobPath = .ok file)
    (h : layerBlobParts fs digest blobPath logger = .ret (some om, none)) :
    file.statErr = none ∧ ∃ l, logger = some l := by
  unfold layerBlobParts at h
  rw [hopen] at h
  simp only at h
  cases hs : file.statErr with
  | some e => rw [hs] at h; simp at h
  | none =>
    refine ⟨rfl, ?_⟩
    cases logger with
    | none => rw [hs] at h; simp [Printfln] at h
    | some l => exact ⟨l, rfl⟩

theorem ceilParts_cover (S j : Nat) (hj : j < ceilParts S) : j * 10485760 < S := by
  unfold ceilParts at hj
  omega

/-- Below `2^53` bytes: every successful run of `layerBlobParts` returns exactly
`n = ceil(S / 10485760)` chunks under the keys `part_0`, ..., `part_(n-1)` in that order; every
chunk but the last has `10485760` bytes and the last has `S - 10485760*(n-1)` bytes, a number
in `(0, 10485760]`; `S = 0` gives no chunk; and the run is successful when `Stat` succeeds,
the logger is not nil and every read fills its buffer. -/
theorem layerBlobParts_count_small (fs : FileSystem) (digest blobPath : String)
    (logger : Option ILogger) (file : File) (hopen : fs.Open blobPath = .ok file)
    (hS : file.data.length < 2 ^ 53) :
    (∀ om, layerBlobParts fs digest blobPath logger = .ret (some om, none) →
      om.entries.map (fun kv => (kv.1, kv.2.length))
        = (List.range (ceilParts file.data.length)).map (fun i =>
            (partKey i, if i + 1 < ceilParts file.data.length then 10485760
              else file.data.length - 10485760 * (ceilParts file.data.length - 1)))) ∧
    (0 < ceilParts file.data.length →
      0 < file.data.length - 10485760 * (ceilParts file.data.length - 1) ∧
      file.data.length - 10485760 * (ceilParts file.data.length - 1) ≤ 10485760) ∧
    (file.data.length = 0 → ceilParts file.data.length = 0) ∧
    (file.statErr = none → logger ≠ none → (∀ j, file.reads j = .full) →
      ∃ om, layerBlobParts fs digest blobPath logger = .ret (some om, none)) := by
  have h63 : file.data.length < 2 ^ 63 := lt_trans hS (by norm_num)
  refine ⟨?_, ?_, ?_, ?_⟩
  · intro om h
    obtain ⟨hstat, l, hl⟩ := layerBlobParts_ok fs digest blobPath logger file om hopen h
    rw [layerBlobParts_open fs digest blobPath logger file hopen h63 hstat l hl,
      totalPartsNum_small _ hS] at h
    have hshape := loop_shape file _ _ 0 _ OrderedMap.empty om (by simp [OrderedMap.Keys,
      OrderedMap.empty]) h
    have e1 : om.entries.map (fun kv => (kv.1, kv.2.length))
        = (om.entries.map (fun kv => (kv.1, (kv.2.length : Int)))).map
            (fun p => (p.1, p.2.toNat)) := by
      simp [Function.comp_def]
    have e2 : OrderedMap.empty.entries = [] := rfl
    rw [e1, hshape, e2, List.map_nil, List.nil_append, List.map_map, List.range_eq_range']
    apply List.map_congr_left
    intro j hj
    have hj2 : j < ceilParts file.data.length := by
      have := List.mem_range'_1.1 hj
      omega
    have hcov := ceilParts_cover _ _ hj2
    simp only [Function.comp_def]
    rw [partSize_eq _ j h63 (le_of_lt hcov)]
    congr 1
    unfold ceilParts at hj2 ⊢
    split_ifs with hlast <;> omega
  · intro hn
    unfold ceilParts at hn ⊢
    omega
  · intro h0
    unfold ceilParts
    omega
  · intro hstat hlog hfull
    obtain ⟨l, hl⟩ := Option.ne_none_iff_exists'.1 hlog
    rw [layerBlobParts_open fs digest blobPath logger file hopen h63 hstat l hl,
      totalPartsNum_small _ hS]
    exact ⟨_, loop_full file h63 hfull _ 0 OrderedMap.empty
      (fun j hj => ceilParts_cover _ _ (by omega)) (by simp [OrderedMap.Keys, OrderedMap.empty])⟩

theorem totalPartsNum_big : totalPartsNum 9007199263129601 = 858993460 := by decide!

/-- A file of `9007199263129601 = 858993460 * 10485760 + 1` bytes: every run of
`layerBlobParts` that returns has `858993460` chunks. -/
theorem layerBlobParts_count_big (fs : FileSystem) (digest blobPath : String)
    (logger : Option ILogger) (file : File) (om : OrderedMap)
    (hopen : fs.Open blobPath = .ok file) (hlen : file.data.length = 9007199263129601)
    (h : layerBlobParts fs digest blobPath logger = .ret (some om, none)) :
    om.entries.length = 858993460 := by
  have h63 : file.data.length < 2 ^ 63 := by rw [hlen]; norm_num
  obtain ⟨hstat, l, hl⟩ := layerBlobParts_ok fs digest blobPath logger file om hopen h
  have ht : totalPartsNum (file.data.length : Int) = 858993460 := by
    rw [hlen]; exact totalPartsNum_big
  rw [layerBlobParts_open fs digest blobPath logger file hopen h63 hstat l hl, ht] at h
  have hshape := loop_shape file _ _ 0 _ OrderedMap.empty om (by simp [OrderedMap.Keys,
    OrderedMap.empty]) h
  have e2 : OrderedMap.empty.entries = [] := rfl
  have hl2 := congrArg List.length hshape
  rw [e2, List.map_nil, List.nil_append, List.length_map, List.length_map,
    List.length_range'] at hl2
  exact hl2

/-- C1, the divergence: the number of parts is computed in `float64`. For a blob of
`S = 9007199263129601 = 858993460 * 10485760 + 1` bytes the conversion of `S` rounds down
and `totalPartsNum` is `858993460`, while `ceil(S / 10485760)` is `858993461`: no run of
`layerBlobParts` on a file of that size returns `ceil(S / 10485760)` chunks. What holds is
the claim for every blob of `S < 2^53` bytes: every successful run returns exactly
`n = ceil(S / 10485760)` chunks under the keys `part_0`, ..., `part_(n-1)` in that order;
every chunk but the last has `10485760` bytes and the last has `S - 10485760*(n-1)` bytes, a
number in `(0, 10485760]`; `S = 0` gives no chunk; and the run is successful when `Stat`
succeeds, the logger is not nil and every read fills its buffer. The three-byte file gives
the single chunk `part_0`. -/
theorem layerBlobParts_count :
    totalPartsNum 9007199263129601 = 858993460 ∧ ceilParts 9007199263129601 = 858993461 ∧
    (∀ (fs : FileSystem) (digest blobPath : String) (logger : Option ILogger) (file : File)
        (om : OrderedMap),
      fs.Open blobPath = .ok file → file.data.length = 9007199263129601 →
      layerBlobParts fs digest blobPath logger = .ret (some om, none) →
      om.entries.length = 858993460) ∧
    (∀ (fs : FileSystem) (digest blobPath : String) (logger : Option ILogger) (file : File),
      fs.Open blobPath = .ok file → file.data.length < 2 ^ 53 →
      (∀ om, layerBlobParts fs digest blobPath logger = .ret (some om, none) →
        om.entries.map (fun kv => (kv.1, kv.2.length))
          = (List.range (ceilParts file.data.length)).map (fun i =>
              (partKey i, if i + 1 < ceilParts file.data.length then 10485760
                else file.data.length - 10485760 * (ceilParts file.data.length - 1)))) ∧
      (0 < ceilParts file.data.length →
        0 < file.data.length - 10485760 * (ceilParts file.data.length - 1) ∧
        file.data.length - 10485760 * (ceilParts file.data.length - 1) ≤ 10485760) ∧
      (file.data.length = 0 → ceilParts file.data.length = 0) ∧
      (file.statErr = none → logger ≠ none → (∀ j, file.reads j = .full) →
        ∃ om, layerBlobParts fs digest blobPath logger = .ret (some om, none))) ∧
    layerBlobParts smallFs "sha256:aaaa" "blob" (some ILogger.mk)
      = .ret (some ⟨[("part_0", [1, 2, 3])]⟩, none) :=
  ⟨totalPartsNum_big, by decide, layerBlobParts_count_big, layerBlobParts_count_small,
    by decide⟩

/-- Below `2^53` bytes and when no read is short, the chunks of every successful run of
`layerBlobParts`, concatenated in key order, are the bytes of the file, under the keys
`part_0`, `part_1`, ... -/
theorem layerBlobParts_concat_full (fs : FileSystem) (digest blobPath : String)
    (logger : Option ILogger) (file : File) (om : OrderedMap)
    (hopen : fs.Open blobPath = .ok file) (hS : file.data.length < 2 ^ 53)
    (hns : ∀ j n, file.reads j ≠ .short n)
    (h : layerBlobParts fs digest blobPath logger = .ret (some om, none)) :
    (om.entries.map Prod.snd).flatten = file.data ∧
    om.Keys = (List.range (ceilParts file.data.length)).map partKey := by
  have h63 : file.data.length < 2 ^ 63 := lt_trans hS (by norm_num)
  obtain ⟨hstat, l, hl⟩ := layerBlobParts_ok fs digest blobPath logger file om hopen h
  rw [layerBlobParts_open fs digest blobPath logger file hopen h63 hstat l hl,
    totalPartsNum_small _ hS] at h
  have := loop_content file h63 hns _ 0 OrderedMap.empty om
    (fun j hj => ceilParts_cover _ _ (by omega)) (by simp [OrderedMap.Keys, OrderedMap.empty]) h
  have e2 : OrderedMap.empty.entries = [] := rfl
  rw [e2, List.nil_append] at this
  constructor
  · rw [this, chunksFrom_flatten]
    apply List.take_of_length_le
    unfold ceilParts
    omega
  · unfold OrderedMap.Keys
    rw [this, chunksFrom_keys]

/-- C2, the divergence: `layerBlobParts` discards the number of bytes that `file.Read`
returns. The only read of the three-byte file `[1, 2, 3]` returns two bytes and no error;
`layerBlobParts` returns without error the one chunk `[1, 2, 0]`, and the chunks do not
reproduce the file. What holds: when no read is short and the blob has fewer than `2^53`
bytes (see the part count), the chunks of a run that returns without error, concatenated in
key order `part_0`, `part_1`, ..., are the bytes of the file; the three-byte file read in
full gives the chunk `[1, 2, 3]`. -/
theorem layerBlobParts_concat :
    (∃ om, layerBlobParts shortFs "sha256:aaaa" "blob" (some ILogger.mk)
        = .ret (some om, none) ∧
      shortFs.Open "blob" = .ok shortFile ∧
      om.Keys = ["part_0"] ∧
      (om.entries.map Prod.snd).flatten = [1, 2, 0] ∧ shortFile.data = [1, 2, 3] ∧
      (om.entries.map Prod.snd).flatten ≠ shortFile.data) ∧
    (∀ (fs : FileSystem) (digest blobPath : String) (logger : Option ILogger) (file : File)
        (om : OrderedMap),
      fs.Open blobPath = .ok file → file.data.length < 2 ^ 53 →
      (∀ j n, file.reads j ≠ .short n) →
      layerBlobParts fs digest blobPath logger = .ret (some om, none) →
      (om.entries.map Prod.snd).flatten = file.data ∧
      om.Keys = (List.range (ceilParts file.data.length)).map partKey) ∧
    (∃ om, layerBlobParts smallFs "sha256:aaaa" "blob" (some ILogger.mk)
        = .ret (some om, none) ∧
      (om.entries.map Prod.snd).flatten = [1, 2, 3] ∧ smallFile.data = [1, 2, 3]) :=
  ⟨⟨⟨[("part_0", [1, 2, 0])]⟩, by decide, rfl, by decide, by decide, rfl, by decide⟩,
    layerBlobParts_concat_full,
    ⟨⟨[("part_0", [1, 2, 3])]⟩, by decide, by decide, rfl⟩⟩

/-- C4, the failing input: the only read of the three-byte file returns two bytes and no
error; `layerBlobParts` returns without error the chunk `[1, 2, 0]`, whose last byte was
not filled by the read. -/
theorem layerBlobParts_short_read :
    shortFile.Read 0 0 3 = ([1, 2, 0], 2, none) ∧
    layerBlobParts shortFs "sha256:aaaa" "blob" (some ILogger.mk)
      = .ret (some ⟨[("part_0", [1, 2, 0])]⟩, none) := by
  constructor <;> decide

/-! ## The registry calls of a run follow the protocol -/

theorem protocolRun_append (p : Phase) (a b : List Event) :
    protocolRun p (a ++ b) = (protocolRun p a).bind (fun q => protocolRun q b) := by
  induction a generalizing p with
  | nil => rfl
  | cons e es ih =>
    simp only [List.cons_append, protocolRun]
    cases protocolStep p e with
    | none => rfl
    | some q => exact ih q

theorem protocolRun_append_of (p q r : Phase) (a b : List Event)
    (h1 : protocolRun p a = some q) (h2 : protocolRun q b = some r) :
    protocolRun p (a ++ b) = some r := by
  rw [protocolRun_append, h1]
  exact h2

theorem protocolRun_done (evs : List Event) (p : Phase) (h : protocolRun .done evs = some p) :
    evs = [] ∧ p = .done := by
  cases evs with
  | nil => simp only [protocolRun, Option.some.injEq] at h; exact ⟨rfl, h.symm⟩
  | cons e es => simp [protocolRun, protocolStep] at h

theorem protocolRun_failed (evs : List Event) (p : Phase)
    (h : protocolRun .failed evs = some p) : evs = [] ∧ p = .failed := by
  cases evs with
  | nil => simp only [protocolRun, Option.some.injEq] at h; exact ⟨rfl, h.symm⟩
  | cons e es => simp [protocolRun, protocolStep] at h

theorem protocolStep_fatal (p q : Phase) (e : Event) (h : protocolStep p e = some q)
    (hf : e.fatal = true) : q = .failed := by
  cases e <;> cases p <;> simp only [Event.fatal] at hf <;>
    simp only [protocolStep] at h <;> (try (split at h)) <;> simp_all

theorem protocolStep_putImage (p q : Phase) (e : Event) (h : protocolStep p e = some q)
    (hf : e.isPutImage = true) : q = .done ∨ q = .failed := by
  cases e <;> cases p <;> simp only [Event.isPutImage] at hf <;>
    simp only [protocolStep] at h <;> (try (split at h)) <;> simp_all

/-- In an admitted sequence of calls a fatal failure is the last call, and it ends in the
phase `failed`. -/
theorem protocolRun_fatal (evs : List Event) : ∀ (p q : Phase) (pre post : List Event)
    (ev : Event), protocolRun p evs = some q → evs = pre ++ ev :: post → ev.fatal = true →
    post = [] ∧ q = .failed := by
  intro p q pre post ev h hsplit hf
  subst hsplit
  rw [protocolRun_append] at h
  cases h1 : protocolRun p pre with
  | none => rw [h1] at h; simp at h
  | some p1 =>
    rw [h1] at h
    simp only [Option.some_bind, protocolRun] at h
    cases h2 : protocolStep p1 ev with
    | none => rw [h2] at h; simp at h
    | some p2 =>
      rw [h2] at h
      have := protocolStep_fatal p1 p2 ev h2 hf
      subst this
      exact protocolRun_failed post q h

/-- An admitted sequence of calls that does not end in `done` or `failed` has no call of
`PutImage`. -/
theorem protocolRun_no_put (evs : List Event) : ∀ (p q : Phase),
    protocolRun p evs = some q → q ≠ .done → q ≠ .failed → ∀ ev ∈ evs, ev.isPutImage = false := by
  induction evs with
  | nil => intro p q _ _ _ ev hev; simp at hev
  | cons e es ih =>
    intro p q h hd hf ev hev
    simp only [protocolRun] at h
    cases h2 : protocolStep p e with
    | none => rw [h2] at h; simp at h
    | some p2 =>
      rw [h2] at h
      simp only at h
      rcases List.mem_cons.1 hev with rfl | hmem
      · by_contra hput
        have hput2 : ev.isPutImage = true := by simpa using hput
        rcases protocolStep_putImage p p2 ev h2 hput2 with hp | hp
        · subst hp
          exact hd (protocolRun_done es q h).2
        · subst hp
          exact hf (protocolRun_failed es q h).2
      · exact ih p2 q h hd hf ev hmem

theorem uploadPartsLoop_cons (env : Env) (client : Option IClient) (input : UploadInput)
    (initOut : InitiateLayerUploadOutput) (blobs : OrderedMap) (key : String)
    (keys : List String) (firstPart : Int) (tr : List Event) :
    uploadPartsLoop env client input initOut blobs (key :: keys) firstPart tr =
      match blobs.Get key with
      | none => (.ret (some (Errorf "error getting blob")), tr)
      | some v =>
        match env.SpinnerStart key v.length with
        | some err => (.ret (some (ErrorfW "error starting spinner: " err "")), tr)
        | none =>
          match logDeref input.Logger [initOut.UploadId] with
          | .panic msg => (.panic msg, tr)
          | .ret _ =>
            match client with
            | none => (.panic nilDeref, tr)
            | some c =>
              match (c.UploadLayerPart tr (uploadLayerPartInput input initOut v firstPart)).2 with
              | some err =>
                (.ret (some (ErrorfW "upload layer part error: " err "")),
                  tr ++ [Event.UploadLayerPart (uploadLayerPartInput input initOut v firstPart)
                    (c.UploadLayerPart tr (uploadLayerPartInput input initOut v firstPart)).1
                    (c.UploadLayerPart tr (uploadLayerPartInput input initOut v firstPart)).2])
              | none =>
                match (c.UploadLayerPart tr (uploadLayerPartInput input initOut v firstPart)).1 with
                | none =>
                  (.panic nilDeref,
                    tr ++ [Event.UploadLayerPart (uploadLayerPartInput input initOut v firstPart)
                      (c.UploadLayerPart tr (uploadLayerPartInput input initOut v firstPart)).1
                      (c.UploadLayerPart tr (uploadLayerPartInput input initOut v firstPart)).2])
                | some _ =>
                  uploadPartsLoop env client input initOut blobs keys
                    (firstPart + (v.length : Int))
                    (tr ++ [Event.UploadLayerPart (uploadLayerPartInput input initOut v firstPart)
                      (c.UploadLayerPart tr (uploadLayerPartInput input initOut v firstPart)).1
                      (c.UploadLayerPart tr (uploadLayerPartInput input initOut v firstPart)).2]) := by
  rfl

theorem uploadPartsLoop_protocol (env : Env) (client : Option IClient) (input : UploadInput)
    (initOut : InitiateLayerUploadOutput) (blobs : OrderedMap) (d : String)
    (todo : List String) : ∀ (keys : List String) (firstPart : Int) (tr : List Event),
    ∃ evs p,
      (uploadPartsLoop env client input initOut blobs keys firstPart tr).2 = tr ++ evs ∧
      protocolRun (.uploading d todo) evs = some p ∧
      ((uploadPartsLoop env client input initOut blobs keys firstPart tr).1 = .ret none →
        p = .uploading d todo) ∧
      (p = .failed →
        ∃ e, (uploadPartsLoop env client input initOut blobs keys firstPart tr).1
          = .ret (some e)) ∧
      (p = .failed ∨ p = .uploading d todo) := by
  intro keys
  induction keys with
  | nil =>
    intro firstPart tr
    exact ⟨[], .uploading d todo, by simp [uploadPartsLoop], rfl, fun _ => rfl,
      fun h => by simp at h, Or.inr rfl⟩
  | cons key keys ih =>
    intro firstPart tr
    rw [uploadPartsLoop_cons]
    cases hg : blobs.Get key with
    | none =>
      exact ⟨[], .uploading d todo, by simp, rfl, fun h => by simp at h,
        fun h => by simp at h, Or.inr rfl⟩
    | some v =>
      dsimp only
      cases hs : env.SpinnerStart key v.length with
      | some err =>
        exact ⟨[], .uploading d todo, by simp, rfl, fun h => by simp at h,
          fun h => by simp at h, Or.inr rfl⟩
      | none =>
        dsimp only
        cases hl : logDeref input.Logger [initOut.UploadId] with
        | panic msg =>
          exact ⟨[], .uploading d todo, by simp, rfl, fun h => by simp at h,
            fun h => by simp at h, Or.inr rfl⟩
        | ret u =>
          dsimp only
          cases client with
          | none =>
            exact ⟨[], .uploading d todo, by simp, rfl, fun h => by simp at h,
              fun h => by simp at h, Or.inr rfl⟩
          | some c =>
            dsimp only
            rcases hr : c.UploadLayerPart tr (uploadLayerPartInput input initOut v firstPart)
              with ⟨o, e⟩
            cases e with
            | some err =>
              refine ⟨[Event.UploadLayerPart _ o (some err)], .failed, rfl, ?_,
                fun h => by simp at h, fun _ => ⟨_, rfl⟩, Or.inl rfl⟩
              simp [protocolRun, protocolStep]
            | none =>
              cases o with
              | none =>
                refine ⟨[Event.UploadLayerPart _ none none], .uploading d todo, rfl, ?_,
                  fun _ => rfl, fun h => by simp at h, Or.inr rfl⟩
                simp [protocolRun, protocolStep]
              | some out =>
                dsimp only
                obtain ⟨evs, p, h1, h2, h3, h4, h5⟩ := ih (firstPart + (v.length : Int))
                  (tr ++ [Event.UploadLayerPart (uploadLayerPartInput input initOut v firstPart)
                    (some out) none])
                refine ⟨Event.UploadLayerPart (uploadLayerPartInput input initOut v firstPart)
                  (some out) none :: evs, p, ?_, ?_, h3, h4, h5⟩
                · rw [h1]; simp
                · simp only [protocolRun, protocolStep]
                  exact h2


theorem initLayerUpload_protocol (input : UploadInput) (d : String) (todo : List String)
    (tr : List Event) :
    ∃ evs p,
      (initLayerUpload input tr).2 = tr ++ evs ∧
      protocolRun (.idle (d :: todo)) evs = some p ∧
      (∀ o, (initLayerUpload input tr).1 = .ret (o, none) → p = .uploading d todo) ∧
      (p = .failed → ∃ o e, (initLayerUpload input tr).1 = .ret (o, some e)) ∧
      (p = .failed ∨ p = .uploading d todo ∨ p = .idle (d :: todo)) := by
  unfold initLayerUpload
  cases input.Client with
  | none =>
    exact ⟨[], _, by simp, rfl, fun o h => by simp at h, fun h => by simp at h,
      Or.inr (Or.inr rfl)⟩
  | some c =>
    dsimp only
    rcases hr : c.InitiateLayerUpload tr (initiateLayerUploadInput input) with ⟨o, e⟩
    cases e with
    | none =>
      exact ⟨[_], .uploading d todo, rfl, by simp [protocolRun, protocolStep],
        fun _ _ => rfl, fun h => by simp at h, Or.inr (Or.inl rfl)⟩
    | some err =>
      exact ⟨[_], .failed, rfl, by simp [protocolRun, protocolStep],
        fun o h => by simp at h, fun _ => ⟨_, _, rfl⟩, Or.inl rfl⟩

theorem As_wrap (pre post : String) (err : GoError) (k : ErrKind) :
    (ErrorfW pre err post).As k = err.As k := rfl

theorem As_leaf_of_As (err x : GoError) (k : ErrKind) (h : err.As k = some x) :
    ∃ msg, x = .leaf k msg := by
  induction err with
  | leaf kind msg =>
    simp only [GoError.As] at h
    split_ifs at h with hk
    subst hk
    exact ⟨msg, by simpa using h.symm⟩
  | wrap msg inner ih => exact ih h

theorem As_other_of_As (err x : GoError) (k k2 : ErrKind) (h : err.As k = some x)
    (hne : k ≠ k2) : err.As k2 = none := by
  induction err with
  | leaf kind msg =>
    simp only [GoError.As] at h ⊢
    split_ifs at h with hk
    subst hk
    simp [hne]
  | wrap msg inner ih => exact ih h

theorem completeLayerUpload_protocol (input : UploadInput) (uploadId : Option String)
    (d : String) (todo : List String) (tr : List Event) :
    ∃ evs p,
      (completeLayerUpload input uploadId [d] tr).2 = tr ++ evs ∧
      protocolRun (.uploading d todo) evs = some p ∧
      (p = .uploading d todo ∨ p = .idle todo ∨ p = .failed) ∧
      (∀ s, (completeLayerUpload input uploadId [d] tr).1 = .ret (s, none) → p = .idle todo) ∧
      (∀ s e, (completeLayerUpload input uploadId [d] tr).1 = .ret (s, some e) →
        ((e.As .LayerAlreadyExistsException).isSome = true → p = .idle todo) ∧
        ((e.As .LayerAlreadyExistsException) = none → p = .failed)) ∧
      (p = .failed → ∃ s e, (completeLayerUpload input uploadId [d] tr).1 = .ret (s, some e) ∧
        (e.As .LayerAlreadyExistsException) = none) := by
  unfold completeLayerUpload
  cases input.Client with
  | none =>
    exact ⟨[], .uploading d todo, by simp, rfl, Or.inl rfl, fun s h => by simp at h,
      fun s e h => by simp at h, fun h => by simp at h⟩
  | some c =>
    dsimp only
    rcases hr : c.CompleteLayerUpload tr (completeLayerUploadInput input uploadId [d])
      with ⟨o, e⟩
    have hd : (completeLayerUploadInput input uploadId [d]).LayerDigests = [d] := rfl
    cases e with
    | some err =>
      dsimp only
      cases hinv : err.As .InvalidLayerException with
      | some digestEx =>
        have hno : err.As .LayerAlreadyExistsException = none :=
          As_other_of_As err digestEx _ _ hinv (by decide)
        obtain ⟨msg, hleaf⟩ := As_leaf_of_As err digestEx _ hinv
        have hno2 : digestEx.As .LayerAlreadyExistsException = none := by
          subst hleaf
          simp [GoError.As]
        refine ⟨[_], .failed, rfl, ?_, Or.inr (Or.inr rfl), fun s h => by simp at h, ?_, ?_⟩
        · simp [protocolRun, protocolStep, hd, hno]
        · intro s e h
          simp only [Outcome.ret.injEq, Prod.mk.injEq, Option.some.injEq] at h
          obtain ⟨_, he⟩ := h
          subst he
          rw [As_wrap, hno2]
          simp
        · intro _
          exact ⟨_, _, rfl, by rw [As_wrap, hno2]⟩
      | none =>
        dsimp only
        cases hlae : err.As .LayerAlreadyExistsException with
        | none =>
          refine ⟨[_], .failed, rfl, ?_, Or.inr (Or.inr rfl), fun s h => by simp at h, ?_, ?_⟩
          · simp [protocolRun, protocolStep, hd, hlae]
          · intro s e h
            simp only [Outcome.ret.injEq, Prod.mk.injEq, Option.some.injEq] at h
            obtain ⟨_, he⟩ := h
            subst he
            rw [As_wrap, hlae]
            simp
          · intro _
            exact ⟨_, _, rfl, by rw [As_wrap, hlae]⟩
        | some x =>
          refine ⟨[_], .idle todo, rfl, ?_, Or.inr (Or.inl rfl), fun s h => rfl, ?_, ?_⟩
          · simp [protocolRun, protocolStep, hd, hlae]
          · intro s e h
            simp only [Outcome.ret.injEq, Prod.mk.injEq, Option.some.injEq] at h
            obtain ⟨_, he⟩ := h
            subst he
            rw [As_wrap, hlae]
            simp
          · intro h; simp at h
    | none =>
      dsimp only
      cases o with
      | none =>
        refine ⟨[_], .idle todo, rfl, ?_, Or.inr (Or.inl rfl), fun s h => rfl,
          fun s e h => by simp at h, fun h => by simp at h⟩
        simp [protocolRun, protocolStep, hd]
      | some output =>
        dsimp only
        cases output.LayerDigest with
        | none =>
          refine ⟨[_], .idle todo, rfl, ?_, Or.inr (Or.inl rfl), fun s h => rfl,
            fun s e h => by simp at h, fun h => by simp at h⟩
          simp [protocolRun, protocolStep, hd]
        | some dg =>
          refine ⟨[_], .idle todo, rfl, ?_, Or.inr (Or.inl rfl), fun s h => rfl,
            fun s e h => by simp at h, fun h => by simp at h⟩
          simp [protocolRun, protocolStep, hd]

theorem doUploadLayerParts_unfold (env : Env) (client : Option IClient) (input : UploadInput)
    (digest : String) (tr : List Event) :
    doUploadLayerParts env client input digest tr =
      match initLayerUpload input tr with
      | (.panic msg, tr1) => (.panic msg, tr1)
      | (.ret (_, some err), tr1) =>
        (.ret (some (ErrorfW "error initiating layer upload: " err "")), tr1)
      | (.ret (initOutPtr, none), tr1) =>
        match env.fs.Stat (filepathJoin [input.ImageLayersPath, stringsReplaceColon digest]) with
        | .error _ => (.ret (some (Errorf ("error reading file info for "
            ++ filepathJoin [input.ImageLayersPath, stringsReplaceColon digest]))), tr1)
        | .ok _ =>
          match Printfln input.Logger with
          | .panic msg => (.panic msg, tr1)
          | .ret _ =>
            match initOutPtr with
            | none => (.panic nilDeref, tr1)
            | some initOut =>
              match logDeref input.Logger [initOut.UploadId] with
              | .panic msg => (.panic msg, tr1)
              | .ret _ =>
                match layerBlobParts env.fs digest
                  (filepathJoin [input.ImageLayersPath, stringsReplaceColon digest])
                  input.Logger with
                | .panic msg => (.panic msg, tr1)
                | .ret (_, some err) =>
                  (.ret (some (ErrorfW "error getting layer parts: " err "")), tr1)
                | .ret (none, none) => (.panic nilDeref, tr1)
                | .ret (some blobs, none) =>
                  match uploadPartsLoop env client input initOut blobs blobs.Keys 0 tr1 with
                  | (.panic msg, tr2) => (.panic msg, tr2)
                  | (.ret (some err), tr2) => (.ret (some err), tr2)
                  | (.ret none, tr2) =>
                    match completeLayerUpload input initOut.UploadId [digest] tr2 with
                    | (.panic msg, tr3) => (.panic msg, tr3)
                    | (.ret (_, none), tr3) => (.ret none, tr3)
                    | (.ret (_, some err), tr3) =>
                      match err.As .LayerAlreadyExistsException with
                      | some _ =>
                        match Printfln input.Logger with
                        | .panic msg => (.panic msg, tr3)
                        | .ret _ => (.ret none, tr3)
                      | none => (.ret (some err), tr3) := by
  rfl

theorem doUploadLayerParts_protocol (env : Env) (client : Option IClient) (input : UploadInput)
    (d : String) (todo : List String) (tr : List Event) :
    ∃ evs p,
      (doUploadLayerParts env client input d tr).2 = tr ++ evs ∧
      protocolRun (.idle (d :: todo)) evs = some p ∧
      ((doUploadLayerParts env client input d tr).1 = .ret none → p = .idle todo) ∧
      (p = .failed → ∃ e, (doUploadLayerParts env client input d tr).1 = .ret (some e)) ∧
      p ≠ .done := by
  rw [doUploadLayerParts_unfold]
  obtain ⟨evs0, p0, a1, a2, a3, a4, a5⟩ := initLayerUpload_protocol input d todo tr
  rcases hi : initLayerUpload input tr with ⟨out0, tr1⟩
  rw [hi] at a1 a3 a4
  dsimp only at a1 a3 a4
  subst a1
  have hp0 : p0 ≠ .done := by rcases a5 with h | h | h <;> rw [h] <;> simp
  cases out0 with
  | panic msg =>
    exact ⟨evs0, p0, rfl, a2, fun h => by simp at h,
      fun h => by obtain ⟨_, _, h2⟩ := a4 h; simp at h2, hp0⟩
  | ret r =>
    obtain ⟨initOutPtr, e0⟩ := r
    cases e0 with
    | some err =>
      exact ⟨evs0, p0, rfl, a2, fun h => by simp at h, fun _ => ⟨_, rfl⟩, hp0⟩
    | none =>
      have hp : p0 = .uploading d todo := a3 _ rfl
      subst hp
      have early : ∀ out : Outcome (Option GoError), out ≠ .ret none →
          ∃ evs p, (out, tr ++ evs0).2 = tr ++ evs ∧
            protocolRun (.idle (d :: todo)) evs = some p ∧
            ((out, tr ++ evs0).1 = .ret none → p = .idle todo) ∧
            (p = .failed → ∃ e, (out, tr ++ evs0).1 = .ret (some e)) ∧ p ≠ .done :=
        fun out hne => ⟨evs0, _, rfl, a2, fun h => absurd h hne, fun h => by simp at h,
          by simp⟩
      dsimp only
      cases env.fs.Stat (filepathJoin [input.ImageLayersPath, stringsReplaceColon d]) with
      | error e => exact early _ (by simp)
      | ok fi =>
        dsimp only
        cases Printfln input.Logger with
        | panic msg => exact early _ (by simp)
        | ret u =>
          dsimp only
          cases initOutPtr with
          | none => exact early _ (by simp)
          | some initOut =>
            dsimp only
            cases logDeref input.Logger [initOut.UploadId] with
            | panic msg => exact early _ (by simp)
            | ret u2 =>
              dsimp only
              cases layerBlobParts env.fs d
                (filepathJoin [input.ImageLayersPath, stringsReplaceColon d]) input.Logger with
              | panic msg => exact early _ (by simp)
              | ret r2 =>
                obtain ⟨bl, e2⟩ := r2
                cases e2 with
                | some err => cases bl <;> exact early _ (by simp)
                | none =>
                  cases bl with
                  | none => exact early _ (by simp)
                  | some blobs =>
                    dsimp only
                    obtain ⟨evs1, p1, b1, b2, b3, b4, b5⟩ := uploadPartsLoop_protocol env client
                      input initOut blobs d todo blobs.Keys 0 (tr ++ evs0)
                    rcases hl : uploadPartsLoop env client input initOut blobs blobs.Keys 0
                      (tr ++ evs0) with ⟨out1, tr2⟩
                    rw [hl] at b1 b3 b4
                    dsimp only at b1 b3 b4
                    subst b1
                    have run1 : protocolRun (.idle (d :: todo)) (evs0 ++ evs1) = some p1 :=
                      protocolRun_append_of _ _ _ _ _ a2 b2
                    have hp1 : p1 ≠ .done := by rcases b5 with h | h <;> rw [h] <;> simp
                    cases out1 with
                    | panic msg =>
                      exact ⟨evs0 ++ evs1, p1, by simp, run1, fun h => by simp at h,
                        fun h => by obtain ⟨_, h2⟩ := b4 h; simp at h2, hp1⟩
                    | ret r3 =>
                      cases r3 with
                      | some err =>
                        exact ⟨evs0 ++ evs1, p1, by simp, run1, fun h => by simp at h,
                          fun _ => ⟨_, rfl⟩, hp1⟩
                      | none =>
                        have hp : p1 = .uploading d todo := b3 rfl
                        subst hp
                        dsimp only
                        obtain ⟨evs2, p2, c1, c2, c3, c4, c5, c6⟩ := completeLayerUpload_protocol
                          input initOut.UploadId d todo (tr ++ evs0 ++ evs1)
                        rcases hc : completeLayerUpload input initOut.UploadId [d]
                          (tr ++ evs0 ++ evs1) with ⟨out2, tr3⟩
                        rw [hc] at c1 c4 c5 c6
                        dsimp only at c1 c4 c5 c6
                        subst c1
                        have run2 : protocolRun (.idle (d :: todo)) (evs0 ++ evs1 ++ evs2)
                            = some p2 := protocolRun_append_of _ _ _ _ _ run1 c2
                        have hp2 : p2 ≠ .done := by
                          rcases c3 with h | h | h <;> rw [h] <;> simp
                        cases out2 with
                        | panic msg =>
                          exact ⟨evs0 ++ evs1 ++ evs2, p2, by simp, run2, fun h => by simp at h,
                            fun h => by obtain ⟨_, _, h2, _⟩ := c6 h; simp at h2, hp2⟩
                        | ret r4 =>
                          obtain ⟨s, e4⟩ := r4
                          cases e4 with
                          | none =>
                            exact ⟨evs0 ++ evs1 ++ evs2, p2, by simp, run2,
                              fun _ => c4 s rfl,
                              fun h => by obtain ⟨_, _, h2, _⟩ := c6 h; simp at h2, hp2⟩
                          | some err =>
                            dsimp only
                            obtain ⟨d1, d2⟩ := c5 s err rfl
                            cases hlae : err.As .LayerAlreadyExistsException with
                            | none =>
                              exact ⟨evs0 ++ evs1 ++ evs2, p2, by simp, run2,
                                fun h => by simp at h, fun _ => ⟨_, rfl⟩, hp2⟩
                            | some x =>
                              dsimp only
                              have hp : p2 = .idle todo := d1 (by rw [hlae]; rfl)
                              exact ⟨evs0 ++ evs1 ++ evs2, p2, by simp, run2,
                                fun _ => hp, fun h => by rw [hp] at h; simp at h, hp2⟩

theorem uploadLayersLoop_protocol (env : Env) (input : UploadInput) :
    ∀ (layers : List BlobInfo) (tr : List Event),
    ∃ evs p,
      (uploadLayersLoop env input layers tr).2 = tr ++ evs ∧
      protocolRun (.idle (layers.map (fun layer => layer.Digest))) evs = some p ∧
      ((uploadLayersLoop env input layers tr).1 = .ret none → p = .idle []) ∧
      (p = .failed → ∃ e, (uploadLayersLoop env input layers tr).1 = .ret (some e)) ∧
      p ≠ .done := by
  intro layers
  induction layers with
  | nil =>
    intro tr
    exact ⟨[], .idle [], by simp [uploadLayersLoop], rfl, fun _ => rfl, fun h => by simp at h,
      by simp⟩
  | cons layer layers ih =>
    intro tr
    have hunf : uploadLayersLoop env input (layer :: layers) tr =
        match Printfln input.Logger with
        | .panic msg => (.panic msg, tr)
        | .ret _ =>
          match doUploadLayerParts env input.Client input layer.Digest tr with
          | (.panic msg, tr1) => (.panic msg, tr1)
          | (.ret (some err), tr1) => (.ret (some (ErrorfW "error uploading layer: " err "")), tr1)
          | (.ret none, tr1) => uploadLayersLoop env input layers tr1 := rfl
    rw [hunf]
    cases Printfln input.Logger with
    | panic msg =>
      exact ⟨[], _, by simp, rfl, fun h => by simp at h, fun h => by simp at h, by simp⟩
    | ret u =>
      dsimp only
      obtain ⟨evs1, p1, a1, a2, a3, a4, a5⟩ := doUploadLayerParts_protocol env input.Client input
        layer.Digest (layers.map (fun layer => layer.Digest)) tr
      rcases hd : doUploadLayerParts env input.Client input layer.Digest tr with ⟨out1, tr1⟩
      rw [hd] at a1 a3 a4
      dsimp only at a1 a3 a4
      subst a1
      cases out1 with
      | panic msg =>
        exact ⟨evs1, p1, rfl, a2, fun h => by simp at h,
          fun h => by obtain ⟨_, h2⟩ := a4 h; simp at h2, a5⟩
      | ret r =>
        cases r with
        | some err =>
          exact ⟨evs1, p1, rfl, a2, fun h => by simp at h, fun _ => ⟨_, rfl⟩, a5⟩
        | none =>
          have hp : p1 = .idle (layers.map (fun layer => layer.Digest)) := a3 rfl
          subst hp
          dsimp only
          obtain ⟨evs2, p2, b1, b2, b3, b4, b5⟩ := ih (tr ++ evs1)
          refine ⟨evs1 ++ evs2, p2, by rw [b1]; simp, ?_, b3, b4, b5⟩
          exact protocolRun_append_of _ _ _ _ _ a2 b2

theorem uploadLayerParts_protocol (env : Env) (input : UploadInput) (manifest : Manifest)
    (tr : List Event) :
    ∃ evs p,
      (uploadLayerParts env input manifest tr).2 = tr ++ evs ∧
      protocolRun (.idle (allDigests manifest)) evs = some p ∧
      ((uploadLayerParts env input manifest tr).1 = .ret none → p = .idle []) ∧
      (p = .failed → ∃ e, (uploadLayerParts env input manifest tr).1 = .ret (some e)) ∧
      p ≠ .done := by
  unfold uploadLayerParts
  cases Printfln input.Logger with
  | panic msg =>
    exact ⟨[], _, by simp, rfl, fun h => by simp at h, fun h => by simp [allDigests] at h,
      by simp⟩
  | ret u =>
    dsimp only
    obtain ⟨evs1, p1, a1, a2, a3, a4, a5⟩ := doUploadLayerParts_protocol env input.Client input
      manifest.ConfigInfo.Digest (manifest.LayerInfos.map (fun layer => layer.Digest)) tr
    rcases hd : doUploadLayerParts env input.Client input manifest.ConfigInfo.Digest tr
      with ⟨out1, tr1⟩
    rw [hd] at a1 a3 a4
    dsimp only at a1 a3 a4
    subst a1
    cases out1 with
    | panic msg =>
      exact ⟨evs1, p1, rfl, a2, fun h => by simp at h,
        fun h => by obtain ⟨_, h2⟩ := a4 h; simp at h2, a5⟩
    | ret r =>
      cases r with
      | some err =>
        exact ⟨evs1, p1, rfl, a2, fun h => by simp at h, fun _ => ⟨_, rfl⟩, a5⟩
      | none =>
        have hp : p1 = .idle (manifest.LayerInfos.map (fun layer => layer.Digest)) := a3 rfl
        subst hp
        dsimp only
        obtain ⟨evs2, p2, b1, b2, b3, b4, b5⟩ := uploadLayersLoop_protocol env input
          manifest.LayerInfos (tr ++ evs1)
        refine ⟨evs1 ++ evs2, p2, by rw [b1]; simp, ?_, b3, b4, b5⟩
        exact protocolRun_append_of _ _ _ _ _ a2 b2

theorem checkRepo_protocol (input : UploadInput) (todo : List String) (tr : List Event) :
    ∃ evs p,
      (checkRepo input tr).2 = tr ++ evs ∧
      protocolRun (.start todo) evs = some p ∧
      (∀ d c, (checkRepo input tr).1 = .ret (d, c, none) → p = .idle todo) ∧
      (p = .failed → ∃ e, (checkRepo input tr).1 = .ret (none, none, some e)) ∧
      p ≠ .done ∧ (∀ ev ∈ evs, ev.fatal = false) := by
  unfold checkRepo
  cases input.Client with
  | none =>
    exact ⟨[], _, by simp, rfl, fun d c h => by simp at h, fun h => by simp at h, by simp,
      by simp⟩
  | some client =>
    dsimp only
    rcases hr : client.DescribeRepositories tr (describeRepositoriesInput input) with ⟨o, e⟩
    cases e with
    | some err =>
      dsimp only
      cases hnf : err.As .RepositoryNotFoundException with
      | none =>
        refine ⟨[_], .failed, rfl, ?_, fun d c h => by simp at h, fun _ => ⟨_, rfl⟩, by simp,
          by simp [Event.fatal]⟩
        simp [protocolRun, protocolStep, hnf]
      | some x =>
        dsimp only
        rcases hc : client.CreateRepository
          (tr ++ [Event.DescribeRepositories (describeRepositoriesInput input) o (some err)])
          (createRepositoryInput input) with ⟨co, ce⟩
        cases ce with
        | some cerr =>
          refine ⟨[Event.DescribeRepositories (describeRepositoriesInput input) o (some err),
              Event.CreateRepository (createRepositoryInput input) co (some cerr)], .failed,
            by simp, ?_, fun d c h => by simp at h,
            fun _ => ⟨_, rfl⟩, by simp, by simp [Event.fatal]⟩
          simp [protocolRun, protocolStep, hnf]
        | none =>
          refine ⟨[Event.DescribeRepositories (describeRepositoriesInput input) o (some err),
              Event.CreateRepository (createRepositoryInput input) co none], .idle todo,
            by simp, ?_, fun d c h => rfl,
            fun h => by simp at h, by simp, by simp [Event.fatal]⟩
          simp [protocolRun, protocolStep, hnf]
    | none =>
      dsimp only
      cases o with
      | none =>
        refine ⟨[_], .idle todo, rfl, ?_, fun d c h => rfl, fun h => by simp at h, by simp,
          by simp [Event.fatal]⟩
        simp [protocolRun, protocolStep]
      | some descOut =>
        dsimp only
        split_ifs with hlen
        · refine ⟨[_], .idle todo, rfl, ?_, fun d c h => rfl, fun h => by simp at h, by simp,
            by simp [Event.fatal]⟩
          simp [protocolRun, protocolStep]
        · refine ⟨[_], .idle todo, rfl, ?_, fun d c h => rfl, fun h => by simp at h, by simp,
            by simp [Event.fatal]⟩
          simp [protocolRun, protocolStep]

theorem putEcrImage_protocol (env : Env) (input : UploadInput) (manifest : Manifest)
    (tr : List Event) :
    ∃ evs p,
      (putEcrImage env input manifest tr).2 = tr ++ evs ∧
      protocolRun (.idle []) evs = some p ∧
      (∀ img, (putEcrImage env input manifest tr).1 = .ret (img, none) →
        ∃ inp o, evs = [Event.PutImage inp (some o) none] ∧ img = o.Image ∧ p = .done) ∧
      (p = .failed → ∃ e, (putEcrImage env input manifest tr).1 = .ret (none, some e)) ∧
      (∀ img e, (putEcrImage env input manifest tr).1 = .ret (img, some e) → img = none) ∧
      (∀ ev ∈ evs, ev.fatal = false) := by
  unfold putEcrImage
  dsimp only
  cases env.fs.ReadFile (filepathJoin [input.ImageLayersPath, "manifest.json"]) with
  | error e =>
    exact ⟨[], _, by simp, rfl, fun img h => by simp at h, fun h => by simp at h,
      fun img e h => by simp at h; exact h.1.symm, by simp⟩
  | ok manBuffer =>
    dsimp only
    split_ifs with hsize
    · exact ⟨[], _, by simp, rfl, fun img h => by simp at h, fun h => by simp at h,
        fun img e h => by simp at h; exact h.1.symm, by simp⟩
    · cases input.Client with
      | none =>
        exact ⟨[], _, by simp, rfl, fun img h => by simp at h, fun h => by simp at h,
          fun img e h => by simp at h, by simp⟩
      | some client =>
        dsimp only
        rcases hr : client.PutImage tr (putImageInput input manBuffer) with ⟨o, e⟩
        cases e with
        | some err =>
          refine ⟨[_], .failed, rfl, ?_, fun img h => by simp at h, fun _ => ⟨_, rfl⟩,
            fun img e h => by simp at h; exact h.1.symm, by simp [Event.fatal]⟩
          simp [protocolRun, protocolStep]
        | none =>
          dsimp only
          cases o with
          | none =>
            refine ⟨[_], .done, rfl, ?_, fun img h => by simp at h, fun h => by simp at h,
              fun img e h => by simp at h, by simp [Event.fatal]⟩
            simp [protocolRun, protocolStep]
          | some output =>
            refine ⟨[_], .done, rfl, ?_, ?_, fun h => by simp at h,
              fun img e h => by simp at h, by simp [Event.fatal]⟩
            · simp [protocolRun, protocolStep]
            · intro img h
              simp only [Outcome.ret.injEq, Prod.mk.injEq, and_true] at h
              exact ⟨_, output, rfl, h.symm, rfl⟩

/-! ## `Upload` -/

theorem Upload_unfold (env : Env) (input : UploadInput) (tr : List Event)
    (manBuffer : List Byte) (manifest : Manifest)
    (hread : env.fs.ReadFile (filepathJoin [input.ImageLayersPath, "manifest.json"])
      = .ok manBuffer)
    (hparse : FromBlob env manBuffer input.Logger = .ret (some manifest, none)) :
    Upload env input tr =
      if manifest.LayerInfos.length + 1 > 100 then
        (.ret (none, some (tooManyLayers (manifest.LayerInfos.length + 1))), tr)
      else
        match checkRepo input tr with
        | (.panic msg, tr1) => (.panic msg, tr1)
        | (.ret (_, _, some err), tr1) =>
          (.ret (none, some (ErrorfW "error checking Repository: " err "")), tr1)
        | (.ret (descOut, createOut, none), tr1) =>
          match logRepository input.Logger descOut createOut with
          | .panic msg => (.panic msg, tr1)
          | .ret _ =>
            match uploadLayerParts env input manifest tr1 with
            | (.panic msg, tr2) => (.panic msg, tr2)
            | (.ret (some err), tr2) =>
              (.ret (none, some (ErrorfW "error uploading layer parts: " err "")), tr2)
            | (.ret none, tr2) =>
              match putEcrImage env input manifest tr2 with
              | (.panic msg, tr3) => (.panic msg, tr3)
              | (.ret (_, some err), tr3) =>
                (.ret (none, some (ErrorfW "error putting image: " err "")), tr3)
              | (.ret (image, none), tr3) => (.ret (image, none), tr3) := by
  unfold Upload
  rw [hread]
  dsimp only
  rw [hparse]

/-- Without a manifest that is read and parsed, `Upload` calls nothing and returns no image. -/
theorem Upload_no_manifest (env : Env) (input : UploadInput) (tr : List Event)
    (h : ∀ manBuffer manifest,
      env.fs.ReadFile (filepathJoin [input.ImageLayersPath, "manifest.json"]) = .ok manBuffer →
      FromBlob env manBuffer input.Logger ≠ .ret (some manifest, none)) :
    (Upload env input tr).2 = tr ∧
    ∀ img err, (Upload env input tr).1 = .ret (img, err) → img = none ∧ err ≠ none := by
  unfold Upload
  cases hread : env.fs.ReadFile (filepathJoin [input.ImageLayersPath, "manifest.json"]) with
  | error e =>
    refine ⟨rfl, fun img err hh => ?_⟩
    simp only [Outcome.ret.injEq, Prod.mk.injEq] at hh
    exact ⟨hh.1.symm, by rw [← hh.2]; simp⟩
  | ok manBuffer =>
    dsimp only
    have h2 := h manBuffer
    cases hparse : FromBlob env manBuffer input.Logger with
    | panic msg => exact ⟨rfl, fun img err hh => by simp at hh⟩
    | ret r =>
      obtain ⟨m, e⟩ := r
      cases e with
      | some err =>
        cases m <;>
        · refine ⟨rfl, fun img err hh => ?_⟩
          simp only [Outcome.ret.injEq, Prod.mk.injEq] at hh
          exact ⟨hh.1.symm, by rw [← hh.2]; simp⟩
      | none =>
        cases m with
        | none => exact ⟨rfl, fun img err hh => by simp at hh⟩
        | some manifest => exact absurd hparse (h2 manifest hread)

/-- The calls of a run of `Upload` follow the protocol; a run that ends in the phase `failed`
returns an error; a run that returns no error ends with the one successful `PutImage`, whose
image it returns. -/
theorem Upload_protocol (env : Env) (input : UploadInput) (tr : List Event)
    (manBuffer : List Byte) (manifest : Manifest)
    (hread : env.fs.ReadFile (filepathJoin [input.ImageLayersPath, "manifest.json"])
      = .ok manBuffer)
    (hparse : FromBlob env manBuffer input.Logger = .ret (some manifest, none)) :
    ∃ evs p,
      (Upload env input tr).2 = tr ++ evs ∧
      protocolRun (.start (allDigests manifest)) evs = some p ∧
      (p = .failed → ∃ e, (Upload env input tr).1 = .ret (none, some e)) ∧
      (∀ img, (Upload env input tr).1 = .ret (img, none) →
        ∃ pre inp o, evs = pre ++ [Event.PutImage inp (some o) none] ∧ img = o.Image ∧
          protocolRun (.start (allDigests manifest)) pre = some (.idle []) ∧ p = .done) ∧
      (∀ img e, (Upload env input tr).1 = .ret (img, some e) → img = none) := by
  rw [Upload_unfold env input tr manBuffer manifest hread hparse]
  split_ifs with hcount
  · exact ⟨[], _, by simp, rfl, fun h => by simp at h, fun img h => by simp at h,
      fun img e h => by simp at h; exact h.1.symm⟩
  · obtain ⟨evs0, p0, a1, a2, a3, a4, a5, _⟩ := checkRepo_protocol input (allDigests manifest) tr
    rcases hc : checkRepo input tr with ⟨out0, tr1⟩
    rw [hc] at a1 a3 a4
    dsimp only at a1 a3 a4
    subst a1
    cases out0 with
    | panic msg =>
      exact ⟨evs0, p0, rfl, a2, fun h => by obtain ⟨_, h2⟩ := a4 h; simp at h2,
        fun img h => by simp at h, fun img e h => by simp at h⟩
    | ret r =>
      obtain ⟨descOut, createOut, e0⟩ := r
      cases e0 with
      | some err =>
        exact ⟨evs0, p0, rfl, a2, fun _ => ⟨_, rfl⟩, fun img h => by simp at h,
          fun img e h => by simp at h; exact h.1.symm⟩
      | none =>
        have hp : p0 = .idle (allDigests manifest) := a3 _ _ rfl
        subst hp
        dsimp only
        cases logRepository input.Logger descOut createOut with
        | panic msg =>
          exact ⟨evs0, _, rfl, a2, fun h => by simp at h, fun img h => by simp at h,
            fun img e h => by simp at h⟩
        | ret u =>
          dsimp only
          obtain ⟨evs1, p1, b1, b2, b3, b4, b5⟩ := uploadLayerParts_protocol env input manifest
            (tr ++ evs0)
          rcases hu : uploadLayerParts env input manifest (tr ++ evs0) with ⟨out1, tr2⟩
          rw [hu] at b1 b3 b4
          dsimp only at b1 b3 b4
          subst b1
          have run1 := protocolRun_append_of _ _ _ _ _ a2 b2
          cases out1 with
          | panic msg =>
            exact ⟨evs0 ++ evs1, p1, by simp, run1,
              fun h => by obtain ⟨_, h2⟩ := b4 h; simp at h2,
              fun img h => by simp at h, fun img e h => by simp at h⟩
          | ret r1 =>
            cases r1 with
            | some err =>
              exact ⟨evs0 ++ evs1, p1, by simp, run1, fun _ => ⟨_, rfl⟩,
                fun img h => by simp at h, fun img e h => by simp at h; exact h.1.symm⟩
            | none =>
              have hp : p1 = .idle [] := b3 rfl
              subst hp
              dsimp only
              obtain ⟨evs2, p2, c1, c2, c3, c4, c5, _⟩ := putEcrImage_protocol env input manifest
                (tr ++ evs0 ++ evs1)
              rcases hput : putEcrImage env input manifest (tr ++ evs0 ++ evs1)
                with ⟨out2, tr3⟩
              rw [hput] at c1 c3 c4 c5
              dsimp only at c1 c3 c4 c5
              subst c1
              have run2 := protocolRun_append_of _ _ _ _ _ run1 c2
              cases out2 with
              | panic msg =>
                exact ⟨evs0 ++ evs1 ++ evs2, p2, by simp, run2,
                  fun h => by obtain ⟨_, h2⟩ := c4 h; simp at h2,
                  fun img h => by simp at h, fun img e h => by simp at h⟩
              | ret r2 =>
                obtain ⟨image, e2⟩ := r2
                cases e2 with
                | some err =>
                  exact ⟨evs0 ++ evs1 ++ evs2, p2, by simp, run2, fun _ => ⟨_, rfl⟩,
                    fun img h => by simp at h, fun img e h => by simp at h; exact h.1.symm⟩
                | none =>
                  obtain ⟨inp, o, d1, d2, d3⟩ := c3 image rfl
                  refine ⟨evs0 ++ evs1 ++ evs2, p2, by simp, run2,
                    fun h => by rw [d3] at h; simp at h, ?_, fun img e h => by simp at h⟩
                  intro img h
                  simp only [Outcome.ret.injEq, Prod.mk.injEq, and_true] at h
                  subst h
                  exact ⟨evs0 ++ evs1, inp, o, by rw [d1], d2, run1, d3⟩

/-! ## The layer-count check: claims C5 and C6 -/

theorem checkRepo_first (input : UploadInput) (tr : List Event) (c : IClient)
    (hc : input.Client = some c) :
    ∃ o e rest, (checkRepo input tr).2
      = tr ++ Event.DescribeRepositories (describeRepositoriesInput input) o e :: rest := by
  unfold checkRepo
  rw [hc]
  dsimp only
  rcases hr : c.DescribeRepositories tr (describeRepositoriesInput input) with ⟨o, e⟩
  cases e with
  | some err =>
    dsimp only
    cases err.As .RepositoryNotFoundException with
    | none => exact ⟨o, some err, [], rfl⟩
    | some x =>
      dsimp only
      rcases hcr : c.CreateRepository
        (tr ++ [Event.DescribeRepositories (describeRepositoriesInput input) o (some err)])
        (createRepositoryInput input) with ⟨co, ce⟩
      cases ce with
      | none =>
        exact ⟨o, some err, [Event.CreateRepository (createRepositoryInput input) co none],
          by simp⟩
      | some cerr =>
        exact ⟨o, some err, [Event.CreateRepository (createRepositoryInput input) co (some cerr)],
          by simp⟩
  | none =>
    dsimp only
    cases o with
    | none => exact ⟨none, none, [], rfl⟩
    | some d =>
      dsimp only
      split_ifs <;> exact ⟨some d, none, [], rfl⟩

/-- A manifest within the limit goes on to the repository check, and no error that
`Upload` then returns is the too-many-layers error. -/
theorem Upload_pass (env : Env) (input : UploadInput) (tr : List Event)
    (manBuffer : List Byte) (manifest : Manifest)
    (hread : env.fs.ReadFile (filepathJoin [input.ImageLayersPath, "manifest.json"])
      = .ok manBuffer)
    (hparse : FromBlob env manBuffer input.Logger = .ret (some manifest, none))
    (hcount : ¬ manifest.LayerInfos.length + 1 > 100) :
    (∃ more, (Upload env input tr).2 = (checkRepo input tr).2 ++ more) ∧
    (∀ e, (Upload env input tr).1 = .ret (none, some e) → ∃ msg inner, e = .wrap msg inner) := by
  rw [Upload_unfold env input tr manBuffer manifest hread hparse, if_neg hcount]
  rcases hc : checkRepo input tr with ⟨out0, tr1⟩
  have wrapped : ∀ (pre : String) (err e : GoError), (Outcome.ret
      ((none : Option Image), some (ErrorfW pre err "")) = .ret (none, some e)) →
      ∃ msg inner, e = .wrap msg inner := by
    intro pre err e h
    simp only [Outcome.ret.injEq, Prod.mk.injEq, Option.some.injEq, true_and] at h
    exact ⟨_, _, h.symm⟩
  cases out0 with
  | panic msg => exact ⟨⟨[], by simp⟩, fun e h => by simp at h⟩
  | ret r =>
    obtain ⟨descOut, createOut, e0⟩ := r
    cases e0 with
    | some err => exact ⟨⟨[], by simp⟩, fun e h => wrapped _ _ e h⟩
    | none =>
      dsimp only
      cases logRepository input.Logger descOut createOut with
      | panic msg => exact ⟨⟨[], by simp⟩, fun e h => by simp at h⟩
      | ret u =>
        dsimp only
        obtain ⟨evs1, p1, b1, _⟩ := uploadLayerParts_protocol env input manifest tr1
        rcases hu : uploadLayerParts env input manifest tr1 with ⟨out1, tr2⟩
        rw [hu] at b1
        dsimp only at b1
        subst b1
        cases out1 with
        | panic msg => exact ⟨⟨evs1, rfl⟩, fun e h => by simp at h⟩
        | ret r1 =>
          cases r1 with
          | some err => exact ⟨⟨evs1, rfl⟩, fun e h => wrapped _ _ e h⟩
          | none =>
            dsimp only
            obtain ⟨evs2, p2, c1, _⟩ := putEcrImage_protocol env input manifest (tr1 ++ evs1)
            rcases hput : putEcrImage env input manifest (tr1 ++ evs1) with ⟨out2, tr3⟩
            rw [hput] at c1
            dsimp only at c1
            subst c1
            cases out2 with
            | panic msg => exact ⟨⟨evs1 ++ evs2, by simp⟩, fun e h => by simp at h⟩
            | ret r2 =>
              obtain ⟨image, e2⟩ := r2
              cases e2 with
              | some err => exact ⟨⟨evs1 ++ evs2, by simp⟩, fun e h => wrapped _ _ e h⟩
              | none => exact ⟨⟨evs1 ++ evs2, by simp⟩, fun e h => by simp at h⟩

/-- What the layer-count check of `Upload` does. -/
theorem Upload_layer_check (env : Env) (input : UploadInput) (tr : List Event)
    (manBuffer : List Byte) (manifest : Manifest)
    (hread : env.fs.ReadFile (filepathJoin [input.ImageLayersPath, "manifest.json"])
      = .ok manBuffer)
    (hparse : FromBlob env manBuffer input.Logger = .ret (some manifest, none)) :
    ((Upload env input tr).1
        = .ret (none, some (tooManyLayers (manifest.LayerInfos.length + 1)))
      ↔ manifest.LayerInfos.length + 1 > 100) ∧
    (manifest.LayerInfos.length + 1 > 100 → (Upload env input tr).2 = tr) ∧
    (manifest.LayerInfos.length ≤ 99 → ∀ c, input.Client = some c → ∃ o e rest,
      (Upload env input tr).2
        = tr ++ Event.DescribeRepositories (describeRepositoriesInput input) o e :: rest) := by
  refine ⟨⟨?_, ?_⟩, ?_, ?_⟩
  · intro h
    by_contra hcount
    obtain ⟨msg, inner, hw⟩ := (Upload_pass env input tr manBuffer manifest hread hparse
      hcount).2 _ h
    simp [tooManyLayers, Errorf] at hw
  · intro hcount
    rw [Upload_unfold env input tr manBuffer manifest hread hparse, if_pos hcount]
  · intro hcount
    rw [Upload_unfold env input tr manBuffer manifest hread hparse, if_pos hcount]
  · intro hk c hc
    obtain ⟨more, hm⟩ := (Upload_pass env input tr manBuffer manifest hread hparse
      (by omega)).1
    obtain ⟨o, e, rest, hr⟩ := checkRepo_first input tr c hc
    exact ⟨o, e, rest ++ more, by rw [hm, hr]; simp⟩

/-- C5: for a manifest with `k` layers that is read and parsed, `Upload` returns the
too-many-layers error exactly when `k + 1 > 100`; when it does, no registry call has been
made; and a manifest with `k ≤ 99` layers passes the check: with a client, the run goes on to
call `DescribeRepositories`. -/
theorem Upload_layer_count (env : Env) (input : UploadInput) (tr : List Event)
    (manBuffer : List Byte) (manifest : Manifest)
    (hread : env.fs.ReadFile (filepathJoin [input.ImageLayersPath, "manifest.json"])
      = .ok manBuffer)
    (hparse : FromBlob env manBuffer input.Logger = .ret (some manifest, none)) :
    ((Upload env input tr).1
        = .ret (none, some (tooManyLayers (manifest.LayerInfos.length + 1)))
      ↔ manifest.LayerInfos.length + 1 > 100) ∧
    (manifest.LayerInfos.length + 1 > 100 → (Upload env input tr).2 = tr) ∧
    (manifest.LayerInfos.length ≤ 99 → ∀ c, input.Client = some c → ∃ o e rest,
      (Upload env input tr).2
        = tr ++ Event.DescribeRepositories (describeRepositoriesInput input) o e :: rest) :=
  Upload_layer_check env input tr manBuffer manifest hread hparse

theorem envOf_read (manifest : Manifest) (input : UploadInput) :
    (envOf manifest).fs.ReadFile (filepathJoin [input.ImageLayersPath, "manifest.json"])
      = .ok [123, 125] := rfl

theorem envOf_parse (manifest : Manifest) :
    FromBlob (envOf manifest) [123, 125] (some ILogger.mk) = .ret (some manifest, none) := by
  unfold FromBlob
  simp [envOf, Printfln]

theorem manifestOf_length (k : Nat) : (manifestOf k).LayerInfos.length = k :=
  List.length_replicate _ _

/-- C5, a concrete instance: a manifest with 100 layers is refused before any call. -/
theorem Upload_layer_count_witness :
    (envOf (manifestOf 100)).fs.ReadFile
      (filepathJoin [(inputOf okClient).ImageLayersPath, "manifest.json"]) = .ok [123, 125] ∧
    FromBlob (envOf (manifestOf 100)) [123, 125] (inputOf okClient).Logger
      = .ret (some (manifestOf 100), none) ∧
    (manifestOf 100).LayerInfos.length + 1 > 100 ∧
    (Upload (envOf (manifestOf 100)) (inputOf okClient) []).2 = [] :=
  ⟨envOf_read _ _, envOf_parse _, by rw [manifestOf_length]; decide,
    (Upload_layer_count (envOf (manifestOf 100)) (inputOf okClient) [] [123, 125]
      (manifestOf 100) (envOf_read _ _) (envOf_parse _)).2.1
      (by rw [manifestOf_length]; decide)⟩

/-- C6 as stated fails: a manifest with 99 layers (100 with the config) is not refused;
`Upload` goes on to call `DescribeRepositories`. -/
theorem Upload_99_layers_counterexample :
    (manifestOf 99).LayerInfos.length = 99 ∧
    (Upload (envOf (manifestOf 99)) (inputOf okClient) []).1
      ≠ .ret (none, some (tooManyLayers 100)) ∧
    ∃ o e rest, (Upload (envOf (manifestOf 99)) (inputOf okClient) []).2
      = Event.DescribeRepositories (describeRepositoriesInput (inputOf okClient)) o e :: rest := by
  have h := Upload_layer_check (envOf (manifestOf 99)) (inputOf okClient) [] [123, 125]
    (manifestOf 99) (envOf_read _ _) (envOf_parse _)
  rw [manifestOf_length] at h
  refine ⟨manifestOf_length 99, ?_, ?_⟩
  · intro hh
    have := h.1.1 hh
    omega
  · simpa using h.2.2 (by omega) okClient rfl

/-- C6 (amended): for every manifest with `k ≥ 100` layers (101 or more with the config),
`Upload` refuses the manifest with the too-many-layers error. -/
theorem Upload_too_many_layers (env : Env) (input : UploadInput) (tr : List Event)
    (manBuffer : List Byte) (manifest : Manifest)
    (hread : env.fs.ReadFile (filepathJoin [input.ImageLayersPath, "manifest.json"])
      = .ok manBuffer)
    (hparse : FromBlob env manBuffer input.Logger = .ret (some manifest, none))
    (hk : 100 ≤ manifest.LayerInfos.length) :
    Upload env input tr
      = (.ret (none, some (tooManyLayers (manifest.LayerInfos.length + 1))), tr) := by
  rw [Upload_unfold env input tr manBuffer manifest hread hparse, if_pos (by omega)]

/-- C6 (amended), a concrete instance: a manifest with 100 layers is refused. -/
theorem Upload_too_many_layers_witness :
    (envOf (manifestOf 100)).fs.ReadFile
      (filepathJoin [(inputOf okClient).ImageLayersPath, "manifest.json"]) = .ok [123, 125] ∧
    FromBlob (envOf (manifestOf 100)) [123, 125] (inputOf okClient).Logger
      = .ret (some (manifestOf 100), none) ∧
    100 ≤ (manifestOf 100).LayerInfos.length ∧
    Upload (envOf (manifestOf 100)) (inputOf okClient) []
      = (.ret (none, some (tooManyLayers ((manifestOf 100).LayerInfos.length + 1))), []) :=
  ⟨envOf_read _ _, envOf_parse _, by rw [manifestOf_length],
    Upload_too_many_layers (envOf (manifestOf 100)) (inputOf okClient) [] [123, 125]
      (manifestOf 100) (envOf_read _ _) (envOf_parse _) (by rw [manifestOf_length])⟩

/-! ## Order of the calls, fatal failures and the result: claims C7, C9 and C10 -/

theorem completions_cons (e : Event) (es : List Event) :
    completions (e :: es) = completions [e] ++ completions es := by
  cases e <;> simp [completions]

theorem completions_append (a b : List Event) :
    completions (a ++ b) = completions a ++ completions b := by
  induction a with
  | nil => simp [completions]
  | cons e es ih =>
    rw [List.cons_append, completions_cons, ih, completions_cons e es, List.append_assoc]

theorem protocolStep_remaining (p q : Phase) (e : Event) (h : protocolStep p e = some q)
    (hq : q ≠ .failed) : completions [e] ++ q.remaining = p.remaining := by
  cases e <;> cases p <;> simp only [protocolStep] at h <;>
    (try (split at h)) <;> (try (split at h)) <;> (try (split at h)) <;>
    (try (simp only [Option.some.injEq, reduceCtorEq] at h)) <;>
    (try subst h) <;>
    simp_all [completions, Phase.remaining]

/-- An admitted sequence of calls that ends with nothing in transfer and nothing left holds
the completions of all the blobs that were left, in order. -/
theorem completions_run (evs : List Event) : ∀ p, protocolRun p evs = some (.idle []) →
    completions evs = p.remaining := by
  induction evs with
  | nil =>
    intro p h
    simp only [protocolRun, Option.some.injEq] at h
    subst h
    rfl
  | cons e es ih =>
    intro p h
    simp only [protocolRun] at h
    cases h2 : protocolStep p e with
    | none => rw [h2] at h; simp at h
    | some p1 =>
      rw [h2] at h
      dsimp only at h
      have hne : p1 ≠ .failed := by
        intro hf
        subst hf
        have := (protocolRun_failed es _ h).2
        simp at this
      rw [completions_cons, ih p1 h]
      exact protocolStep_remaining p p1 e h2 hne

theorem protocolStep_put_from (p q : Phase) (e : Event) (h : protocolStep p e = some q)
    (hf : e.isPutImage = true) : p = .idle [] := by
  cases e <;> cases p <;> simp only [Event.isPutImage] at hf <;>
    simp only [protocolStep] at h <;> (try (split at h)) <;> simp_all

/-- In an admitted sequence of calls, a call of `PutImage` is the last call and comes after
the completions of all the blobs, in order. -/
theorem protocolRun_put (evs : List Event) (p q : Phase) (ev : Event)
    (h : protocolRun p evs = some q) (hev : ev ∈ evs) (hput : ev.isPutImage = true) :
    evs.getLast? = some ev ∧ completions evs = p.remaining := by
  obtain ⟨pre, post, hsplit⟩ := List.append_of_mem hev
  subst hsplit
  rw [protocolRun_append] at h
  cases h1 : protocolRun p pre with
  | none => rw [h1] at h; simp at h
  | some p1 =>
    rw [h1] at h
    simp only [Option.some_bind, protocolRun] at h
    cases h2 : protocolStep p1 ev with
    | none => rw [h2] at h; simp at h
    | some p2 =>
      rw [h2] at h
      dsimp only at h
      have hp1 := protocolStep_put_from p1 p2 ev h2 hput
      subst hp1
      have hpost : post = [] := by
        rcases protocolStep_putImage _ p2 ev h2 hput with hp | hp
        · subst hp; exact (protocolRun_done post q h).1
        · subst hp; exact (protocolRun_failed post q h).1
      subst hpost
      refine ⟨by simp, ?_⟩
      rw [completions_append, completions_run pre p h1]
      cases ev <;> simp_all [completions, Event.isPutImage]

/-- C7: the registry calls of `Upload` for a manifest that is read and parsed follow the
protocol `protocolRun` from its start: the repository check, then for the config blob and for
each layer of the manifest in order one initiate, the parts and the completion of that blob
before the next blob is initiated, then `PutImage`. A `PutImage` call is the last call of the
run and comes after the completions of the config and of every layer, in manifest order; with
two layers the completions are config, layer 0, layer 1. -/
theorem Upload_order (env : Env) (input : UploadInput) (tr : List Event)
    (manBuffer : List Byte) (manifest : Manifest)
    (hread : env.fs.ReadFile (filepathJoin [input.ImageLayersPath, "manifest.json"])
      = .ok manBuffer)
    (hparse : FromBlob env manBuffer input.Logger = .ret (some manifest, none)) :
    ∃ evs p,
      (Upload env input tr).2 = tr ++ evs ∧
      protocolRun (.start (allDigests manifest)) evs = some p ∧
      (∀ ev ∈ evs, ev.isPutImage = true →
        evs.getLast? = some ev ∧
        completions evs = (allDigests manifest).map (fun d => [d]) ∧
        ∀ l0 l1, manifest.LayerInfos = [l0, l1] →
          completions evs = [[manifest.ConfigInfo.Digest], [l0.Digest], [l1.Digest]]) := by
  obtain ⟨evs, p, h1, h2, _⟩ := Upload_protocol env input tr manBuffer manifest hread hparse
  refine ⟨evs, p, h1, h2, fun ev hev hput => ?_⟩
  obtain ⟨g1, g2⟩ := protocolRun_put evs _ p ev h2 hev hput
  refine ⟨g1, g2, fun l0 l1 hl => ?_⟩
  rw [g2]
  simp [Phase.remaining, allDigests, hl]

/-- C7, a concrete instance: the run for the manifest with two layers and a client whose
calls succeed. -/
theorem Upload_order_witness :
    (envOf manifest2).fs.ReadFile
      (filepathJoin [(inputOf okClient).ImageLayersPath, "manifest.json"]) = .ok [123, 125] ∧
    FromBlob (envOf manifest2) [123, 125] (inputOf okClient).Logger
      = .ret (some manifest2, none) ∧
    completions (Upload (envOf manifest2) (inputOf okClient) []).2
      = [["sha256:cfg"], ["sha256:aaaa"], ["sha256:bbbb"]] ∧
    ∃ evs p,
      (Upload (envOf manifest2) (inputOf okClient) []).2 = [] ++ evs ∧
      protocolRun (.start (allDigests manifest2)) evs = some p ∧
      (∀ ev ∈ evs, ev.isPutImage = true →
        evs.getLast? = some ev ∧
        completions evs = (allDigests manifest2).map (fun d => [d]) ∧
        ∀ l0 l1, manifest2.LayerInfos = [l0, l1] →
          completions evs = [[manifest2.ConfigInfo.Digest], [l0.Digest], [l1.Digest]]) :=
  ⟨envOf_read _ _, envOf_parse _, by decide,
    Upload_order (envOf manifest2) (inputOf okClient) [] [123, 125] manifest2
      (envOf_read _ _) (envOf_parse _)⟩

/-- C9: in every run of `Upload`, a registry call that fails fatally (`InitiateLayerUpload`
or `UploadLayerPart` with an error, `CompleteLayerUpload` with an error other than
`LayerAlreadyExistsException`) is the last registry call of the run, and `Upload` returns a
nil image and a non-nil error. -/
theorem Upload_fatal_stops (env : Env) (input : UploadInput) (tr pre post : List Event)
    (ev : Event) (htr : (Upload env input tr).2 = tr ++ pre ++ ev :: post)
    (hf : ev.fatal = true) :
    post = [] ∧ ∃ e, (Upload env input tr).1 = .ret (none, some e) := by
  by_cases hm : ∀ manBuffer manifest,
      env.fs.ReadFile (filepathJoin [input.ImageLayersPath, "manifest.json"]) = .ok manBuffer →
      FromBlob env manBuffer input.Logger ≠ .ret (some manifest, none)
  · have := (Upload_no_manifest env input tr hm).1
    rw [this] at htr
    have := congrArg List.length htr
    simp only [List.length_append, List.length_cons] at this
    omega
  · push_neg at hm
    obtain ⟨manBuffer, manifest, hread, hparse⟩ := hm
    obtain ⟨evs, p, h1, h2, h3, _⟩ := Upload_protocol env input tr manBuffer manifest hread hparse
    rw [h1, List.append_assoc] at htr
    have hevs := List.append_cancel_left htr
    obtain ⟨g1, g2⟩ := protocolRun_fatal evs _ p pre post ev h2 hevs hf
    exact ⟨g1, h3 g2⟩

/-- C9, a concrete instance: with a client whose `InitiateLayerUpload` fails, the run stops
at that call. -/
theorem Upload_fatal_stops_witness :
    (Upload (envOf manifest2) (inputOf initFailClient) []).2
      = [] ++ [Event.DescribeRepositories ⟨"123456789012", ["repo"]⟩
          (some ⟨[⟨some "repo", some "arn", some "uri"⟩]⟩) none]
        ++ Event.InitiateLayerUpload ⟨"repo", "123456789012"⟩ none
            (some (.leaf (.other "ServerException") "server")) :: [] ∧
    (Event.InitiateLayerUpload ⟨"repo", "123456789012"⟩ none
      (some (.leaf (.other "ServerException") "server"))).fatal = true ∧
    (([] : List Event) = [] ∧
      ∃ e, (Upload (envOf manifest2) (inputOf initFailClient) []).1 = .ret (none, some e)) :=
  ⟨by decide, rfl,
    Upload_fatal_stops (envOf manifest2) (inputOf initFailClient) []
      [Event.DescribeRepositories ⟨"123456789012", ["repo"]⟩
        (some ⟨[⟨some "repo", some "arn", some "uri"⟩]⟩) none] []
      (Event.InitiateLayerUpload ⟨"repo", "123456789012"⟩ none
        (some (.leaf (.other "ServerException") "server"))) (by decide) rfl⟩

/-- C10: when `Upload` returns a nil error, the registry calls of the run end with the only
call of `PutImage`, that call returned no error, and the image returned is the field `Image`
of its output; when `Upload` returns a non-nil error, the image returned is nil. -/
theorem Upload_result (env : Env) (input : UploadInput) (tr : List Event)
    (img : Option Image) (err : Option GoError)
    (h : (Upload env input tr).1 = .ret (img, err)) :
    (err = none → ∃ pre inp o,
      (Upload env input tr).2 = tr ++ pre ++ [Event.PutImage inp (some o) none] ∧
      (∀ ev ∈ pre, ev.isPutImage = false) ∧ img = o.Image) ∧
    (err ≠ none → img = none) := by
  by_cases hm : ∀ manBuffer manifest,
      env.fs.ReadFile (filepathJoin [input.ImageLayersPath, "manifest.json"]) = .ok manBuffer →
      FromBlob env manBuffer input.Logger ≠ .ret (some manifest, none)
  · obtain ⟨g1, g2⟩ := (Upload_no_manifest env input tr hm).2 img err h
    exact ⟨fun he => absurd he g2, fun _ => g1⟩
  · push_neg at hm
    obtain ⟨manBuffer, manifest, hread, hparse⟩ := hm
    obtain ⟨evs, p, h1, h2, h3, h4, h5⟩ :=
      Upload_protocol env input tr manBuffer manifest hread hparse
    constructor
    · intro he
      subst he
      obtain ⟨pre, inp, o, k1, k2, k3, k4⟩ := h4 img h
      refine ⟨pre, inp, o, by rw [h1, k1, List.append_assoc], ?_, k2⟩
      exact protocolRun_no_put pre _ _ k3 (by simp) (by simp)
    · intro he
      obtain ⟨e, hee⟩ := Option.ne_none_iff_exists'.1 he
      subst hee
      exact h5 img e h

/-- C10, a concrete instance: with a client whose calls succeed, `Upload` returns the image of
the output of `PutImage` and a nil error. -/
theorem Upload_result_witness :
    (Upload (envOf manifest2) (inputOf okClient) []).1
      = .ret (some ⟨none, some "v1", some [123, 125], some "123456789012", some "repo"⟩, none) ∧
    ((none : Option GoError) = none → ∃ pre inp o,
      (Upload (envOf manifest2) (inputOf okClient) []).2
        = [] ++ pre ++ [Event.PutImage inp (some o) none] ∧
      (∀ ev ∈ pre, ev.isPutImage = false) ∧
      some (Image.mk none (some "v1") (some [123, 125]) (some "123456789012") (some "repo"))
        = o.Image) :=
  ⟨by decide,
    (Upload_result (envOf manifest2) (inputOf okClient) [] _ none (by decide)).1⟩

/-! ## The part uploads of one blob -/

theorem partInputs_append (a b : List Event) :
    partInputs (a ++ b) = partInputs a ++ partInputs b := by
  induction a with
  | nil => simp [partInputs]
  | cons e es ih => cases e <;> simp [partInputs, ih]

theorem partCalls_contiguous (input : UploadInput) (initOut : InitiateLayerUploadOutput) :
    ∀ (vs : List (List Byte)) (first : Int), Contiguous first (partCalls input initOut vs first) := by
  intro vs
  induction vs with
  | nil => intro first; trivial
  | cons v vs ih =>
    intro first
    refine ⟨rfl, ?_, ?_⟩
    · simp only [uploadLayerPartInput]; omega
    · have : (uploadLayerPartInput input initOut v first).PartLastByte + 1
          = first + (v.length : Int) := by
        simp only [uploadLayerPartInput]; omega
      rw [this]
      exact ih _

/-- The events of the part loop are part uploads with contiguous ranges from `firstPart`
on; when the loop runs to its end they are the uploads of all the buffers, in key order. -/
theorem uploadPartsLoop_shape (env : Env) (client : Option IClient) (input : UploadInput)
    (initOut : InitiateLayerUploadOutput) (blobs : OrderedMap) :
    ∀ (keys : List String) (firstPart : Int) (tr : List Event),
    ∃ evs,
      (uploadPartsLoop env client input initOut blobs keys firstPart tr).2 = tr ++ evs ∧
      (∀ ev ∈ evs, ev.isPart = true) ∧
      Contiguous firstPart (partInputs evs) ∧
      ((uploadPartsLoop env client input initOut blobs keys firstPart tr).1 = .ret none →
        partInputs evs
          = partCalls input initOut (keys.map (fun k => (blobs.Get k).getD [])) firstPart) := by
  intro keys
  induction keys with
  | nil =>
    intro firstPart tr
    exact ⟨[], by simp [uploadPartsLoop], by simp, trivial, fun _ => rfl⟩
  | cons key keys ih =>
    intro firstPart tr
    rw [uploadPartsLoop_cons]
    cases hg : blobs.Get key with
    | none => exact ⟨[], by simp, by simp, trivial, fun h => by simp at h⟩
    | some v =>
      dsimp only
      cases hs : env.SpinnerStart key v.length with
      | some err => exact ⟨[], by simp, by simp, trivial, fun h => by simp at h⟩
      | none =>
        dsimp only
        cases hl : logDeref input.Logger [initOut.UploadId] with
        | panic msg => exact ⟨[], by simp, by simp, trivial, fun h => by simp at h⟩
        | ret u =>
          dsimp only
          cases client with
          | none => exact ⟨[], by simp, by simp, trivial, fun h => by simp at h⟩
          | some c =>
            dsimp only
            rcases hr : c.UploadLayerPart tr (uploadLayerPartInput input initOut v firstPart)
              with ⟨o, e⟩
            have hc1 : Contiguous firstPart [uploadLayerPartInput input initOut v firstPart] :=
              ⟨rfl, by simp only [uploadLayerPartInput]; omega, trivial⟩
            cases e with
            | some err =>
              exact ⟨[Event.UploadLayerPart (uploadLayerPartInput input initOut v firstPart) o
                (some err)], rfl, by simp [Event.isPart], hc1, fun h => by simp at h⟩
            | none =>
              cases o with
              | none =>
                exact ⟨[Event.UploadLayerPart (uploadLayerPartInput input initOut v firstPart)
                  none none], rfl, by simp [Event.isPart], hc1, fun h => by simp at h⟩
              | some out =>
                dsimp only
                obtain ⟨evs, h1, h2, h3, h4⟩ := ih (firstPart + (v.length : Int))
                  (tr ++ [Event.UploadLayerPart (uploadLayerPartInput input initOut v firstPart)
                    (some out) none])
                refine ⟨Event.UploadLayerPart (uploadLayerPartInput input initOut v firstPart)
                  (some out) none :: evs, by rw [h1]; simp, ?_, ?_, ?_⟩
                · intro ev hev
                  rcases List.mem_cons.1 hev with rfl | hm
                  · rfl
                  · exact h2 ev hm
                · refine ⟨rfl, by simp only [uploadLayerPartInput]; omega, ?_⟩
                  have : (uploadLayerPartInput input initOut v firstPart).PartLastByte + 1
                      = firstPart + (v.length : Int) := by
                    simp only [uploadLayerPartInput]; omega
                  rw [this]
                  exact h3
                · intro hret
                  simp only [partInputs, List.map_cons, hg, Option.getD_some, partCalls]
                  rw [h4 hret]

theorem partInputs_of_parts_nil (evs : List Event) (h : ∀ ev ∈ evs, ev.isPart = false) :
    partInputs evs = [] := by
  induction evs with
  | nil => rfl
  | cons e es ih =>
    have he := h e (List.mem_cons_self _ _)
    have := ih (fun ev hev => h ev (List.mem_cons_of_mem _ hev))
    cases e <;> simp_all [partInputs, Event.isPart]

theorem initLayerUpload_events (input : UploadInput) (tr : List Event) :
    ∃ evs, (initLayerUpload input tr).2 = tr ++ evs ∧ (∀ ev ∈ evs, ev.isPart = false) ∧
      (∀ ev ∈ evs, completions [ev] = []) := by
  unfold initLayerUpload
  cases input.Client with
  | none => exact ⟨[], by simp, by simp, by simp⟩
  | some c => exact ⟨[_], rfl, by simp [Event.isPart], by simp [completions]⟩

theorem completeLayerUpload_events (input : UploadInput) (uploadId : Option String)
    (digests : List String) (tr : List Event) :
    ∃ evs, (completeLayerUpload input uploadId digests tr).2 = tr ++ evs ∧
      (∀ ev ∈ evs, ev.isPart = false) ∧
      (evs = [] ∨ ∃ o e, evs = [Event.CompleteLayerUpload
        (completeLayerUploadInput input uploadId digests) o e] ∧
        ∀ err, e = some err → (err.As .LayerAlreadyExistsException).isSome = true →
          ∃ s e2, (completeLayerUpload input uploadId digests tr).1 = .ret (s, some e2) ∧
            (e2.As .LayerAlreadyExistsException).isSome = true) := by
  unfold completeLayerUpload
  cases input.Client with
  | none => exact ⟨[], by simp, by simp, Or.inl rfl⟩
  | some c =>
    dsimp only
    rcases hr : c.CompleteLayerUpload tr (completeLayerUploadInput input uploadId digests)
      with ⟨o, e⟩
    refine ⟨[Event.CompleteLayerUpload (completeLayerUploadInput input uploadId digests) o e],
      ?_, by simp [Event.isPart], Or.inr ⟨o, e, rfl, ?_⟩⟩
    · cases e with
      | none =>
        dsimp only
        cases o with
        | none => rfl
        | some out => dsimp only; cases out.LayerDigest <;> rfl
      | some err => dsimp only; cases err.As .InvalidLayerException <;> rfl
    · intro err he hlae
      subst he
      dsimp only
      cases hinv : err.As .InvalidLayerException with
      | none => exact ⟨_, _, rfl, by rw [As_wrap]; exact hlae⟩
      | some x =>
        have := As_other_of_As err x _ .LayerAlreadyExistsException hinv (by decide)
        rw [this] at hlae
        simp at hlae

theorem completions_of_parts (evs : List Event) (h : ∀ ev ∈ evs, ev.isPart = true) :
    completions evs = [] := by
  induction evs with
  | nil => rfl
  | cons e es ih =>
    have he := h e (List.mem_cons_self _ _)
    have := ih (fun ev hev => h ev (List.mem_cons_of_mem _ hev))
    cases e <;> simp_all [completions, Event.isPart]

theorem completions_nil_of (evs : List Event) (h : ∀ ev ∈ evs, completions [ev] = []) :
    completions evs = [] := by
  induction evs with
  | nil => rfl
  | cons e es ih =>
    rw [completions_cons, h e (List.mem_cons_self _ _),
      ih (fun ev hev => h ev (List.mem_cons_of_mem _ hev))]
    rfl

theorem not_complete_of_part (ev : Event) (h : ev.isPart = true) : completions [ev] = [] := by
  cases ev <;> simp_all [completions, Event.isPart]

/-- The events of one blob: contiguous part uploads; a completion that reports that the
layer exists makes the upload of the blob a success; and a successful upload consists of the
uploads of all the buffers of the chunk splitter and one completion for the digest. -/
theorem doUploadLayerParts_shape (env : Env) (client : Option IClient) (input : UploadInput)
    (d : String) (tr : List Event) :
    ∃ evs,
      (doUploadLayerParts env client input d tr).2 = tr ++ evs ∧
      Contiguous 0 (partInputs evs) ∧
      (∀ inp o err, Event.CompleteLayerUpload inp o (some err) ∈ evs →
        (err.As .LayerAlreadyExistsException).isSome = true →
        (doUploadLayerParts env client input d tr).1 = .ret none) ∧
      ((doUploadLayerParts env client input d tr).1 = .ret none →
        ∃ initOut blobs,
          layerBlobParts env.fs d
            (filepathJoin [input.ImageLayersPath, stringsReplaceColon d]) input.Logger
            = .ret (some blobs, none) ∧
          partInputs evs
            = partCalls input initOut (blobs.Keys.map (fun k => (blobs.Get k).getD [])) 0 ∧
          completions evs = [[d]]) := by
  rw [doUploadLayerParts_unfold]
  obtain ⟨evs0, a1, a2, a3⟩ := initLayerUpload_events input tr
  rcases hi : initLayerUpload input tr with ⟨out0, tr1⟩
  rw [hi] at a1
  dsimp only at a1
  subst a1
  have hpi0 : partInputs evs0 = [] := partInputs_of_parts_nil evs0 a2
  have early : ∀ (out : Outcome (Option GoError)) (Q : List Event → Prop), out ≠ .ret none →
      ∃ evs, (out, tr ++ evs0).2 = tr ++ evs ∧ Contiguous 0 (partInputs evs) ∧
        (∀ inp o err, Event.CompleteLayerUpload inp o (some err) ∈ evs →
          (err.As .LayerAlreadyExistsException).isSome = true → (out, tr ++ evs0).1 = .ret none) ∧
        ((out, tr ++ evs0).1 = .ret none → Q evs) := by
    intro out Q hne
    refine ⟨evs0, rfl, by rw [hpi0]; trivial, ?_, fun h => absurd h hne⟩
    intro inp o err hmem _
    have := a3 _ hmem
    simp [completions] at this
  cases out0 with
  | panic msg => exact early _ _ (by simp)
  | ret r =>
    obtain ⟨initOutPtr, e0⟩ := r
    cases e0 with
    | some err => exact early _ _ (by simp)
    | none =>
      dsimp only
      cases env.fs.Stat (filepathJoin [input.ImageLayersPath, stringsReplaceColon d]) with
      | error e => exact early _ _ (by simp)
      | ok fi =>
        dsimp only
        cases hlog : Printfln input.Logger with
        | panic msg => exact early _ _ (by simp)
        | ret u =>
          dsimp only
          cases initOutPtr with
          | none => exact early _ _ (by simp)
          | some initOut =>
            dsimp only
            cases logDeref input.Logger [initOut.UploadId] with
            | panic msg => exact early _ _ (by simp)
            | ret u2 =>
              dsimp only
              cases hb : layerBlobParts env.fs d
                (filepathJoin [input.ImageLayersPath, stringsReplaceColon d]) input.Logger with
              | panic msg => exact early _ _ (by simp)
              | ret r2 =>
                obtain ⟨bl, e2⟩ := r2
                cases e2 with
                | some err => cases bl <;> exact early _ _ (by simp)
                | none =>
                  cases bl with
                  | none => exact early _ _ (by simp)
                  | some blobs =>
                    dsimp only
                    obtain ⟨evs1, b1, b2, b3, b4⟩ := uploadPartsLoop_shape env client input
                      initOut blobs blobs.Keys 0 (tr ++ evs0)
                    rcases hl : uploadPartsLoop env client input initOut blobs blobs.Keys 0
                      (tr ++ evs0) with ⟨out1, tr2⟩
                    rw [hl] at b1 b4
                    dsimp only at b1 b4
                    subst b1
                    have hpi1 : partInputs (evs0 ++ evs1) = partInputs evs1 := by
                      rw [partInputs_append, hpi0, List.nil_append]
                    have nocomp : ∀ inp o err,
                        Event.CompleteLayerUpload inp o (some err) ∈ evs0 ++ evs1 → False := by
                      intro inp o err hmem
                      rcases List.mem_append.1 hmem with hm | hm
                      · have := a3 _ hm
                        simp [completions] at this
                      · have := b2 _ hm
                        simp [Event.isPart] at this
                    have stop : ∀ (out : Outcome (Option GoError)) (Q : List Event → Prop),
                        out ≠ .ret none →
                        ∃ evs, (out, tr ++ evs0 ++ evs1).2 = tr ++ evs ∧
                          Contiguous 0 (partInputs evs) ∧
                          (∀ inp o err, Event.CompleteLayerUpload inp o (some err) ∈ evs →
                            (err.As .LayerAlreadyExistsException).isSome = true →
                            (out, tr ++ evs0 ++ evs1).1 = .ret none) ∧
                          ((out, tr ++ evs0 ++ evs1).1 = .ret none → Q evs) :=
                      fun out Q hne => ⟨evs0 ++ evs1, by simp, by rw [hpi1]; exact b3,
                        fun inp o err hmem _ => (nocomp inp o err hmem).elim,
                        fun h => absurd h hne⟩
                    cases out1 with
                    | panic msg => exact stop _ _ (by simp)
                    | ret r3 =>
                      cases r3 with
                      | some err => exact stop _ _ (by simp)
                      | none =>
                        dsimp only
                        obtain ⟨evs2, c1, c2, c3⟩ := completeLayerUpload_events input
                          initOut.UploadId [d] (tr ++ evs0 ++ evs1)
                        rcases hc : completeLayerUpload input initOut.UploadId [d]
                          (tr ++ evs0 ++ evs1) with ⟨out2, tr3⟩
                        rw [hc] at c1 c3
                        dsimp only at c1 c3
                        subst c1
                        have hpi2 : partInputs (evs0 ++ evs1 ++ evs2) = partInputs evs1 := by
                          rw [partInputs_append, hpi1, partInputs_of_parts_nil evs2 c2,
                            List.append_nil]
                        have hcont : Contiguous 0 (partInputs (evs0 ++ evs1 ++ evs2)) := by
                          rw [hpi2]; exact b3
                        have hfull : partInputs (evs0 ++ evs1 ++ evs2) = partCalls input initOut
                            (blobs.Keys.map (fun k => (blobs.Get k).getD [])) 0 := by
                          rw [hpi2]; exact b4 rfl
                        have hcomp0 : completions (evs0 ++ evs1) = [] := by
                          rw [completions_append, completions_nil_of evs0 a3,
                            completions_of_parts evs1 b2]
                          rfl
                        -- the completion event, when there is one
                        have hmem : ∀ inp o err,
                            Event.CompleteLayerUpload inp o (some err) ∈ evs0 ++ evs1 ++ evs2 →
                            (err.As .LayerAlreadyExistsException).isSome = true →
                            ∃ s e2, out2 = .ret (s, some e2) ∧
                              (e2.As .LayerAlreadyExistsException).isSome = true := by
                          intro inp o err hm hlae
                          rcases List.mem_append.1 hm with hm1 | hm2
                          · exact (nocomp inp o err hm1).elim
                          · rcases c3 with hnil | ⟨o2, e2, hev, hret⟩
                            · rw [hnil] at hm2; simp at hm2
                            · rw [hev] at hm2
                              simp only [List.mem_singleton, Event.CompleteLayerUpload.injEq]
                                at hm2
                              exact hret err hm2.2.2.symm hlae
                        cases out2 with
                        | panic msg =>
                          refine ⟨evs0 ++ evs1 ++ evs2, by simp, hcont, ?_, fun h => by simp at h⟩
                          intro inp o err hm hlae
                          obtain ⟨s, e2, h1, _⟩ := hmem inp o err hm hlae
                          simp at h1
                        | ret r4 =>
                          obtain ⟨s, e4⟩ := r4
                          have hev2 : completions (evs0 ++ evs1 ++ evs2) = [[d]] ∨ evs2 = [] := by
                            rcases c3 with hnil | ⟨o2, e2, hev, _⟩
                            · right; exact hnil
                            · left
                              rw [completions_append, hcomp0, hev]
                              simp [completions, completeLayerUploadInput]
                          have hne2 : evs2 ≠ [] := by
                            intro hnil
                            subst hnil
                            have := congrArg Prod.snd hc
                            unfold completeLayerUpload at hc
                            cases hcl : input.Client with
                            | none => rw [hcl] at hc; simp at hc
                            | some c =>
                              rw [hcl] at hc
                              dsimp only at hc
                              have := congrArg Prod.snd hc
                              revert this
                              split <;> (try split) <;> (try split) <;> simp
                          have hdone : completions (evs0 ++ evs1 ++ evs2) = [[d]] := by
                            rcases hev2 with h | h
                            · exact h
                            · exact absurd h hne2
                          cases e4 with
                          | none =>
                            exact ⟨evs0 ++ evs1 ++ evs2, by simp, hcont, fun _ _ _ _ _ => rfl,
                              fun _ => ⟨initOut, blobs, rfl, hfull, hdone⟩⟩
                          | some err =>
                            dsimp only
                            cases hlae : err.As .LayerAlreadyExistsException with
                            | none =>
                              refine ⟨evs0 ++ evs1 ++ evs2, by simp, hcont, ?_,
                                fun h => by simp at h⟩
                              intro inp o err2 hm hl2
                              obtain ⟨s2, e2, h1, h2⟩ := hmem inp o err2 hm hl2
                              simp only [Outcome.ret.injEq, Prod.mk.injEq,
                                Option.some.injEq] at h1
                              rw [← h1.2, hlae] at h2
                              simp at h2
                            | some x =>
                              dsimp only
                              exact ⟨evs0 ++ evs1 ++ evs2, by simp, hcont,
                                fun _ _ _ _ _ => rfl,
                                fun _ => ⟨initOut, blobs, rfl, hfull, hdone⟩⟩

/-! ## Runs in which every call succeeds -/

theorem Get_of_mem_Keys (m : OrderedMap) (k : String) (h : k ∈ m.Keys) :
    ∃ v, m.Get k = some v := by
  unfold OrderedMap.Keys at h
  unfold OrderedMap.Get
  obtain ⟨kv, hkv, hk⟩ := List.mem_map.1 h
  cases hf : m.entries.find? (fun kv => kv.1 == k) with
  | some x => exact ⟨x.2, rfl⟩
  | none =>
    have := List.find?_eq_none.1 hf kv hkv
    simp [hk] at this

theorem uploadPartsLoop_ok (env : Env) (c : IClient) (input : UploadInput)
    (initOut : InitiateLayerUploadOutput) (blobs : OrderedMap)
    (hspin : ∀ k n, env.SpinnerStart k n = none)
    (hlog : ∃ l, input.Logger = some l) (huid : ∃ u, initOut.UploadId = some u)
    (hpart : ∀ h i, ∃ out, c.UploadLayerPart h i = (some out, none)) :
    ∀ (keys : List String) (firstPart : Int) (tr : List Event),
    (∀ k ∈ keys, ∃ v, blobs.Get k = some v) →
    (uploadPartsLoop env (some c) input initOut blobs keys firstPart tr).1 = .ret none := by
  intro keys
  induction keys with
  | nil => intro firstPart tr _; rfl
  | cons key keys ih =>
    intro firstPart tr hkeys
    obtain ⟨v, hv⟩ := hkeys key (List.mem_cons_self _ _)
    obtain ⟨l, hl⟩ := hlog
    obtain ⟨u, hu⟩ := huid
    obtain ⟨out, hout⟩ := hpart tr (uploadLayerPartInput input initOut v firstPart)
    rw [uploadPartsLoop_cons, hv]
    dsimp only
    rw [hspin]
    dsimp only
    have hld : logDeref input.Logger [initOut.UploadId] = .ret () := by
      simp [logDeref, hl, hu, Printfln]
    rw [hld]
    dsimp only
    rw [hout]
    dsimp only
    exact ih _ _ (fun k hk => hkeys k (List.mem_cons_of_mem _ hk))

/-- The upload of one blob succeeds when the blob is read, the client is there and initiates
and accepts the parts, and the completion succeeds or reports that the layer exists. -/
theorem doUploadLayerParts_ok (env : Env) (c : IClient) (input : UploadInput) (d : String)
    (tr : List Event) (hclient : input.Client = some c)
    (hspin : ∀ k n, env.SpinnerStart k n = none)
    (hlog : ∃ l, input.Logger = some l)
    (hinit : ∀ h i, ∃ out uid, c.InitiateLayerUpload h i = (some out, none) ∧
      out.UploadId = some uid)
    (hpart : ∀ h i, ∃ out, c.UploadLayerPart h i = (some out, none))
    (hcomp : ∀ h uid,
      (∃ o e, c.CompleteLayerUpload h (completeLayerUploadInput input uid [d]) = (o, some e) ∧
        (e.As .LayerAlreadyExistsException).isSome = true) ∨
      (∃ o dg, c.CompleteLayerUpload h (completeLayerUploadInput input uid [d]) = (some o, none) ∧
        o.LayerDigest = some dg))
    (hstat : ∃ sz, env.fs.Stat (filepathJoin [input.ImageLayersPath, stringsReplaceColon d])
      = .ok sz)
    (hblobs : ∃ blobs, layerBlobParts env.fs d
      (filepathJoin [input.ImageLayersPath, stringsReplaceColon d]) input.Logger
      = .ret (some blobs, none)) :
    (doUploadLayerParts env (some c) input d tr).1 = .ret none := by
  obtain ⟨l, hl⟩ := hlog
  obtain ⟨sz, hsz⟩ := hstat
  obtain ⟨blobs, hb⟩ := hblobs
  obtain ⟨out, uid, hi, hu⟩ := hinit tr (initiateLayerUploadInput input)
  rw [doUploadLayerParts_unfold]
  have hinit2 : initLayerUpload input tr = (.ret (some out, none),
      tr ++ [Event.InitiateLayerUpload (initiateLayerUploadInput input) (some out) none]) := by
    unfold initLayerUpload
    rw [hclient]
    dsimp only
    rw [hi]
  rw [hinit2]
  dsimp only
  rw [hsz]
  dsimp only
  have hp : Printfln input.Logger = .ret () := by simp [hl, Printfln]
  have hld : logDeref input.Logger [out.UploadId] = .ret () := by
    simp [logDeref, hl, hu, Printfln]
  rw [hp]
  dsimp only
  rw [hld]
  dsimp only
  rw [hb]
  dsimp only
  have hloop := uploadPartsLoop_ok env c input out blobs hspin ⟨l, hl⟩ ⟨uid, hu⟩ hpart blobs.Keys 0
    (tr ++ [Event.InitiateLayerUpload (initiateLayerUploadInput input) (some out) none])
    (fun k hk => Get_of_mem_Keys blobs k hk)
  rcases hlp : uploadPartsLoop env (some c) input out blobs blobs.Keys 0
    (tr ++ [Event.InitiateLayerUpload (initiateLayerUploadInput input) (some out) none])
    with ⟨o1, tr2⟩
  rw [hlp] at hloop
  dsimp only at hloop
  subst hloop
  dsimp only
  unfold completeLayerUpload
  rw [hclient]
  dsimp only
  rcases hcomp tr2 out.UploadId
    with ⟨o, e, hc, hlae⟩ | ⟨o, dg, hc, hdg⟩
  · rw [hc]
    dsimp only
    cases hinv : e.As .InvalidLayerException with
    | some x =>
      have := As_other_of_As e x _ .LayerAlreadyExistsException hinv (by decide)
      rw [this] at hlae
      simp at hlae
    | none =>
      dsimp only
      rw [As_wrap]
      cases hl2 : e.As .LayerAlreadyExistsException with
      | none => rw [hl2] at hlae; simp at hlae
      | some x => rfl
  · rw [hc]
    dsimp only
    rw [hdg]

theorem uploadLayersLoop_ok (env : Env) (c : IClient) (input : UploadInput)
    (digests : List String) (hclient : input.Client = some c)
    (hlog : ∃ l, input.Logger = some l)
    (hone : ∀ d tr, d ∈ digests → (doUploadLayerParts env (some c) input d tr).1 = .ret none) :
    ∀ (layers : List BlobInfo) (tr : List Event),
    (∀ layer ∈ layers, layer.Digest ∈ digests) →
    (uploadLayersLoop env input layers tr).1 = .ret none := by
  intro layers
  induction layers with
  | nil => intro tr _; rfl
  | cons layer layers ih =>
    intro tr hmem
    obtain ⟨l, hl⟩ := hlog
    have hunf : uploadLayersLoop env input (layer :: layers) tr =
        match Printfln input.Logger with
        | .panic msg => (.panic msg, tr)
        | .ret _ =>
          match doUploadLayerParts env input.Client input layer.Digest tr with
          | (.panic msg, tr1) => (.panic msg, tr1)
          | (.ret (some err), tr1) => (.ret (some (ErrorfW "error uploading layer: " err "")), tr1)
          | (.ret none, tr1) => uploadLayersLoop env input layers tr1 := rfl
    rw [hunf]
    have hp : Printfln input.Logger = .ret () := by simp [hl, Printfln]
    rw [hp, hclient]
    dsimp only
    have h1 := hone layer.Digest tr (hmem layer (List.mem_cons_self _ _))
    rcases hd : doUploadLayerParts env (some c) input layer.Digest tr with ⟨o1, tr1⟩
    rw [hd] at h1
    dsimp only at h1
    subst h1
    dsimp only
    exact ih tr1 (fun layer2 h2 => hmem layer2 (List.mem_cons_of_mem _ h2))

theorem uploadLayerParts_ok (env : Env) (c : IClient) (input : UploadInput)
    (manifest : Manifest) (tr : List Event) (hclient : input.Client = some c)
    (hlog : ∃ l, input.Logger = some l)
    (hone : ∀ d tr, d ∈ allDigests manifest →
      (doUploadLayerParts env (some c) input d tr).1 = .ret none) :
    (uploadLayerParts env input manifest tr).1 = .ret none := by
  obtain ⟨l, hl⟩ := hlog
  unfold uploadLayerParts
  have hp : Printfln input.Logger = .ret () := by simp [hl, Printfln]
  rw [hp, hclient]
  dsimp only
  have h1 := hone manifest.ConfigInfo.Digest tr (by simp [allDigests])
  rcases hd : doUploadLayerParts env (some c) input manifest.ConfigInfo.Digest tr with ⟨o1, tr1⟩
  rw [hd] at h1
  dsimp only at h1
  subst h1
  dsimp only
  exact uploadLayersLoop_ok env c input (allDigests manifest) hclient ⟨l, hl⟩ hone manifest.LayerInfos tr1
    (fun layer hl2 => by
      simp only [allDigests, List.mem_cons, List.mem_map]
      exact Or.inr ⟨layer, hl2, rfl⟩)

/-- `Upload` returns a nil error when the manifest is read, parsed and within the limits, the
repository is found, every blob is read and uploaded, and the image is put. -/
theorem Upload_ok (env : Env) (c : IClient) (input : UploadInput) (tr : List Event)
    (manBuffer : List Byte) (manifest : Manifest)
    (hread : env.fs.ReadFile (filepathJoin [input.ImageLayersPath, "manifest.json"])
      = .ok manBuffer)
    (hparse : FromBlob env manBuffer input.Logger = .ret (some manifest, none))
    (hcount : manifest.LayerInfos.length + 1 ≤ 100)
    (hsize : manBuffer.length ≤ 4194304)
    (hclient : input.Client = some c)
    (hlog : ∃ l, input.Logger = some l)
    (hdesc : ∀ h, ∃ name arn uri, c.DescribeRepositories h (describeRepositoriesInput input)
      = (some ⟨[⟨some name, some arn, some uri⟩]⟩, none))
    (hput : ∀ h i, ∃ out, c.PutImage h i = (some out, none))
    (hone : ∀ d tr, d ∈ allDigests manifest →
      (doUploadLayerParts env (some c) input d tr).1 = .ret none) :
    ∃ img, (Upload env input tr).1 = .ret (img, none) := by
  obtain ⟨l, hl⟩ := hlog
  rw [Upload_unfold env input tr manBuffer manifest hread hparse, if_neg (by omega)]
  obtain ⟨name, arn, uri, hd⟩ := hdesc tr
  have hcheck : checkRepo input tr = (.ret (some ⟨[⟨some name, some arn, some uri⟩]⟩, none, none),
      tr ++ [Event.DescribeRepositories (describeRepositoriesInput input)
        (some ⟨[⟨some name, some arn, some uri⟩]⟩) none]) := by
    unfold checkRepo
    rw [hclient]
    dsimp only
    rw [hd]
    simp
  rw [hcheck]
  dsimp only
  have hlr : logRepository input.Logger (some ⟨[⟨some name, some arn, some uri⟩]⟩) none
      = .ret () := by
    simp [logRepository, logDeref, hl, Printfln]
  rw [hlr]
  dsimp only
  have h1 := uploadLayerParts_ok env c input manifest
    (tr ++ [Event.DescribeRepositories (describeRepositoriesInput input)
        (some ⟨[⟨some name, some arn, some uri⟩]⟩) none]) hclient ⟨l, hl⟩ hone
  rcases hu : uploadLayerParts env input manifest
    (tr ++ [Event.DescribeRepositories (describeRepositoriesInput input)
        (some ⟨[⟨some name, some arn, some uri⟩]⟩) none]) with ⟨o1, tr2⟩
  rw [hu] at h1
  dsimp only at h1
  subst h1
  dsimp only
  obtain ⟨out, hout⟩ := hput tr2 (putImageInput input manBuffer)
  have hp : putEcrImage env input manifest tr2 = (.ret (out.Image, none),
      tr2 ++ [Event.PutImage (putImageInput input manBuffer) (some out) none]) := by
    unfold putEcrImage
    dsimp only
    rw [hread]
    dsimp only
    rw [if_neg (by unfold IMAGE_MANIFEST_MAX_SIZE; omega), hclient]
    dsimp only
    rw [hout]
  rw [hp]
  exact ⟨_, rfl⟩

/-- A file of less than `2^53` bytes that is read without short reads or errors is split. -/
theorem layerBlobParts_total (fs : FileSystem) (digest blobPath : String) (file : File)
    (l : ILogger) (hopen : fs.Open blobPath = .ok file) (hS : file.data.length < 2 ^ 53)
    (hstat : file.statErr = none) (hfull : ∀ j, file.reads j = .full) :
    ∃ blobs, layerBlobParts fs digest blobPath (some l) = .ret (some blobs, none) := by
  have h63 : file.data.length < 2 ^ 63 := lt_trans hS (by norm_num)
  rw [layerBlobParts_open fs digest blobPath (some l) file hopen h63 hstat l rfl,
    totalPartsNum_small _ hS]
  exact ⟨_, loop_full file h63 hfull _ 0 OrderedMap.empty
    (fun j hj => ceilParts_cover _ _ (by omega)) (by simp [OrderedMap.Keys, OrderedMap.empty])⟩

/-! ## The byte ranges of the parts -/

theorem find_of_nodup : ∀ (es : List (String × List Byte)) (kv : String × List Byte),
    (es.map Prod.fst).Nodup → kv ∈ es → es.find? (fun x => x.1 == kv.1) = some kv := by
  intro es
  induction es with
  | nil => intro kv _ h; cases h
  | cons e es ih =>
    intro kv hnd hmem
    rw [List.map_cons, List.nodup_cons] at hnd
    rcases List.mem_cons.1 hmem with h | h
    · subst h
      simp [List.find?]
    · have hne : e.1 ≠ kv.1 := by
        intro heq
        exact hnd.1 (heq ▸ List.mem_map_of_mem Prod.fst h)
      have hb : (e.1 == kv.1) = false := by simpa using hne
      rw [List.find?_cons, hb]
      exact ih kv hnd.2 h

/-- With distinct keys, the values under the keys in order are the values of the entries. -/
theorem values_of_nodup (m : OrderedMap) (hnd : m.Keys.Nodup) :
    m.Keys.map (fun k => (m.Get k).getD []) = m.entries.map Prod.snd := by
  unfold OrderedMap.Keys at hnd ⊢
  rw [List.map_map]
  apply List.map_congr_left
  intro kv hkv
  simp only [Function.comp_def, OrderedMap.Get]
  rw [find_of_nodup m.entries kv hnd hkv]
  rfl

/-- The ranges of the part calls for buffers of the lengths `min M (S - j*M)`. -/
theorem partCalls_ranges (input : UploadInput) (initOut : InitiateLayerUploadOutput) (S : Int) :
    ∀ (k i : Nat) (vs : List (List Byte)),
    vs.map (fun v => (v.length : Int))
      = (List.range' i k).map (fun (j : Nat) => min 10485760 (S - (j : Int) * 10485760)) →
    (∀ j, j < i + k → (j : Int) * 10485760 < S) →
    (partCalls input initOut vs ((i : Int) * 10485760)).map partRange
      = (List.range' i k).map (fun (j : Nat) => ((j : Int) * 10485760,
          min (((j : Int) + 1) * 10485760) S - 1, min 10485760 (S - (j : Int) * 10485760))) := by
  intro k
  induction k with
  | zero =>
    intro i vs hlen _
    cases vs with
    | nil => rfl
    | cons v vs => simp at hlen
  | succ k ih =>
    intro i vs hlen hcov
    cases vs with
    | nil => simp [List.range'] at hlen
    | cons v vs =>
      simp only [List.range', List.map_cons, List.cons.injEq] at hlen ⊢
      have hv := hlen.1
      have hvs := hlen.2
      have hi := hcov i (by omega)
      simp only [partCalls, List.map_cons, List.cons.injEq]
      refine ⟨?_, ?_⟩
      · simp only [partRange, uploadLayerPartInput, hv, Prod.mk.injEq, true_and, and_true]
        omega
      · cases k with
        | zero =>
          cases vs with
          | nil => rfl
          | cons w ws => simp [List.range'] at hvs
        | succ k =>
          have hi1 := hcov (i + 1) (by omega)
          have hfull : (v.length : Int) = 10485760 := by
            rw [hv]
            push_cast at hi1
            omega
          have hnext : (i : Int) * 10485760 + (v.length : Int) = ((i + 1 : Nat) : Int) * 10485760 := by
            rw [hfull]
            push_cast
            ring
          rw [hnext]
          exact ih (i + 1) vs hvs (fun j hj => hcov j (by omega))

theorem map_pair_split {α : Type} (es : List (String × List Byte)) (l : List α)
    (f : α → String) (g : α → Int)
    (h : es.map (fun kv => (kv.1, (kv.2.length : Int))) = l.map (fun j => (f j, g j))) :
    es.map Prod.fst = l.map f ∧ (es.map Prod.snd).map (fun v => (v.length : Int)) = l.map g := by
  constructor
  · have := congrArg (List.map Prod.fst) h
    simpa [List.map_map, Function.comp_def] using this
  · have := congrArg (List.map Prod.snd) h
    simpa [List.map_map, Function.comp_def] using this

theorem partSize_closed (s j : Nat) (h63 : s < 2 ^ 63) (hc : j * 10485760 < s) :
    partSize (s : Int) j = min 10485760 ((s : Int) - (j : Int) * 10485760) := by
  rw [partSize_eq s j h63 (le_of_lt hc)]
  congr 1
  rw [Nat.cast_sub (le_of_lt hc)]
  push_cast
  rfl

/-- The ranges of the part calls for the buffers that the splitter loop returns. -/
theorem blobs_ranges (input : UploadInput) (initOut : InitiateLayerUploadOutput) (file : File)
    (s n : Nat) (blobs : OrderedMap) (h63 : s < 2 ^ 63)
    (hcov : ∀ j, j < n → j * 10485760 < s)
    (hloop : layerBlobPartsLoop file (s : Int) n 0 (0 * 10485760) OrderedMap.empty
      = .ret (some blobs, none)) :
    (partCalls input initOut (blobs.Keys.map (fun k => (blobs.Get k).getD [])) 0).map partRange
      = (List.range' 0 n).map (fun (j : Nat) => ((j : Int) * 10485760,
          min (((j : Int) + 1) * 10485760) (s : Int) - 1,
          min 10485760 ((s : Int) - (j : Int) * 10485760))) := by
  have hps : ∀ j, j * 10485760 < s →
      partSize (s : Int) j = min 10485760 ((s : Int) - (j : Int) * 10485760) :=
    fun j hc => partSize_closed s j h63 hc
  clear h63
  have hshape := loop_shape file _ _ 0 _ OrderedMap.empty blobs (by simp [OrderedMap.Keys,
    OrderedMap.empty]) hloop
  have e2 : OrderedMap.empty.entries = [] := rfl
  rw [e2, List.map_nil, List.nil_append] at hshape
  obtain ⟨hkeys, hvals⟩ := map_pair_split blobs.entries (List.range' 0 n) partKey
    (partSize (s : Int)) hshape
  have hnd : blobs.Keys.Nodup := by
    unfold OrderedMap.Keys
    rw [hkeys]
    exact (List.nodup_range' 0 n).map partKey_injective
  have hlen : (blobs.Keys.map (fun k => (blobs.Get k).getD [])).map (fun v => (v.length : Int))
      = (List.range' 0 n).map (fun (j : Nat) => min 10485760 ((s : Int) - (j : Int) * 10485760)) := by
    rw [values_of_nodup blobs hnd, hvals]
    apply List.map_congr_left
    intro j hj
    have hj2 : j < n := by
      have := List.mem_range'_1.1 hj
      omega
    exact hps j (hcov j hj2)
  have hcovi : ∀ j, j < 0 + n → (j : Int) * 10485760 < (s : Int) := by
    intro j hj
    have := hcov j (by omega)
    exact_mod_cast this
  have hfinal := partCalls_ranges input initOut (s : Int) n 0 _ hlen hcovi
  rw [Nat.cast_zero, zero_mul] at hfinal
  exact hfinal

theorem ranges_last (S : Int) (n : Nat) (hn : 0 < n) (ps : List UploadLayerPartInput)
    (h : ps.map partRange = (List.range' 0 n).map (fun (j : Nat) => ((j : Int) * 10485760,
          min (((j : Int) + 1) * 10485760) S - 1, min 10485760 (S - (j : Int) * 10485760)))) :
    ps.getLast?.map (fun p => p.PartLastByte) = some (min ((n : Int) * 10485760) S - 1) := by
  obtain ⟨m, rfl⟩ : ∃ m, n = m + 1 := ⟨n - 1, by omega⟩
  have h2 := congrArg (fun l => l.getLast?.map (fun r => r.2.1)) h
  rw [List.range'_concat, List.map_append, List.map_cons, List.map_nil] at h2
  have h3 : ∀ (l : List (Int × Int × Int)) (a : Int × Int × Int),
      (l ++ [a]).getLast? = some a := fun l a => List.getLast?_concat l
  dsimp only at h2
  rw [h3, List.getLast?_map, Option.map_map] at h2
  rw [show (fun p : UploadLayerPartInput => p.PartLastByte) = (fun r => r.2.1) ∘ partRange from rfl,
    h2]
  simp only [Option.map_some', Option.some.injEq]
  push_cast
  ring_nf

/-! ## The calls of a run in which every layer exists already -/

theorem uploadPartsLoop_run (env : Env) (c : IClient) (input : UploadInput)
    (initOut : InitiateLayerUploadOutput) (blobs : OrderedMap)
    (hspin : ∀ k n, env.SpinnerStart k n = none)
    (hlog : ∃ l, input.Logger = some l) (huid : ∃ u, initOut.UploadId = some u)
    (hpart : ∀ h i, ∃ out, c.UploadLayerPart h i = (some out, none)) :
    ∀ (keys : List String) (firstPart : Int) (tr : List Event),
    (∀ k ∈ keys, ∃ v, blobs.Get k = some v) →
    ∃ outs, outs.length = keys.length ∧
      uploadPartsLoop env (some c) input initOut blobs keys firstPart tr
        = (.ret none, tr ++ List.zipWith (fun p out => Event.UploadLayerPart p (some out) none)
            (partCalls input initOut (keys.map (fun k => (blobs.Get k).getD [])) firstPart)
            outs) := by
  intro keys
  induction keys with
  | nil =>
    intro firstPart tr _
    exact ⟨[], rfl, by simp [uploadPartsLoop, partCalls]⟩
  | cons key keys ih =>
    intro firstPart tr hkeys
    obtain ⟨v, hv⟩ := hkeys key (List.mem_cons_self _ _)
    obtain ⟨l, hl⟩ := hlog
    obtain ⟨u, hu⟩ := huid
    obtain ⟨out, hout⟩ := hpart tr (uploadLayerPartInput input initOut v firstPart)
    obtain ⟨outs, hlen, hrun⟩ := ih (firstPart + (v.length : Int))
      (tr ++ [Event.UploadLayerPart (uploadLayerPartInput input initOut v firstPart)
        (some out) none]) (fun k hk => hkeys k (List.mem_cons_of_mem _ hk))
    refine ⟨out :: outs, by simp [hlen], ?_⟩
    rw [uploadPartsLoop_cons, hv]
    dsimp only
    rw [hspin]
    dsimp only
    have hld : logDeref input.Logger [initOut.UploadId] = .ret () := by
      simp [logDeref, hl, hu, Printfln]
    rw [hld]
    dsimp only
    rw [hout]
    dsimp only
    rw [hrun]
    simp only [List.map_cons, hv, Option.getD_some, partCalls, List.zipWith_cons_cons,
      List.append_assoc, List.singleton_append]

/-- The upload of one blob whose completion reports that the layer exists: the blob is
initiated, every chunk is sent, and the completion is called. -/
theorem doUploadLayerParts_run (env : Env) (c : IClient) (input : UploadInput) (d : String)
    (tr : List Event) (hclient : input.Client = some c)
    (hspin : ∀ k n, env.SpinnerStart k n = none)
    (hlog : ∃ l, input.Logger = some l)
    (hinit : ∀ h i, ∃ out uid, c.InitiateLayerUpload h i = (some out, none) ∧
      out.UploadId = some uid)
    (hpart : ∀ h i, ∃ out, c.UploadLayerPart h i = (some out, none))
    (hcomp : ∀ h i, ∃ o e, c.CompleteLayerUpload h i = (o, some e) ∧
      (e.As .LayerAlreadyExistsException).isSome = true)
    (hstat : ∃ sz, env.fs.Stat (filepathJoin [input.ImageLayersPath, stringsReplaceColon d])
      = .ok sz)
    (hblobs : ∃ blobs, layerBlobParts env.fs d
      (filepathJoin [input.ImageLayersPath, stringsReplaceColon d]) input.Logger
      = .ret (some blobs, none)) :
    ∃ evs, doUploadLayerParts env (some c) input d tr = (.ret none, tr ++ evs) ∧
      layerUploaded env input d evs := by
  obtain ⟨l, hl⟩ := hlog
  obtain ⟨sz, hsz⟩ := hstat
  obtain ⟨blobs, hb⟩ := hblobs
  obtain ⟨out, uid, hi, hu⟩ := hinit tr (initiateLayerUploadInput input)
  rw [doUploadLayerParts_unfold]
  have hinit2 : initLayerUpload input tr = (.ret (some out, none),
      tr ++ [Event.InitiateLayerUpload (initiateLayerUploadInput input) (some out) none]) := by
    unfold initLayerUpload
    rw [hclient]
    dsimp only
    rw [hi]
  rw [hinit2]
  dsimp only
  rw [hsz]
  dsimp only
  have hp : Printfln input.Logger = .ret () := by simp [hl, Printfln]
  have hld : logDeref input.Logger [out.UploadId] = .ret () := by
    simp [logDeref, hl, hu, Printfln]
  rw [hp]
  dsimp only
  rw [hld]
  dsimp only
  rw [hb]
  dsimp only
  obtain ⟨outs, hlen, hloop⟩ := uploadPartsLoop_run env c input out blobs hspin ⟨l, hl⟩
    ⟨uid, hu⟩ hpart blobs.Keys 0
    (tr ++ [Event.InitiateLayerUpload (initiateLayerUploadInput input) (some out) none])
    (fun k hk => Get_of_mem_Keys blobs k hk)
  rw [hloop]
  dsimp only
  unfold completeLayerUpload
  rw [hclient]
  dsimp only
  obtain ⟨o, e, hc, hlae⟩ := hcomp
    (tr ++ [Event.InitiateLayerUpload (initiateLayerUploadInput input) (some out) none]
      ++ List.zipWith (fun p out => Event.UploadLayerPart p (some out) none)
          (partCalls input out (blobs.Keys.map (fun k => (blobs.Get k).getD [])) 0) outs)
    (completeLayerUploadInput input out.UploadId [d])
  rw [hc]
  dsimp only
  have hfin : ∀ (r : Run (Option GoError)), r = (.ret none,
      tr ++ [Event.InitiateLayerUpload (initiateLayerUploadInput input) (some out) none]
        ++ List.zipWith (fun p out => Event.UploadLayerPart p (some out) none)
            (partCalls input out (blobs.Keys.map (fun k => (blobs.Get k).getD [])) 0) outs
        ++ [Event.CompleteLayerUpload (completeLayerUploadInput input out.UploadId [d]) o
              (some e)]) →
      ∃ evs, r = (.ret none, tr ++ evs) ∧ layerUploaded env input d evs := by
    intro r hr
    refine ⟨_, ?_, out, blobs, outs, o, e, hb, hlen, rfl, hlae⟩
    rw [hr]
    simp
  cases hinv : e.As .InvalidLayerException with
  | some x =>
    have := As_other_of_As e x _ .LayerAlreadyExistsException hinv (by decide)
    rw [this] at hlae
    simp at hlae
  | none =>
    dsimp only
    rw [As_wrap]
    cases hl2 : e.As .LayerAlreadyExistsException with
    | none => rw [hl2] at hlae; simp at hlae
    | some x => exact hfin _ rfl

theorem uploadLayersLoop_run (env : Env) (c : IClient) (input : UploadInput)
    (hclient : input.Client = some c) (hlog : ∃ l, input.Logger = some l)
    (digests : List String)
    (hone : ∀ d tr, d ∈ digests → ∃ evs,
      doUploadLayerParts env (some c) input d tr = (.ret none, tr ++ evs) ∧
      layerUploaded env input d evs) :
    ∀ (layers : List BlobInfo) (tr : List Event),
    (∀ layer ∈ layers, layer.Digest ∈ digests) →
    ∃ blocks, uploadLayersLoop env input layers tr = (.ret none, tr ++ blocks.flatten) ∧
      List.Forall₂ (layerUploaded env input) (layers.map (fun layer => layer.Digest))
        blocks := by
  intro layers
  induction layers with
  | nil =>
    intro tr _
    exact ⟨[], by simp [uploadLayersLoop], List.Forall₂.nil⟩
  | cons layer layers ih =>
    intro tr hmem
    obtain ⟨l, hl⟩ := hlog
    have hunf : uploadLayersLoop env input (layer :: layers) tr =
        match Printfln input.Logger with
        | .panic msg => (.panic msg, tr)
        | .ret _ =>
          match doUploadLayerParts env input.Client input layer.Digest tr with
          | (.panic msg, tr1) => (.panic msg, tr1)
          | (.ret (some err), tr1) => (.ret (some (ErrorfW "error uploading layer: " err "")), tr1)
          | (.ret none, tr1) => uploadLayersLoop env input layers tr1 := rfl
    rw [hunf]
    have hp : Printfln input.Logger = .ret () := by simp [hl, Printfln]
    rw [hp, hclient]
    dsimp only
    obtain ⟨evs, h1, h2⟩ := hone layer.Digest tr (hmem layer (List.mem_cons_self _ _))
    rw [h1]
    dsimp only
    obtain ⟨blocks, h3, h4⟩ := ih (tr ++ evs)
      (fun layer2 hl2 => hmem layer2 (List.mem_cons_of_mem _ hl2))
    refine ⟨evs :: blocks, ?_, List.Forall₂.cons h2 h4⟩
    rw [h3]
    simp

theorem uploadLayerParts_run (env : Env) (c : IClient) (input : UploadInput)
    (manifest : Manifest) (tr : List Event) (hclient : input.Client = some c)
    (hlog : ∃ l, input.Logger = some l)
    (hone : ∀ d tr, d ∈ allDigests manifest → ∃ evs,
      doUploadLayerParts env (some c) input d tr = (.ret none, tr ++ evs) ∧
      layerUploaded env input d evs) :
    ∃ blocks, uploadLayerParts env input manifest tr = (.ret none, tr ++ blocks.flatten) ∧
      List.Forall₂ (layerUploaded env input) (allDigests manifest) blocks := by
  obtain ⟨l, hl⟩ := hlog
  unfold uploadLayerParts
  have hp : Printfln input.Logger = .ret () := by simp [hl, Printfln]
  rw [hp, hclient]
  dsimp only
  obtain ⟨evs, h1, h2⟩ := hone manifest.ConfigInfo.Digest tr (by simp [allDigests])
  rw [h1]
  dsimp only
  obtain ⟨blocks, h3, h4⟩ := uploadLayersLoop_run env c input hclient ⟨l, hl⟩
    (allDigests manifest) hone manifest.LayerInfos (tr ++ evs)
    (fun layer hl2 => by
      simp only [allDigests, List.mem_cons, List.mem_map]
      exact Or.inr ⟨layer, hl2, rfl⟩)
  refine ⟨evs :: blocks, ?_, List.Forall₂.cons h2 h4⟩
  rw [h3]
  simp

/-- The run of `Upload` when every completion reports that the layer exists and every other
call succeeds: the repository is described, every blob is uploaded in full, in the order of
the manifest, and the manifest is put. -/
theorem Upload_run (env : Env) (c : IClient) (input : UploadInput) (tr : List Event)
    (manBuffer : List Byte) (manifest : Manifest)
    (hread : env.fs.ReadFile (filepathJoin [input.ImageLayersPath, "manifest.json"])
      = .ok manBuffer)
    (hparse : FromBlob env manBuffer input.Logger = .ret (some manifest, none))
    (hcount : manifest.LayerInfos.length + 1 ≤ 100)
    (hsize : manBuffer.length ≤ 4194304)
    (hclient : input.Client = some c)
    (hlog : ∃ l, input.Logger = some l)
    (hdesc : ∀ h, ∃ name arn uri, c.DescribeRepositories h (describeRepositoriesInput input)
      = (some ⟨[⟨some name, some arn, some uri⟩]⟩, none))
    (hput : ∀ h i, ∃ out, c.PutImage h i = (some out, none))
    (hone : ∀ d tr, d ∈ allDigests manifest → ∃ evs,
      doUploadLayerParts env (some c) input d tr = (.ret none, tr ++ evs) ∧
      layerUploaded env input d evs) :
    ∃ desc blocks out,
      Upload env input tr
        = (.ret (out.Image, none),
           tr ++ (Event.DescribeRepositories (describeRepositoriesInput input) (some desc) none
              :: blocks.flatten)
             ++ [Event.PutImage (putImageInput input manBuffer) (some out) none]) ∧
      List.Forall₂ (layerUploaded env input) (allDigests manifest) blocks := by
  obtain ⟨l, hl⟩ := hlog
  rw [Upload_unfold env input tr manBuffer manifest hread hparse, if_neg (by omega)]
  obtain ⟨name, arn, uri, hd⟩ := hdesc tr
  have hcheck : checkRepo input tr = (.ret (some ⟨[⟨some name, some arn, some uri⟩]⟩, none, none),
      tr ++ [Event.DescribeRepositories (describeRepositoriesInput input)
        (some ⟨[⟨some name, some arn, some uri⟩]⟩) none]) := by
    unfold checkRepo
    rw [hclient]
    dsimp only
    rw [hd]
    simp
  rw [hcheck]
  dsimp only
  have hlr : logRepository input.Logger (some ⟨[⟨some name, some arn, some uri⟩]⟩) none
      = .ret () := by
    simp [logRepository, logDeref, hl, Printfln]
  rw [hlr]
  dsimp only
  obtain ⟨blocks, h1, h2⟩ := uploadLayerParts_run env c input manifest
    (tr ++ [Event.DescribeRepositories (describeRepositoriesInput input)
        (some ⟨[⟨some name, some arn, some uri⟩]⟩) none]) hclient ⟨l, hl⟩ hone
  rw [h1]
  dsimp only
  obtain ⟨out, hout⟩ := hput
    (tr ++ [Event.DescribeRepositories (describeRepositoriesInput input)
        (some ⟨[⟨some name, some arn, some uri⟩]⟩) none] ++ blocks.flatten)
    (putImageInput input manBuffer)
  have hp : putEcrImage env input manifest
      (tr ++ [Event.DescribeRepositories (describeRepositoriesInput input)
        (some ⟨[⟨some name, some arn, some uri⟩]⟩) none] ++ blocks.flatten)
      = (.ret (out.Image, none),
        tr ++ [Event.DescribeRepositories (describeRepositoriesInput input)
          (some ⟨[⟨some name, some arn, some uri⟩]⟩) none] ++ blocks.flatten
          ++ [Event.PutImage (putImageInput input manBuffer) (some out) none]) := by
    unfold putEcrImage
    dsimp only
    rw [hread]
    dsimp only
    rw [if_neg (by unfold IMAGE_MANIFEST_MAX_SIZE; omega), hclient]
    dsimp only
    rw [hout]
  rw [hp]
  refine ⟨⟨[⟨some name, some arn, some uri⟩]⟩, blocks, out, ?_, h2⟩
  simp
/-! ## The part calls of a layer (C3) -/

theorem midFile_length : midFile.data.length = 25000000 :=
  List.length_replicate _ _

theorem ceilParts_bounds (S : Nat) (hpos : 0 < S) :
    0 < ceilParts S ∧ ((S : Int) - 1 = min ((ceilParts S : Int) * 10485760) (S : Int) - 1) := by
  have h1 : 0 < ceilParts S := by unfold ceilParts; omega
  have h2 : S ≤ ceilParts S * 10485760 := by unfold ceilParts; omega
  have h3 : (S : Int) ≤ (ceilParts S : Int) * 10485760 := by exact_mod_cast h2
  exact ⟨h1, by rw [min_eq_right h3]⟩

/-- The ranges of a layer upload that succeeds, for a blob of `0 < S < 2^53` bytes: part `j`
has the range `[j * 10485760, min((j+1) * 10485760, S) - 1]`, so that the last `PartLastByte`
is `S - 1`. -/
theorem doUploadLayerParts_ranges_small (env : Env) (client : Option IClient)
    (input : UploadInput) (digest : String) (tr : List Event) (file : File)
    (hopen : env.fs.Open (filepathJoin [input.ImageLayersPath, stringsReplaceColon digest])
      = .ok file)
    (hpos : 0 < file.data.length) (hS : file.data.length < 2 ^ 53)
    (hret : (doUploadLayerParts env client input digest tr).1 = .ret none) :
    ∃ evs, doUploadLayerParts env client input digest tr = (.ret none, tr ++ evs) ∧
      (partInputs evs).map partRange
        = (List.range (ceilParts file.data.length)).map (fun (j : Nat) =>
            ((j : Int) * 10485760,
             min (((j : Int) + 1) * 10485760) (file.data.length : Int) - 1,
             min 10485760 ((file.data.length : Int) - (j : Int) * 10485760))) ∧
      (partInputs evs).getLast?.map (fun p => p.PartLastByte)
        = some ((file.data.length : Int) - 1) := by
  obtain ⟨evs, h1, hc, _, hsucc⟩ := doUploadLayerParts_shape env client input digest tr
  refine ⟨evs, Prod.ext hret h1, ?_⟩
  obtain ⟨initOut, blobs, hb, hpi, _⟩ := hsucc hret
  have h63 : file.data.length < 2 ^ 63 := lt_trans hS (by norm_num)
  obtain ⟨hstat, l, hl⟩ := layerBlobParts_ok _ _ _ _ file blobs hopen hb
  rw [layerBlobParts_open _ _ _ _ file hopen h63 hstat l hl, totalPartsNum_small _ hS] at hb
  have hr := blobs_ranges input initOut file file.data.length (ceilParts file.data.length) blobs
    h63 (fun j hj => ceilParts_cover _ _ hj) hb
  rw [← hpi] at hr
  obtain ⟨hn, hmin⟩ := ceilParts_bounds file.data.length hpos
  have hlast := ranges_last _ _ hn _ hr
  refine ⟨?_, ?_⟩
  · rw [hr, List.range_eq_range']
  · rw [hlast, ← hmin]

/-- The blob of 25,000,000 bytes is uploaded in three parts with the byte ranges
`[0,10485759]`, `[10485760,20971519]` and `[20971520,24999999]`. -/
theorem doUploadLayerParts_ranges_mid :
    ∃ evs, doUploadLayerParts midEnv (some okClient) (inputOf okClient) "sha256:aaaa" []
        = (.ret none, evs) ∧
      (partInputs evs).map partRange
        = [(0, 10485759, 10485760), (10485760, 20971519, 10485760),
           (20971520, 24999999, 4028480)] := by
  have hlt : midFile.data.length < 2 ^ 53 := by rw [midFile_length]; norm_num
  have hok := doUploadLayerParts_ok midEnv okClient (inputOf okClient) "sha256:aaaa" [] rfl
    (fun _ _ => rfl) ⟨_, rfl⟩ (fun _ _ => ⟨_, _, rfl, rfl⟩) (fun _ _ => ⟨_, rfl⟩)
    (fun _ _ => Or.inr ⟨_, _, rfl, rfl⟩) ⟨_, rfl⟩
    (layerBlobParts_total _ _ _ midFile ILogger.mk rfl hlt rfl (fun _ => rfl))
  obtain ⟨evs, h1, h2, _⟩ := doUploadLayerParts_ranges_small midEnv (some okClient)
    (inputOf okClient) "sha256:aaaa" [] midFile rfl (by rw [midFile_length]; norm_num) hlt hok
  refine ⟨evs, by simpa using h1, ?_⟩
  rw [h2, midFile_length]
  have h3 : ceilParts 25000000 = 3 := by decide
  rw [h3]
  simp only [List.range, List.range.loop, List.map_cons, List.map_nil]
  norm_num

/-- A layer upload that succeeds for a blob of `9007199263129601` bytes ends with the
`PartLastByte` `9007199263129599`. -/
theorem doUploadLayerParts_ranges_big (env : Env) (client : Option IClient)
    (input : UploadInput) (digest : String) (tr : List Event) (file : File)
    (hopen : env.fs.Open (filepathJoin [input.ImageLayersPath, stringsReplaceColon digest])
      = .ok file)
    (hlen : file.data.length = 9007199263129601)
    (hret : (doUploadLayerParts env client input digest tr).1 = .ret none) :
    ∃ evs, doUploadLayerParts env client input digest tr = (.ret none, tr ++ evs) ∧
      (partInputs evs).length = 858993460 ∧
      (partInputs evs).getLast?.map (fun p => p.PartLastByte) = some 9007199263129599 := by
  obtain ⟨evs, h1, _, _, hsucc⟩ := doUploadLayerParts_shape env client input digest tr
  obtain ⟨initOut, blobs, hb, hpi, _⟩ := hsucc hret
  have h63 : file.data.length < 2 ^ 63 := by rw [hlen]; norm_num
  have ht : totalPartsNum (file.data.length : Int) = 858993460 := by
    rw [hlen]; exact totalPartsNum_big
  obtain ⟨hstat, l, hl⟩ := layerBlobParts_ok _ _ _ _ file blobs hopen hb
  rw [layerBlobParts_open _ _ _ _ file hopen h63 hstat l hl, ht] at hb
  have hcov : ∀ j, j < 858993460 → j * 10485760 < file.data.length := by
    intro j hj
    rw [hlen]
    omega
  have hr := blobs_ranges input initOut file file.data.length 858993460 blobs h63 hcov hb
  rw [← hpi] at hr
  have hlast := ranges_last _ _ (by norm_num) _ hr
  have hlen2 := congrArg List.length hr
  rw [List.length_map, List.length_map, List.length_range'] at hlen2
  refine ⟨evs, Prod.ext hret h1, hlen2, ?_⟩
  rw [hlast, hlen]
  norm_num

/-- C3, the divergence: the number of parts is computed in `float64`. For a blob of
`S = 9007199263129601 = 858993460 * 10485760 + 1` bytes `totalPartsNum` is `858993460`, one
less than `ceil(S / 10485760)`, and a layer upload that succeeds issues `858993460` parts, the
last one with the `PartLastByte` `9007199263129599 = S - 2`: the last byte of the blob is in
no part. What holds: for every blob and every run, the `UploadLayerPart` calls of
`doUploadLayerParts` have contiguous byte ranges from `0` on, each `PartLastByte` being
`PartFirstByte + len(part) - 1` and each following `PartFirstByte` the previous
`PartLastByte + 1`; when the blob has `0 < S < 2^53` bytes and the upload of the layer
succeeds, part `j` has the range `[j * 10485760, min((j+1) * 10485760, S) - 1]`, so that the
last `PartLastByte` is `S - 1`; and for `S = 25000000` the run issues the three parts of the
sizes `10485760, 10485760, 4028480` with the ranges `[0,10485759]`, `[10485760,20971519]`,
`[20971520,24999999]`. -/
theorem doUploadLayerParts_ranges :
    (totalPartsNum 9007199263129601 = 858993460 ∧ ceilParts 9007199263129601 = 858993461 ∧
      ∀ (env : Env) (client : Option IClient) (input : UploadInput) (digest : String)
          (tr : List Event) (file : File),
        env.fs.Open (filepathJoin [input.ImageLayersPath, stringsReplaceColon digest])
          = .ok file →
        file.data.length = 9007199263129601 →
        (doUploadLayerParts env client input digest tr).1 = .ret none →
        ∃ evs, doUploadLayerParts env client input digest tr = (.ret none, tr ++ evs) ∧
          (partInputs evs).length = 858993460 ∧
          (partInputs evs).getLast?.map (fun p => p.PartLastByte)
            = some 9007199263129599) ∧
    (∀ (env : Env) (client : Option IClient) (input : UploadInput) (digest : String)
        (tr : List Event),
      ∃ evs, (doUploadLayerParts env client input digest tr).2 = tr ++ evs ∧
        Contiguous 0 (partInputs evs)) ∧
    (∀ (env : Env) (client : Option IClient) (input : UploadInput) (digest : String)
        (tr : List Event) (file : File),
      env.fs.Open (filepathJoin [input.ImageLayersPath, stringsReplaceColon digest])
        = .ok file →
      0 < file.data.length → file.data.length < 2 ^ 53 →
      (doUploadLayerParts env client input digest tr).1 = .ret none →
      ∃ evs, doUploadLayerParts env client input digest tr = (.ret none, tr ++ evs) ∧
        (partInputs evs).map partRange
          = (List.range (ceilParts file.data.length)).map (fun (j : Nat) =>
              ((j : Int) * 10485760,
               min (((j : Int) + 1) * 10485760) (file.data.length : Int) - 1,
               min 10485760 ((file.data.length : Int) - (j : Int) * 10485760))) ∧
        (partInputs evs).getLast?.map (fun p => p.PartLastByte)
          = some ((file.data.length : Int) - 1)) ∧
    (midFile.data.length = 25000000 ∧
      midEnv.fs.Open (filepathJoin [(inputOf okClient).ImageLayersPath,
        stringsReplaceColon "sha256:aaaa"]) = .ok midFile ∧
      ∃ evs, doUploadLayerParts midEnv (some okClient) (inputOf okClient) "sha256:aaaa" []
          = (.ret none, evs) ∧
        (partInputs evs).map partRange
          = [(0, 10485759, 10485760), (10485760, 20971519, 10485760),
             (20971520, 24999999, 4028480)]) := by
  refine ⟨⟨totalPartsNum_big, by decide, doUploadLayerParts_ranges_big⟩, ?_,
    doUploadLayerParts_ranges_small, midFile_length, rfl, doUploadLayerParts_ranges_mid⟩
  intro env client input digest tr
  obtain ⟨evs, h1, hc, _⟩ := doUploadLayerParts_shape env client input digest tr
  exact ⟨evs, h1, hc⟩
/-! ## Layers that exist already (C8) -/

/-- C8: when a `CompleteLayerUpload` call of `doUploadLayerParts` returns an error that is a
`LayerAlreadyExistsException`, `doUploadLayerParts` returns nil; and when every completion call
reports that error while the manifest is read and within the limits, the repository is
described, every blob is read and every other registry call succeeds, `Upload` uploads the
config and every layer, in the order of the manifest: after the `DescribeRepositories` call
the trace has one block of calls per digest, which is one `InitiateLayerUpload`, one
`UploadLayerPart` for every chunk of the blob, with contiguous ranges and the upload id of
the initiation, and the `CompleteLayerUpload` for the digest; the `PutImage` call with the
bytes of the manifest file comes last, and `Upload` returns its image with a nil error. -/
theorem Upload_layer_exists (env : Env) (c : IClient) (input : UploadInput) (tr : List Event)
    (manBuffer : List Byte) (manifest : Manifest)
    (hread : env.fs.ReadFile (filepathJoin [input.ImageLayersPath, "manifest.json"])
      = .ok manBuffer)
    (hparse : FromBlob env manBuffer input.Logger = .ret (some manifest, none))
    (hcount : manifest.LayerInfos.length + 1 ≤ 100)
    (hsize : manBuffer.length ≤ 4194304)
    (hclient : input.Client = some c)
    (hlog : ∃ l, input.Logger = some l)
    (hspin : ∀ k n, env.SpinnerStart k n = none)
    (hdesc : ∀ h, ∃ name arn uri, c.DescribeRepositories h (describeRepositoriesInput input)
      = (some ⟨[⟨some name, some arn, some uri⟩]⟩, none))
    (hinit : ∀ h i, ∃ out uid, c.InitiateLayerUpload h i = (some out, none) ∧
      out.UploadId = some uid)
    (hpart : ∀ h i, ∃ out, c.UploadLayerPart h i = (some out, none))
    (hcomp : ∀ h i, ∃ o e, c.CompleteLayerUpload h i = (o, some e) ∧
      (e.As .LayerAlreadyExistsException).isSome = true)
    (hput : ∀ h i, ∃ out, c.PutImage h i = (some out, none))
    (hstat : ∀ d, d ∈ allDigests manifest → ∃ sz,
      env.fs.Stat (filepathJoin [input.ImageLayersPath, stringsReplaceColon d]) = .ok sz)
    (hblobs : ∀ d, d ∈ allDigests manifest → ∃ blobs, layerBlobParts env.fs d
      (filepathJoin [input.ImageLayersPath, stringsReplaceColon d]) input.Logger
      = .ret (some blobs, none)) :
    (∀ env2 client2 input2 d tr2 evs inp o err,
      (doUploadLayerParts env2 client2 input2 d tr2).2 = tr2 ++ evs →
      Event.CompleteLayerUpload inp o (some err) ∈ evs →
      (err.As .LayerAlreadyExistsException).isSome = true →
      (doUploadLayerParts env2 client2 input2 d tr2).1 = .ret none) ∧
    (∀ d tr1, d ∈ allDigests manifest →
      ∃ evs, doUploadLayerParts env (some c) input d tr1 = (.ret none, tr1 ++ evs) ∧
        layerUploaded env input d evs) ∧
    ∃ desc blocks out,
      Upload env input tr
        = (.ret (out.Image, none),
           tr ++ (Event.DescribeRepositories (describeRepositoriesInput input) (some desc) none
              :: blocks.flatten)
             ++ [Event.PutImage (putImageInput input manBuffer) (some out) none]) ∧
      List.Forall₂ (layerUploaded env input) (allDigests manifest) blocks ∧
      completions (Event.DescribeRepositories (describeRepositoriesInput input) (some desc) none
        :: blocks.flatten) = (allDigests manifest).map (fun d => [d]) := by
  have hrun : ∀ d tr1, d ∈ allDigests manifest →
      ∃ evs, doUploadLayerParts env (some c) input d tr1 = (.ret none, tr1 ++ evs) ∧
        layerUploaded env input d evs := fun d tr1 hd =>
    doUploadLayerParts_run env c input d tr1 hclient hspin hlog hinit hpart hcomp (hstat d hd)
      (hblobs d hd)
  refine ⟨?_, hrun, ?_⟩
  · intro env2 client2 input2 d tr2 evs inp o err htr hmem hlae
    obtain ⟨evs2, h1, _, h3, _⟩ := doUploadLayerParts_shape env2 client2 input2 d tr2
    have : evs = evs2 := List.append_cancel_left (htr.symm.trans h1)
    subst this
    exact h3 inp o err hmem hlae
  · obtain ⟨desc, blocks, out, hup, hall⟩ := Upload_run env c input tr manBuffer manifest hread
      hparse hcount hsize hclient hlog hdesc hput hrun
    refine ⟨desc, blocks, out, hup, hall, ?_⟩
    obtain ⟨evs, p, h1, _, _, h4, _⟩ := Upload_protocol env input tr manBuffer manifest hread
      hparse
    obtain ⟨pre, inp, out2, hevs, _, hprun, _⟩ := h4 (out.Image) (by rw [hup])
    have htr : tr ++ evs = tr ++ (Event.DescribeRepositories (describeRepositoriesInput input)
        (some desc) none :: blocks.flatten)
          ++ [Event.PutImage (putImageInput input manBuffer) (some out) none] := by
      rw [← h1, hup]
    rw [List.append_assoc] at htr
    have he := List.append_cancel_left htr
    rw [hevs] at he
    have hpre := (List.append_inj' he rfl).1
    rw [← hpre]
    exact completions_run pre _ hprun

/-- C8, a concrete instance: with two layers and a client whose completions all report that
the layer exists, `Upload` initiates, sends and completes the config and both layers, puts
the manifest and returns the image. -/
theorem Upload_layer_exists_witness :
    (∃ desc blocks out,
      Upload (envOf manifest2) (inputOf existsClient) []
        = (.ret (out.Image, none),
           [] ++ (Event.DescribeRepositories (describeRepositoriesInput (inputOf existsClient))
              (some desc) none :: blocks.flatten)
             ++ [Event.PutImage (putImageInput (inputOf existsClient) [123, 125]) (some out)
                  none]) ∧
      List.Forall₂ (layerUploaded (envOf manifest2) (inputOf existsClient))
        (allDigests manifest2) blocks ∧
      completions (Event.DescribeRepositories (describeRepositoriesInput (inputOf existsClient))
        (some desc) none :: blocks.flatten) = (allDigests manifest2).map (fun d => [d])) ∧
    allDigests manifest2 = ["sha256:cfg", "sha256:aaaa", "sha256:bbbb"] ∧
    Upload (envOf manifest2) (inputOf existsClient) []
      = (.ret (some ⟨none, some "v1", some [123, 125], some "123456789012", some "repo"⟩, none),
         [Event.DescribeRepositories (describeRepositoriesInput (inputOf existsClient))
            (some ⟨[⟨some "repo", some "arn", some "uri"⟩]⟩) none,
          Event.InitiateLayerUpload (initiateLayerUploadInput (inputOf existsClient))
            (some ⟨some "upload-1"⟩) none,
          Event.UploadLayerPart
            (uploadLayerPartInput (inputOf existsClient) ⟨some "upload-1"⟩ [1, 2, 3] 0)
            (some ⟨some 2⟩) none,
          Event.CompleteLayerUpload
            (completeLayerUploadInput (inputOf existsClient) (some "upload-1") ["sha256:cfg"])
            none (some layerExists),
          Event.InitiateLayerUpload (initiateLayerUploadInput (inputOf existsClient))
            (some ⟨some "upload-4"⟩) none,
          Event.UploadLayerPart
            (uploadLayerPartInput (inputOf existsClient) ⟨some "upload-4"⟩ [1, 2, 3] 0)
            (some ⟨some 2⟩) none,
          Event.CompleteLayerUpload
            (completeLayerUploadInput (inputOf existsClient) (some "upload-4") ["sha256:aaaa"])
            none (some layerExists),
          Event.InitiateLayerUpload (initiateLayerUploadInput (inputOf existsClient))
            (some ⟨some "upload-7"⟩) none,
          Event.UploadLayerPart
            (uploadLayerPartInput (inputOf existsClient) ⟨some "upload-7"⟩ [1, 2, 3] 0)
            (some ⟨some 2⟩) none,
          Event.CompleteLayerUpload
            (completeLayerUploadInput (inputOf existsClient) (some "upload-7") ["sha256:bbbb"])
            none (some layerExists),
          Event.PutImage (putImageInput (inputOf existsClient) [123, 125])
            (some ⟨some ⟨none, some "v1", some [123, 125], some "123456789012", some "repo"⟩⟩)
            none]) :=
  ⟨(Upload_layer_exists (envOf manifest2) existsClient (inputOf existsClient) [] [123, 125]
    manifest2 (envOf_read _ _) (envOf_parse _) (by decide) (by decide) rfl ⟨_, rfl⟩
    (fun _ _ => rfl) (fun _ => ⟨_, _, _, rfl⟩) (fun _ _ => ⟨_, _, rfl, rfl⟩)
    (fun _ _ => ⟨_, rfl⟩) (fun _ _ => ⟨_, _, rfl, rfl⟩) (fun _ _ => ⟨_, rfl⟩)
    (fun _ _ => ⟨_, rfl⟩)
    (fun _ _ => layerBlobParts_total _ _ _ smallFile ILogger.mk rfl (by decide) rfl
      (fun _ => rfl))).2.2, rfl, by decide⟩
/-! ## `Download`: the trace of a run -/

theorem s3Run_append (input : S3DownloaderInput) (a b : List S3Event) : ∀ p,
    s3Run input p (a ++ b) = (s3Run input p a).bind (fun q => s3Run input q b) := by
  induction a with
  | nil => intro p; rfl
  | cons e es ih =>
    intro p
    simp only [List.cons_append, s3Run]
    cases s3Step input p e with
    | none => rfl
    | some q => exact ih q

theorem s3Run_single (input : S3DownloaderInput) (p : S3Phase) (e : S3Event) :
    s3Run input p [e] = s3Step input p e := by
  simp only [s3Run]
  cases s3Step input p e <;> rfl

/-- The calls of `downloadToFile` for the first pending object are in order, and the phase
they lead to matches what the function returns. -/
theorem downloadToFile_core (input : S3DownloaderInput) (key : String) (o : S3Object)
    (rest : List S3Object) (results : List String) (tr : List S3Event)
    (hkey : o.Key = some key) :
    ∃ evs p,
      (downloadToFile input.Downloader input.LocalDirectory input.Bucket key input.Filesystem
        input.Logger tr).2 = tr ++ evs ∧
      s3Run input (.run (o :: rest) .mkdir results) evs = some p ∧
      (∀ ev ∈ evs, ev.isObjectCall = true) ∧
      (∀ n, (downloadToFile input.Downloader input.LocalDirectory input.Bucket key
          input.Filesystem input.Logger tr).1 = .ret (n, none) →
        p = .run rest .mkdir (results ++ [localPath input key])) ∧
      (∀ n e, (downloadToFile input.Downloader input.LocalDirectory input.Bucket key
          input.Filesystem input.Logger tr).1 = .ret (n, some e) →
        p = .failed (ErrorfW "failed to download object: " e "")) ∧
      (∀ e, p = .failed e → ∃ n e0, (downloadToFile input.Downloader input.LocalDirectory
          input.Bucket key input.Filesystem input.Logger tr).1 = .ret (n, some e0) ∧
        e = ErrorfW "failed to download object: " e0 "") ∧
      p ≠ .dead := by
  unfold downloadToFile
  cases hfs : input.Filesystem with
  | none =>
    exact ⟨[], _, by simp, rfl, by simp, by simp, by simp, by simp, by simp⟩
  | some fsys =>
    dsimp only
    cases hm : fsys.MkdirAll tr (filepathDir (filepathJoin [input.LocalDirectory, input.Bucket,
        key])) 509 with
    | some err =>
      dsimp only
      refine ⟨[S3Event.MkdirAll (filepathDir (filepathJoin [input.LocalDirectory, input.Bucket,
        key])) 509 (some err)], .failed (objectError "failed to create directories for file: " err),
        rfl, ?_, by simp [S3Event.isObjectCall], by simp, ?_, ?_, by simp⟩
      · simp [s3Run, s3Step, hkey, localPath]
      · intro n e h
        simp only [Outcome.ret.injEq, Prod.mk.injEq, Option.some.injEq] at h
        rw [← h.2]
        rfl
      · intro e h
        simp only [S3Phase.failed.injEq] at h
        exact ⟨0, _, rfl, h.symm⟩
    | none =>
      dsimp only
      rcases hc : fsys.Create (tr ++ [S3Event.MkdirAll (filepathDir (filepathJoin
        [input.LocalDirectory, input.Bucket, key])) 509 none])
        (filepathJoin [input.LocalDirectory, input.Bucket, key]) with ⟨fd, cerr⟩
      dsimp only
      cases cerr with
      | some err =>
        dsimp only
        refine ⟨[S3Event.MkdirAll (filepathDir (filepathJoin [input.LocalDirectory, input.Bucket,
          key])) 509 none, S3Event.Create (filepathJoin [input.LocalDirectory, input.Bucket, key])
          fd (some err)], .failed (objectError "failed to create file: " err),
          by simp, ?_, by simp [S3Event.isObjectCall], by simp, ?_, ?_, by simp⟩
        · simp [s3Run, s3Step, hkey, localPath]
        · intro n e h
          simp only [Outcome.ret.injEq, Prod.mk.injEq, Option.some.injEq] at h
          rw [← h.2]
          rfl
        · intro e h
          simp only [S3Phase.failed.injEq] at h
          exact ⟨0, _, rfl, h.symm⟩
      | none =>
        dsimp only
        cases hd : input.Downloader with
        | none =>
          dsimp only
          refine ⟨[S3Event.MkdirAll (filepathDir (filepathJoin [input.LocalDirectory,
            input.Bucket, key])) 509 none, S3Event.Create (filepathJoin [input.LocalDirectory,
            input.Bucket, key]) fd none], .run (o :: rest) .transfer results,
            by simp, ?_, by simp [S3Event.isObjectCall], by simp, by simp, by simp, by simp⟩
          simp [s3Run, s3Step, hkey, localPath]
        | some dm =>
          dsimp only
          rcases hdl : dm.Download (tr ++ [S3Event.MkdirAll (filepathDir (filepathJoin
            [input.LocalDirectory, input.Bucket, key])) 509 none] ++ [S3Event.Create
            (filepathJoin [input.LocalDirectory, input.Bucket, key]) fd none]) fd ⟨input.Bucket, key⟩
            with ⟨n, derr⟩
          dsimp only
          cases derr with
          | some err =>
            dsimp only
            refine ⟨[S3Event.MkdirAll (filepathDir (filepathJoin [input.LocalDirectory,
              input.Bucket, key])) 509 none, S3Event.Create (filepathJoin [input.LocalDirectory,
              input.Bucket, key]) fd none, S3Event.Download fd ⟨input.Bucket, key⟩ n (some err)],
              .failed (objectError "failed to download file: " err),
              by simp, ?_, by simp [S3Event.isObjectCall], by simp, ?_, ?_, by simp⟩
            · simp [s3Run, s3Step, hkey, localPath]
            · intro n e h
              simp only [Outcome.ret.injEq, Prod.mk.injEq, Option.some.injEq] at h
              rw [← h.2]
              rfl
            · intro e h
              simp only [S3Phase.failed.injEq] at h
              exact ⟨0, _, rfl, h.symm⟩
          | none =>
            dsimp only
            cases logDownloaded input.Logger fd with
            | panic msg =>
              dsimp only
              refine ⟨[S3Event.MkdirAll (filepathDir (filepathJoin [input.LocalDirectory,
                input.Bucket, key])) 509 none, S3Event.Create (filepathJoin [input.LocalDirectory,
                input.Bucket, key]) fd none, S3Event.Download fd ⟨input.Bucket, key⟩ n none],
                .run rest .mkdir (results ++ [localPath input key]), by simp, ?_,
                by simp [S3Event.isObjectCall], by simp, by simp, by simp, by simp⟩
              simp [s3Run, s3Step, hkey, localPath]
            | ret u =>
              dsimp only
              refine ⟨[S3Event.MkdirAll (filepathDir (filepathJoin [input.LocalDirectory,
                input.Bucket, key])) 509 none, S3Event.Create (filepathJoin [input.LocalDirectory,
                input.Bucket, key]) fd none, S3Event.Download fd ⟨input.Bucket, key⟩ n none],
                .run rest .mkdir (results ++ [localPath input key]), by simp, ?_,
                by simp [S3Event.isObjectCall], by simp, by simp, by simp, by simp⟩
              simp [s3Run, s3Step, hkey, localPath]

/-- The calls of the loop over the objects of a page are in order. -/
theorem downloadObjects_core (input : S3DownloaderInput) : ∀ (objs : List S3Object)
    (results : List String) (tr : List S3Event),
    ∃ evs p,
      (downloadObjects input objs results tr).2 = tr ++ evs ∧
      s3Run input (.run objs .mkdir results) evs = some p ∧
      (∀ ev ∈ evs, ev.isObjectCall = true) ∧
      (∀ dl, (downloadObjects input objs results tr).1 = .ret (.ok dl) →
        p = .run [] .mkdir dl) ∧
      (∀ e, (downloadObjects input objs results tr).1 = .ret (.error e) → p = .failed e) ∧
      (∀ e, p = .failed e → (downloadObjects input objs results tr).1 = .ret (.error e)) ∧
      p ≠ .dead := by
  intro objs
  induction objs with
  | nil =>
    intro results tr
    exact ⟨[], _, by simp [downloadObjects], rfl, by simp, by simp [downloadObjects],
      by simp [downloadObjects], by simp, by simp⟩
  | cons o rest ih =>
    intro results tr
    have hunf : downloadObjects input (o :: rest) results tr =
        match o.Key with
        | none => (.panic nilDeref, tr)
        | some key =>
          match downloadToFile input.Downloader input.LocalDirectory input.Bucket key
              input.Filesystem input.Logger tr with
          | (.panic msg, tr1) => (.panic msg, tr1)
          | (.ret (_, some err), tr1) =>
            (.ret (.error (ErrorfW "failed to download object: " err "")), tr1)
          | (.ret (_, none), tr1) =>
            downloadObjects input rest
              (results ++ [filepathJoin [input.LocalDirectory, input.Bucket, key]]) tr1 := rfl
    rw [hunf]
    cases hkey : o.Key with
    | none =>
      exact ⟨[], _, by simp, rfl, by simp, by simp, by simp, by simp, by simp⟩
    | some key =>
      dsimp only
      obtain ⟨evs1, p1, a1, a2, a3, a4, a5, a6, a7⟩ :=
        downloadToFile_core input key o rest results tr hkey
      rcases hd : downloadToFile input.Downloader input.LocalDirectory input.Bucket key
        input.Filesystem input.Logger tr with ⟨out1, tr1⟩
      rw [hd] at a1 a4 a5 a6
      dsimp only at a1 a4 a5 a6
      subst a1
      cases out1 with
      | panic msg =>
        dsimp only
        refine ⟨evs1, p1, rfl, a2, a3, by simp, by simp, ?_, a7⟩
        intro e he
        obtain ⟨n, e0, h, _⟩ := a6 e he
        simp at h
      | ret r =>
        obtain ⟨n, err⟩ := r
        cases err with
        | some e1 =>
          dsimp only
          have hp := a5 n e1 rfl
          refine ⟨evs1, p1, rfl, a2, a3, by simp, ?_, ?_, a7⟩
          · intro e he
            simp only [Outcome.ret.injEq, Except.error.injEq] at he
            rw [hp, he]
          · intro e he
            rw [hp] at he
            simp only [S3Phase.failed.injEq] at he
            rw [he]
        | none =>
          dsimp only
          have hp := a4 n rfl
          obtain ⟨evs2, p2, b1, b2, b3, b4, b5, b6, b7⟩ :=
            ih (results ++ [filepathJoin [input.LocalDirectory, input.Bucket, key]]) (tr ++ evs1)
          refine ⟨evs1 ++ evs2, p2, by rw [b1, List.append_assoc], ?_, ?_, b4, b5, b6, b7⟩
          · rw [s3Run_append, a2, hp]
            exact b2
          · intro ev hev
            rcases List.mem_append.1 hev with h | h
            · exact a3 ev h
            · exact b3 ev h

/-- The calls of the page loop are in order, and the phase they lead to matches what the
loop returns. -/
theorem DownloadLoop_core (input : S3DownloaderInput) (pager : IListObjectsV2Pager) :
    ∀ (fuel : Nat) (results : List String) (tr : List S3Event),
    ∃ evs p,
      (DownloadLoop input pager fuel results tr).2 = tr ++ evs ∧
      s3Run input (.run [] .mkdir results) evs = some p ∧
      (∀ res, (DownloadLoop input pager fuel results tr).1 = some (.ret (res, none)) →
        ∃ rs, res = some rs ∧ p = .run [] .mkdir rs) ∧
      (∀ res e, (DownloadLoop input pager fuel results tr).1 = some (.ret (res, some e)) →
        res = none ∧ p = .failed e) ∧
      (∀ e, p = .failed e →
        (DownloadLoop input pager fuel results tr).1 = some (.ret (none, some e))) := by
  intro fuel
  induction fuel with
  | zero =>
    intro results tr
    simp only [DownloadLoop]
    split_ifs with hmore
    · exact ⟨[], _, by simp, rfl, by simp, by simp, by simp⟩
    · exact ⟨[], _, by simp, rfl, by simp, by simp, by simp⟩
  | succ fuel ih =>
    intro results tr
    simp only [DownloadLoop]
    split_ifs with hmore
    · rcases hn : pager.NextPage tr with ⟨page, perr⟩
      dsimp only
      cases perr with
      | some err =>
        dsimp only
        refine ⟨[S3Event.NextPage page (some err)],
          .failed (ErrorfW "failed to list objects: " err ""), rfl, ?_, by simp, ?_, ?_⟩
        · simp only [s3Run]
          cases page <;> rfl
        · intro res e h
          simp only [Option.some.injEq, Outcome.ret.injEq, Prod.mk.injEq] at h
          exact ⟨h.1.symm, by rw [← h.2]⟩
        · intro e h
          simp only [S3Phase.failed.injEq] at h
          rw [h]
      | none =>
        dsimp only
        cases page with
        | none =>
          dsimp only
          exact ⟨[S3Event.NextPage none none], .dead, rfl, rfl, by simp, by simp, by simp⟩
        | some pg =>
          dsimp only
          obtain ⟨evs1, p1, a1, a2, a3, a4, a5, a6, a7⟩ :=
            downloadObjects_core input pg.Contents results
              (tr ++ [S3Event.NextPage (some pg) none])
          rcases hd : downloadObjects input pg.Contents results
            (tr ++ [S3Event.NextPage (some pg) none]) with ⟨out1, tr1⟩
          rw [hd] at a1 a4 a5 a6
          dsimp only at a1 a4 a5 a6
          subst a1
          have hrun : s3Run input (.run [] .mkdir results)
              (S3Event.NextPage (some pg) none :: evs1) = some p1 := by
            simp only [s3Run, s3Step]
            exact a2
          cases out1 with
          | panic msg =>
            dsimp only
            refine ⟨S3Event.NextPage (some pg) none :: evs1, p1, by simp, hrun, by simp,
              by simp, ?_⟩
            intro e he
            have := a6 e he
            simp at this
          | ret r =>
            cases r with
            | error e1 =>
              dsimp only
              have hp := a5 e1 rfl
              refine ⟨S3Event.NextPage (some pg) none :: evs1, p1, by simp, hrun, by simp,
                ?_, ?_⟩
              · intro res e h
                simp only [Option.some.injEq, Outcome.ret.injEq, Prod.mk.injEq] at h
                exact ⟨h.1.symm, by rw [hp, h.2]⟩
              · intro e he
                rw [hp] at he
                simp only [S3Phase.failed.injEq] at he
                rw [he]
            | ok dl =>
              dsimp only
              have hp := a4 dl rfl
              obtain ⟨evs2, p2, b1, b2, b3, b4, b5⟩ :=
                ih dl (tr ++ [S3Event.NextPage (some pg) none] ++ evs1)
              refine ⟨S3Event.NextPage (some pg) none :: (evs1 ++ evs2), p2, ?_, ?_, b3, b4, b5⟩
              · rw [b1]
                simp
              · rw [← List.cons_append, s3Run_append, hrun, hp]
                exact b2
    · exact ⟨[], _, by simp, rfl, by simp, by simp, by simp⟩

/-- The calls of `Download` are in order, and the phase they lead to matches what it
returns. -/
theorem Download_core (input : S3DownloaderInput) (fuel : Nat) (tr : List S3Event) :
    ∃ evs p,
      (S3Downloader.Download input fuel tr).2 = tr ++ evs ∧
      s3Run input (.run [] .mkdir []) evs = some p ∧
      (∀ res, (S3Downloader.Download input fuel tr).1 = some (.ret (res, none)) →
        ∃ rs, res = some rs ∧ p = .run [] .mkdir rs) ∧
      (∀ res e, (S3Downloader.Download input fuel tr).1 = some (.ret (res, some e)) →
        res = none ∧ p = .failed e) ∧
      (∀ e, p = .failed e →
        (S3Downloader.Download input fuel tr).1 = some (.ret (none, some e))) := by
  unfold S3Downloader.Download
  cases input.Pager with
  | none => exact ⟨[], _, by simp, rfl, by simp, by simp, by simp⟩
  | some pager => exact DownloadLoop_core input pager fuel [] tr

/-! ## Properties of the order of the calls -/

theorem s3Run_failed (input : S3DownloaderInput) (e : GoError) (evs : List S3Event)
    (p : S3Phase) (h : s3Run input (.failed e) evs = some p) : evs = [] ∧ p = .failed e := by
  cases evs with
  | nil =>
    simp only [s3Run, Option.some.injEq] at h
    exact ⟨rfl, h.symm⟩
  | cons ev rest => simp [s3Run, s3Step] at h

theorem s3Run_dead (input : S3DownloaderInput) (evs : List S3Event)
    (p : S3Phase) (h : s3Run input .dead evs = some p) : evs = [] ∧ p = .dead := by
  cases evs with
  | nil =>
    simp only [s3Run, Option.some.injEq] at h
    exact ⟨rfl, h.symm⟩
  | cons ev rest => simp [s3Run, s3Step] at h

/-- A call is answered with an error exactly when it leads to the phase `failed`. -/
theorem s3Step_failed (input : S3DownloaderInput) (p q : S3Phase) (ev : S3Event)
    (h : s3Step input p ev = some q) : ev.failed = true ↔ ∃ e, q = .failed e := by
  cases p with
  | failed e => simp [s3Step] at h
  | dead => simp [s3Step] at h
  | run pending stage results =>
    cases pending with
    | nil =>
      cases stage <;> cases ev <;> simp only [s3Step] at h <;>
        rename_i a b <;> cases a <;> cases b <;> simp only [s3Step, reduceCtorEq] at h <;>
        simp only [Option.some.injEq] at h <;> subst h <;> simp [S3Event.failed]
    | cons o rest =>
      cases ev with
      | NextPage out err => cases stage <;> simp [s3Step] at h
      | MkdirAll name perm err =>
        cases stage <;> simp only [s3Step, reduceCtorEq] at h
        split_ifs at h
        cases err <;> simp only [Option.some.injEq] at h <;> subst h <;> simp [S3Event.failed]
      | Create name fd err =>
        cases stage <;> simp only [s3Step, reduceCtorEq] at h
        split_ifs at h
        cases err <;> simp only [Option.some.injEq] at h <;> subst h <;> simp [S3Event.failed]
      | Download w inp n err =>
        cases stage <;> simp only [s3Step, reduceCtorEq] at h
        split_ifs at h
        cases err <;> simp only [Option.some.injEq] at h <;> subst h <;> simp [S3Event.failed]

/-- After a call that is answered with an error no further call is made. -/
theorem s3Run_stop (input : S3DownloaderInput) (p q : S3Phase) (pre post : List S3Event)
    (ev : S3Event) (h : s3Run input p (pre ++ ev :: post) = some q) (hf : ev.failed = true) :
    post = [] ∧ ∃ e, q = .failed e := by
  rw [s3Run_append] at h
  cases h1 : s3Run input p pre with
  | none => rw [h1] at h; simp at h
  | some p1 =>
    rw [h1] at h
    simp only [Option.some_bind, s3Run] at h
    cases h2 : s3Step input p1 ev with
    | none => rw [h2] at h; simp at h
    | some p2 =>
      rw [h2] at h
      dsimp only at h
      obtain ⟨e, he⟩ := (s3Step_failed input p1 p2 ev h2).1 hf
      subst he
      obtain ⟨hpost, hq⟩ := s3Run_failed input e post q h
      exact ⟨hpost, e, hq⟩

/-- A run that ends in the phase `failed` ends with the one call that was answered with
an error. -/
theorem s3Run_to_failed (input : S3DownloaderInput) (e : GoError) : ∀ (evs : List S3Event)
    (pending : List S3Object) (stage : Stage) (results : List String),
    s3Run input (.run pending stage results) evs = some (.failed e) →
    ∃ pre ev, evs = pre ++ [ev] ∧ ev.failed = true ∧ (∀ x ∈ pre, x.failed = false) ∧
      ∃ p, s3Run input (.run pending stage results) pre = some p ∧
        s3Step input p ev = some (.failed e) := by
  intro evs
  induction evs with
  | nil => intro pending stage results h; simp [s3Run] at h
  | cons ev rest ih =>
    intro pending stage results h
    simp only [s3Run] at h
    cases h2 : s3Step input (.run pending stage results) ev with
    | none => rw [h2] at h; simp at h
    | some p2 =>
      rw [h2] at h
      dsimp only at h
      cases p2 with
      | failed e2 =>
        obtain ⟨hrest, he⟩ := s3Run_failed input e2 rest _ h
        simp only [S3Phase.failed.injEq] at he
        subst hrest
        subst he
        exact ⟨[], ev, rfl, (s3Step_failed input _ _ ev h2).2 ⟨_, rfl⟩, by simp, _, rfl, h2⟩
      | dead =>
        obtain ⟨_, he⟩ := s3Run_dead input rest _ h
        simp at he
      | run pending2 stage2 results2 =>
        obtain ⟨pre, ev2, hsplit, hf, hpre, p, hp, hstep⟩ := ih pending2 stage2 results2 h
        refine ⟨ev :: pre, ev2, by rw [hsplit]; rfl, hf, ?_, p, ?_, hstep⟩
        · intro x hx
          rcases List.mem_cons.1 hx with hx1 | hx1
          · subst hx1
            cases hfx : x.failed with
            | false => rfl
            | true =>
              obtain ⟨e3, he3⟩ := (s3Step_failed input _ _ x h2).1 hfx
              simp at he3
          · exact hpre x hx1
        · simp only [s3Run, h2]
          exact hp

/-- The error of a run after a failed `MkdirAll` or `Create`. -/
theorem s3Step_fs_error (input : S3DownloaderInput) (p : S3Phase) (ev : S3Event)
    (e err : GoError)
    (h : s3Step input p ev = some (.failed err)) :
    (∀ name perm, ev = .MkdirAll name perm (some e) →
      err = objectError "failed to create directories for file: " e) ∧
    (∀ name fd, ev = .Create name fd (some e) →
      err = objectError "failed to create file: " e) := by
  constructor
  · intro name perm hev
    subst hev
    cases p with
    | failed e => simp [s3Step] at h
    | dead => simp [s3Step] at h
    | run pending stage results =>
      cases pending <;> cases stage <;> simp only [s3Step, reduceCtorEq] at h
      split_ifs at h
      simp only [Option.some.injEq, S3Phase.failed.injEq] at h
      exact h.symm
  · intro name fd hev
    subst hev
    cases p with
    | failed e => simp [s3Step] at h
    | dead => simp [s3Step] at h
    | run pending stage results =>
      cases pending <;> cases stage <;> simp only [s3Step, reduceCtorEq] at h
      split_ifs at h
      simp only [Option.some.injEq, S3Phase.failed.injEq] at h
      exact h.symm

theorem objectError_Error (pre : String) (e : GoError) :
    (objectError pre e).Error = "failed to download object: " ++ pre ++ e.Error := by
  simp [objectError, ErrorfW, GoError.Error, String.append_assoc]

/-! ## `Download`: errors (C16, C17) -/

/-- C16: whenever `Download` returns a non-nil error, the result list is nil and the last
call of the run is the one call that was answered with an error (a listing page or a call
for an object); and as soon as a call of the run is answered with an error, no further
call is made and `Download` returns a nil list with a non-nil error. The runs of the tests
`TestDownloaderDownloadPagerError` and `TestErrorDownloadingObjects` are instances. -/
theorem Download_error_nil_results (input : S3DownloaderInput) (fuel : Nat)
    (tr : List S3Event) :
    (∀ res e, (S3Downloader.Download input fuel tr).1 = some (.ret (res, some e)) →
      res = none ∧
      ∃ pre ev, (S3Downloader.Download input fuel tr).2 = tr ++ pre ++ [ev] ∧
        ev.failed = true ∧ ∀ x ∈ pre, x.failed = false) ∧
    (∀ pre ev post, (S3Downloader.Download input fuel tr).2 = tr ++ pre ++ ev :: post →
      ev.failed = true →
      post = [] ∧ ∃ e, (S3Downloader.Download input fuel tr).1 = some (.ret (none, some e))) ∧
    (S3Downloader.Download { testInput with Pager := some failingPager } 1 []).1
      = some (.ret (none, some (ErrorfW "failed to list objects: "
          (Errorf "error getting next page") ""))) ∧
    (S3Downloader.Download testInputTransferError 1 []).1
      = some (.ret (none, some (objectError "failed to download file: "
          (Errorf "object not found")))) := by
  obtain ⟨evs, p, h1, h2, _, h4, h5⟩ := Download_core input fuel tr
  refine ⟨?_, ?_, by decide, by decide⟩
  · intro res e h
    obtain ⟨hres, hp⟩ := h4 res e h
    subst hp
    obtain ⟨pre, ev, hsplit, hf, hpre, _⟩ := s3Run_to_failed input e evs [] .mkdir [] h2
    exact ⟨hres, pre, ev, by rw [h1, hsplit, List.append_assoc], hf, hpre⟩
  · intro pre ev post htr hf
    rw [h1, List.append_assoc] at htr
    have hevs : evs = pre ++ ev :: post := List.append_cancel_left htr
    rw [hevs] at h2
    obtain ⟨hpost, e, he⟩ := s3Run_stop input _ p pre post ev h2 hf
    exact ⟨hpost, e, h5 e he⟩

/-- C17: when `MkdirAll` or `Create` fails for an object with the cause `e`, that call is
the last call of the run (no file is created after a failed `MkdirAll`, and no transfer is
attempted), and `Download` returns a nil list and an error whose message is
`"failed to download object: failed to create directories for file: " + e`, respectively
`"failed to download object: failed to create file: " + e`. The runs of the tests
`TestDownloadErrorMkdir` and `TestDownloadErrorFsCreate` are instances. -/
theorem Download_fs_error (input : S3DownloaderInput) (fuel : Nat) (tr : List S3Event)
    (e : GoError) :
    (∀ pre post name perm,
      (S3Downloader.Download input fuel tr).2
        = tr ++ pre ++ S3Event.MkdirAll name perm (some e) :: post →
      post = [] ∧ ∃ err, (S3Downloader.Download input fuel tr).1 = some (.ret (none, some err)) ∧
        err.Error
          = "failed to download object: failed to create directories for file: " ++ e.Error) ∧
    (∀ pre post name fd,
      (S3Downloader.Download input fuel tr).2
        = tr ++ pre ++ S3Event.Create name fd (some e) :: post →
      post = [] ∧ ∃ err, (S3Downloader.Download input fuel tr).1 = some (.ret (none, some err)) ∧
        err.Error = "failed to download object: failed to create file: " ++ e.Error) ∧
    (∃ err, S3Downloader.Download testInputMkdirError 1 []
        = (some (.ret (none, some err)),
           [S3Event.NextPage (some testPage) none,
            S3Event.MkdirAll "testdata/test-bucket" 509
              (some (Errorf "error creating directory"))]) ∧
      err.Error = "failed to download object: failed to create directories for file: "
        ++ "error creating directory") ∧
    (∃ err, S3Downloader.Download testInputCreateError 1 []
        = (some (.ret (none, some err)),
           [S3Event.NextPage (some testPage) none,
            S3Event.MkdirAll "testdata/test-bucket" 509 none,
            S3Event.Create "testdata/test-bucket/test-key" none
              (some (Errorf "permission error"))]) ∧
      err.Error = "failed to download object: failed to create file: permission error") := by
  obtain ⟨evs, p, h1, h2, _, _, h5⟩ := Download_core input fuel tr
  have key : ∀ pre post ev, (S3Downloader.Download input fuel tr).2 = tr ++ pre ++ ev :: post →
      ev.failed = true → post = [] ∧ ∃ err p1,
        (S3Downloader.Download input fuel tr).1 = some (.ret (none, some err)) ∧
        s3Step input p1 ev = some (.failed err) := by
    intro pre post ev htr hf
    rw [h1, List.append_assoc] at htr
    have hevs : evs = pre ++ ev :: post := List.append_cancel_left htr
    rw [hevs] at h2
    obtain ⟨hpost, err, he⟩ := s3Run_stop input _ p pre post ev h2 hf
    subst hpost
    subst he
    obtain ⟨pre2, ev2, hsplit, _, _, p1, _, hstep⟩ :=
      s3Run_to_failed input err (pre ++ [ev]) [] .mkdir [] h2
    have hev : ev2 = ev := by
      have h3 : ∀ (l : List S3Event) (a : S3Event), (l ++ [a]).getLast? = some a :=
        fun l a => List.getLast?_concat l
      have := congrArg List.getLast? hsplit
      rw [h3, h3, Option.some.injEq] at this
      exact this.symm
    subst hev
    exact ⟨rfl, err, p1, h5 err rfl, hstep⟩
  refine ⟨?_, ?_,
    ⟨objectError "failed to create directories for file: " (Errorf "error creating directory"),
      by decide, by decide⟩,
    ⟨objectError "failed to create file: " (Errorf "permission error"), by decide, by decide⟩⟩
  · intro pre post name perm htr
    obtain ⟨hpost, err, p1, hout, hstep⟩ := key pre post _ htr rfl
    refine ⟨hpost, err, hout, ?_⟩
    rw [(s3Step_fs_error input p1 _ e err hstep).1 name perm rfl, objectError_Error]
    congr 1
  · intro pre post name fd htr
    obtain ⟨hpost, err, p1, hout, hstep⟩ := key pre post _ htr rfl
    refine ⟨hpost, err, hout, ?_⟩
    rw [(s3Step_fs_error input p1 _ e err hstep).2 name fd rfl, objectError_Error]
    congr 1

/-! ## `Download`: the paths of a successful run -/

theorem s3Run_not_run_of_failed (input : S3DownloaderInput) (q : S3Phase) (evs : List S3Event)
    (pending : List S3Object) (stage : Stage) (results : List String)
    (h : s3Run input q evs = some (.run pending stage results)) :
    (∀ e, q ≠ .failed e) ∧ q ≠ .dead := by
  constructor
  · intro e he
    subst he
    have := (s3Run_failed input e evs _ h).2
    simp at this
  · intro he
    subst he
    have := (s3Run_dead input evs _ h).2
    simp at this

/-- In a run that ends with no object pending, every listed object had a key and the
paths collected are the local paths of the listed objects, in the order of the listing. -/
theorem s3Run_results (input : S3DownloaderInput) : ∀ (evs : List S3Event)
    (pending : List S3Object) (stage : Stage) (results : List String) (stage2 : Stage)
    (results2 : List String),
    s3Run input (.run pending stage results) evs = some (.run [] stage2 results2) →
    (∀ o ∈ pending ++ listed evs, o.Key ≠ none) ∧
    results2 = results ++ (pending ++ listed evs).filterMap
      (fun o => o.Key.map (localPath input)) := by
  intro evs
  induction evs with
  | nil =>
    intro pending stage results stage2 results2 h
    simp only [s3Run, Option.some.injEq, S3Phase.run.injEq] at h
    obtain ⟨h1, _, h3⟩ := h
    subst h1
    subst h3
    simp [listed]
  | cons ev rest ih =>
    intro pending stage results stage2 results2 h
    simp only [s3Run] at h
    cases h2 : s3Step input (.run pending stage results) ev with
    | none => rw [h2] at h; simp at h
    | some q =>
      rw [h2] at h
      dsimp only at h
      obtain ⟨hnf, hnd⟩ := s3Run_not_run_of_failed input q rest [] stage2 results2 h
      cases ev with
      | NextPage out err =>
        cases pending with
        | cons o r => cases stage <;> simp [s3Step] at h2
        | nil =>
          cases stage with
          | create => simp [s3Step] at h2
          | transfer => simp [s3Step] at h2
          | mkdir =>
            cases err with
            | some e =>
              cases out <;> simp only [s3Step, Option.some.injEq] at h2 <;>
                exact (hnf _ h2.symm).elim
            | none =>
              cases out with
              | none =>
                simp only [s3Step, Option.some.injEq] at h2
                exact (hnd h2.symm).elim
              | some page =>
                simp only [s3Step, Option.some.injEq] at h2
                subst h2
                have := ih page.Contents .mkdir results stage2 results2 h
                simpa [listed] using this
      | MkdirAll name perm err =>
        cases pending with
        | nil => cases stage <;> simp [s3Step] at h2
        | cons o r =>
          cases stage <;> simp only [s3Step, reduceCtorEq] at h2
          split_ifs at h2
          cases err with
          | some e =>
            simp only [Option.some.injEq] at h2
            exact (hnf _ h2.symm).elim
          | none =>
            simp only [Option.some.injEq] at h2
            subst h2
            have := ih (o :: r) .create results stage2 results2 h
            simpa [listed] using this
      | Create name fd err =>
        cases pending with
        | nil => cases stage <;> simp [s3Step] at h2
        | cons o r =>
          cases stage <;> simp only [s3Step, reduceCtorEq] at h2
          split_ifs at h2
          cases err with
          | some e =>
            simp only [Option.some.injEq] at h2
            exact (hnf _ h2.symm).elim
          | none =>
            simp only [Option.some.injEq] at h2
            subst h2
            have := ih (o :: r) .transfer results stage2 results2 h
            simpa [listed] using this
      | Download w inp n err =>
        cases pending with
        | nil => cases stage <;> simp [s3Step] at h2
        | cons o r =>
          cases stage <;> simp only [s3Step, reduceCtorEq] at h2
          split_ifs at h2 with hk
          cases err with
          | some e =>
            simp only [Option.some.injEq] at h2
            exact (hnf _ h2.symm).elim
          | none =>
            simp only [Option.some.injEq] at h2
            subst h2
            obtain ⟨a, b⟩ := ih r .mkdir (results ++ [localPath input inp.Key]) stage2 results2 h
            refine ⟨?_, ?_⟩
            · intro o2 ho2
              simp only [listed, List.cons_append, List.mem_cons] at ho2
              rcases ho2 with h3 | h3
              · subst h3
                rw [hk.1]
                simp
              · exact a o2 h3
            · rw [b]
              simp [listed, hk.1]

/-- When no object is listed, no call is made for an object. -/
theorem s3Run_no_objects (input : S3DownloaderInput) : ∀ (evs : List S3Event)
    (results : List String) (stage2 : Stage) (results2 : List String),
    s3Run input (.run [] .mkdir results) evs = some (.run [] stage2 results2) →
    listed evs = [] → ∀ ev ∈ evs, ev.isObjectCall = false := by
  intro evs
  induction evs with
  | nil => intro _ _ _ _ _ ev hev; cases hev
  | cons ev rest ih =>
    intro results stage2 results2 h hl
    simp only [s3Run] at h
    cases h2 : s3Step input (.run [] .mkdir results) ev with
    | none => rw [h2] at h; simp at h
    | some q =>
      rw [h2] at h
      dsimp only at h
      obtain ⟨hnf, hnd⟩ := s3Run_not_run_of_failed input q rest [] stage2 results2 h
      cases ev with
      | MkdirAll name perm err => simp [s3Step] at h2
      | Create name fd err => simp [s3Step] at h2
      | Download w inp n err => simp [s3Step] at h2
      | NextPage out err =>
        cases err with
        | some e =>
          cases out <;> simp only [s3Step, Option.some.injEq] at h2 <;>
            exact (hnf _ h2.symm).elim
        | none =>
          cases out with
          | none =>
            simp only [s3Step, Option.some.injEq] at h2
            exact (hnd h2.symm).elim
          | some page =>
            simp only [s3Step, Option.some.injEq] at h2
            subst h2
            simp only [listed, List.append_eq_nil] at hl
            rw [hl.1] at h
            intro ev hev
            rcases List.mem_cons.1 hev with h3 | h3
            · subst h3; rfl
            · exact ih results stage2 results2 h hl.2 ev h3

/-! ## `Download`: runs that return -/

theorem pageNum_append (a b : List S3Event) : pageNum (a ++ b) = pageNum a + pageNum b := by
  induction a with
  | nil => simp [pageNum]
  | cons e es ih =>
    rw [List.cons_append]
    cases e with
    | NextPage out err =>
      cases out <;> cases err <;> simp only [pageNum] <;> rw [ih]
      omega
    | MkdirAll name perm err => simp only [pageNum]; rw [ih]
    | Create name fd err => simp only [pageNum]; rw [ih]
    | Download w inp n err => simp only [pageNum]; rw [ih]

theorem pageNum_objectCalls (evs : List S3Event) (h : ∀ ev ∈ evs, ev.isObjectCall = true) :
    pageNum evs = 0 := by
  induction evs with
  | nil => rfl
  | cons e es ih =>
    have he := h e (List.mem_cons_self _ _)
    have := ih (fun ev hev => h ev (List.mem_cons_of_mem _ hev))
    cases e with
    | NextPage out err => simp [S3Event.isObjectCall] at he
    | MkdirAll name perm err => simpa [pageNum] using this
    | Create name fd err => simpa [pageNum] using this
    | Download w inp n err => simpa [pageNum] using this

/-- The loop over the objects of a page runs to its end when every object has a key and
its download succeeds. -/
theorem downloadObjects_ok (input : S3DownloaderInput) : ∀ (objs : List S3Object)
    (results : List String) (tr : List S3Event),
    (∀ o ∈ objs, ∃ key, o.Key = some key ∧ ∀ h, ∃ m,
      (downloadToFile input.Downloader input.LocalDirectory input.Bucket key input.Filesystem
        input.Logger h).1 = .ret (m, none)) →
    ∃ dl, (downloadObjects input objs results tr).1 = .ret (.ok dl) := by
  intro objs
  induction objs with
  | nil => intro results tr _; exact ⟨results, rfl⟩
  | cons o rest ih =>
    intro results tr hobjs
    obtain ⟨key, hkey, hdl⟩ := hobjs o (List.mem_cons_self _ _)
    obtain ⟨m, hm⟩ := hdl tr
    have hunf : downloadObjects input (o :: rest) results tr =
        match o.Key with
        | none => (.panic nilDeref, tr)
        | some key =>
          match downloadToFile input.Downloader input.LocalDirectory input.Bucket key
              input.Filesystem input.Logger tr with
          | (.panic msg, tr1) => (.panic msg, tr1)
          | (.ret (_, some err), tr1) =>
            (.ret (.error (ErrorfW "failed to download object: " err "")), tr1)
          | (.ret (_, none), tr1) =>
            downloadObjects input rest
              (results ++ [filepathJoin [input.LocalDirectory, input.Bucket, key]]) tr1 := rfl
    rw [hunf, hkey]
    dsimp only
    rcases hd : downloadToFile input.Downloader input.LocalDirectory input.Bucket key
      input.Filesystem input.Logger tr with ⟨out1, tr1⟩
    rw [hd] at hm
    dsimp only at hm
    subst hm
    dsimp only
    exact ih _ tr1 (fun o2 h2 => hobjs o2 (List.mem_cons_of_mem _ h2))

/-- With a pager of `n` pages whose listings succeed, and when every listed object has a
key and its download succeeds, the page loop returns a nil error after at most `n`
pages. -/
theorem DownloadLoop_ok (input : S3DownloaderInput) (pager : IListObjectsV2Pager)
    (tr : List S3Event) (n : Nat)
    (hmore : ∀ evs, pager.HasMorePages (tr ++ evs) = decide (pageNum evs < n))
    (hnext : ∀ evs, pageNum evs < n → ∃ page, pager.NextPage (tr ++ evs) = (some page, none) ∧
      ∀ o ∈ page.Contents, ∃ key, o.Key = some key ∧ ∀ h, ∃ m,
        (downloadToFile input.Downloader input.LocalDirectory input.Bucket key input.Filesystem
          input.Logger h).1 = .ret (m, none)) :
    ∀ (fuel : Nat) (evs : List S3Event) (results : List String), n ≤ pageNum evs + fuel →
    ∃ res, (DownloadLoop input pager fuel results (tr ++ evs)).1
      = some (.ret (some res, none)) := by
  intro fuel
  induction fuel with
  | zero =>
    intro evs results hn
    simp only [DownloadLoop, hmore]
    rw [if_neg (by simp; omega)]
    exact ⟨results, rfl⟩
  | succ fuel ih =>
    intro evs results hn
    simp only [DownloadLoop, hmore]
    split_ifs with hlt
    · have hlt2 : pageNum evs < n := by simpa using hlt
      obtain ⟨page, hpage, hobjs⟩ := hnext evs hlt2
      rw [hpage]
      dsimp only
      obtain ⟨dl, hdl⟩ := downloadObjects_ok input page.Contents results
        (tr ++ evs ++ [S3Event.NextPage (some page) none]) hobjs
      obtain ⟨evs1, p1, a1, _, a3, _⟩ := downloadObjects_core input page.Contents results
        (tr ++ evs ++ [S3Event.NextPage (some page) none])
      rcases hd : downloadObjects input page.Contents results
        (tr ++ evs ++ [S3Event.NextPage (some page) none]) with ⟨out1, tr1⟩
      rw [hd] at hdl a1
      dsimp only at hdl a1
      subst hdl
      subst a1
      dsimp only
      have := ih (evs ++ [S3Event.NextPage (some page) none] ++ evs1) dl (by
        rw [pageNum_append, pageNum_append, pageNum_objectCalls evs1 a3]
        simp only [pageNum]
        omega)
      rw [← List.append_assoc, ← List.append_assoc] at this
      exact this
    · exact ⟨results, rfl⟩

/-! ## `Download`: the trace records the answers of the pager -/

theorem pagesRecorded_append (pager : IListObjectsV2Pager) (a b : List S3Event) : ∀ h,
    pagesRecorded pager h (a ++ b)
      = (pagesRecorded pager h a && pagesRecorded pager (h ++ a) b) := by
  induction a with
  | nil => intro h; simp [pagesRecorded]
  | cons e es ih =>
    intro h
    rw [List.cons_append]
    have hassoc : h ++ [e] ++ es = h ++ e :: es := by simp
    cases e with
    | NextPage out err =>
      simp only [pagesRecorded]
      rw [ih, hassoc]
      simp only [Bool.and_assoc]
    | MkdirAll name perm err =>
      simp only [pagesRecorded]
      rw [ih, hassoc]
    | Create name fd err =>
      simp only [pagesRecorded]
      rw [ih, hassoc]
    | Download w inp n err =>
      simp only [pagesRecorded]
      rw [ih, hassoc]

theorem pagesRecorded_objectCalls (pager : IListObjectsV2Pager) (evs : List S3Event) :
    ∀ h, (∀ ev ∈ evs, ev.isObjectCall = true) → pagesRecorded pager h evs = true := by
  induction evs with
  | nil => intro h _; rfl
  | cons e es ih =>
    intro h hall
    have he := hall e (List.mem_cons_self _ _)
    have := ih (h ++ [e]) (fun ev hev => hall ev (List.mem_cons_of_mem _ hev))
    cases e with
    | NextPage out err => simp [S3Event.isObjectCall] at he
    | MkdirAll name perm err => simpa [pagesRecorded] using this
    | Create name fd err => simpa [pagesRecorded] using this
    | Download w inp n err => simpa [pagesRecorded] using this

/-- Every page of the trace of the page loop is what the pager answered. -/
theorem DownloadLoop_pages (input : S3DownloaderInput) (pager : IListObjectsV2Pager) :
    ∀ (fuel : Nat) (results : List String) (tr : List S3Event),
    ∃ evs, (DownloadLoop input pager fuel results tr).2 = tr ++ evs ∧
      pagesRecorded pager tr evs = true := by
  intro fuel
  induction fuel with
  | zero =>
    intro results tr
    simp only [DownloadLoop]
    split_ifs <;> exact ⟨[], by simp, rfl⟩
  | succ fuel ih =>
    intro results tr
    simp only [DownloadLoop]
    split_ifs with hmore
    · rcases hn : pager.NextPage tr with ⟨page, perr⟩
      dsimp only
      have hrec : pagesRecorded pager tr [S3Event.NextPage page perr] = true := by
        simp [pagesRecorded, hmore, hn]
      cases perr with
      | some err => exact ⟨[S3Event.NextPage page (some err)], rfl, hrec⟩
      | none =>
        dsimp only
        cases page with
        | none => exact ⟨[S3Event.NextPage none none], rfl, hrec⟩
        | some pg =>
          dsimp only
          obtain ⟨evs1, p1, a1, _, a3, _⟩ := downloadObjects_core input pg.Contents results
            (tr ++ [S3Event.NextPage (some pg) none])
          rcases hd : downloadObjects input pg.Contents results
            (tr ++ [S3Event.NextPage (some pg) none]) with ⟨out1, tr1⟩
          rw [hd] at a1
          dsimp only at a1
          subst a1
          have hrec1 : pagesRecorded pager tr ([S3Event.NextPage (some pg) none] ++ evs1)
              = true := by
            rw [pagesRecorded_append, hrec, pagesRecorded_objectCalls pager evs1 _ a3]
            rfl
          cases out1 with
          | panic msg => exact ⟨[S3Event.NextPage (some pg) none] ++ evs1, by simp, hrec1⟩
          | ret r =>
            cases r with
            | error e1 => exact ⟨[S3Event.NextPage (some pg) none] ++ evs1, by simp, hrec1⟩
            | ok dl =>
              dsimp only
              obtain ⟨evs2, b1, b2⟩ := ih dl (tr ++ [S3Event.NextPage (some pg) none] ++ evs1)
              refine ⟨[S3Event.NextPage (some pg) none] ++ evs1 ++ evs2, ?_, ?_⟩
              · rw [b1]
                simp
              · rw [pagesRecorded_append, hrec1]
                simp only [Bool.true_and]
                rw [← b2]
                simp
    · exact ⟨[], by simp, rfl⟩

/-- When every page that the pager answers is empty, no object is listed. -/
theorem listed_nil (pager : IListObjectsV2Pager) (tr : List S3Event) (n : Nat)
    (hmore : ∀ evs, pager.HasMorePages (tr ++ evs) = decide (pageNum evs < n))
    (hnext : ∀ evs, pageNum evs < n → ∃ page, pager.NextPage (tr ++ evs) = (some page, none) ∧
      page.Contents = []) :
    ∀ (evs evs0 : List S3Event), pagesRecorded pager (tr ++ evs0) evs = true →
      listed evs = [] := by
  intro evs
  induction evs with
  | nil => intro _ _; rfl
  | cons e es ih =>
    intro evs0 h
    cases e with
    | NextPage out err =>
      simp only [pagesRecorded, Bool.and_eq_true, decide_eq_true_eq] at h
      obtain ⟨⟨h1, h2⟩, h3⟩ := h
      rw [hmore] at h1
      obtain ⟨page, hp, hc⟩ := hnext evs0 (by simpa using h1)
      rw [hp] at h2
      simp only [Prod.mk.injEq] at h2
      rw [← h2.1, ← h2.2]
      simp only [listed, hc, List.nil_append]
      rw [List.append_assoc] at h3
      exact ih _ h3
    | MkdirAll name perm err =>
      simp only [pagesRecorded, List.append_assoc] at h
      simp only [listed]
      exact ih _ h
    | Create name fd err =>
      simp only [pagesRecorded, List.append_assoc] at h
      simp only [listed]
      exact ih _ h
    | Download w inp n err =>
      simp only [pagesRecorded, List.append_assoc] at h
      simp only [listed]
      exact ih _ h


/-- A page loop that returns a nil error ends when the pager reports no more pages. -/
theorem DownloadLoop_done (input : S3DownloaderInput) (pager : IListObjectsV2Pager) :
    ∀ (fuel : Nat) (results : List String) (tr : List S3Event) (rs : Option (List String)),
    (DownloadLoop input pager fuel results tr).1 = some (.ret (rs, none)) →
    pager.HasMorePages (DownloadLoop input pager fuel results tr).2 = false := by
  intro fuel
  induction fuel with
  | zero =>
    intro results tr rs
    simp only [DownloadLoop]
    split_ifs with hmore
    · intro h; simp at h
    · intro _; simpa using hmore
  | succ fuel ih =>
    intro results tr rs
    simp only [DownloadLoop]
    split_ifs with hmore
    · rcases hn : pager.NextPage tr with ⟨page, perr⟩
      dsimp only
      cases perr with
      | some err => intro h; simp at h
      | none =>
        dsimp only
        cases page with
        | none => intro h; simp at h
        | some pg =>
          dsimp only
          rcases hd : downloadObjects input pg.Contents results
            (tr ++ [S3Event.NextPage (some pg) none]) with ⟨out1, tr1⟩
          cases out1 with
          | panic msg => intro h; simp at h
          | ret r =>
            cases r with
            | error e1 => intro h; simp at h
            | ok dl =>
              dsimp only
              exact ih dl tr1 rs
    · intro _; simpa using hmore

/-- A run of `Download` that returns a nil error ends when the pager reports no more
pages. -/
theorem Download_done (input : S3DownloaderInput) (pager : IListObjectsV2Pager) (fuel : Nat)
    (tr : List S3Event) (rs : Option (List String)) (hp : input.Pager = some pager)
    (h : (S3Downloader.Download input fuel tr).1 = some (.ret (rs, none))) :
    pager.HasMorePages (S3Downloader.Download input fuel tr).2 = false := by
  unfold S3Downloader.Download at h ⊢
  rw [hp] at h ⊢
  exact DownloadLoop_done input pager fuel [] tr rs h

/-- With a pager of `n` pages, a recorded trace holds at most `n` pages. -/
theorem pageNum_le (pager : IListObjectsV2Pager) (tr : List S3Event) (n : Nat)
    (hmore : ∀ evs, pager.HasMorePages (tr ++ evs) = decide (pageNum evs < n)) :
    ∀ (evs evs0 : List S3Event), pagesRecorded pager (tr ++ evs0) evs = true →
      pageNum evs0 ≤ n → pageNum (evs0 ++ evs) ≤ n := by
  intro evs
  induction evs with
  | nil => intro evs0 _ h0; simpa using h0
  | cons e es ih =>
    intro evs0 h h0
    have hassoc : evs0 ++ e :: es = evs0 ++ [e] ++ es := by simp
    rw [hassoc]
    cases e with
    | NextPage out err =>
      simp only [pagesRecorded, Bool.and_eq_true, decide_eq_true_eq] at h
      obtain ⟨⟨h1, _⟩, h3⟩ := h
      rw [hmore] at h1
      have hlt : pageNum evs0 < n := by simpa using h1
      rw [List.append_assoc] at h3
      refine ih _ h3 ?_
      rw [pageNum_append]
      have : pageNum [S3Event.NextPage out err] ≤ 1 := by
        cases out <;> cases err <;> simp [pageNum]
      omega
    | MkdirAll name perm err =>
      simp only [pagesRecorded, List.append_assoc] at h
      exact ih _ h (by rw [pageNum_append]; simpa [pageNum] using h0)
    | Create name fd err =>
      simp only [pagesRecorded, List.append_assoc] at h
      exact ih _ h (by rw [pageNum_append]; simpa [pageNum] using h0)
    | Download w inp m err =>
      simp only [pagesRecorded, List.append_assoc] at h
      exact ih _ h (by rw [pageNum_append]; simpa [pageNum] using h0)

/-- The objects that a recorded trace of the pager of the tests lists are the objects of the
pages that it returned, in order. -/
theorem listed_mock (pages : List ListObjectsV2Output) :
    ∀ (evs h : List S3Event), pagesRecorded (mockPager pages) h evs = true →
      listed evs
        = (((pages.drop (pageNum h)).take (pageNum evs)).map (fun p => p.Contents)).flatten := by
  intro evs
  induction evs with
  | nil => intro h _; simp [listed, pageNum]
  | cons e es ih =>
    intro h hrec
    cases e with
    | NextPage out err =>
      simp only [pagesRecorded, Bool.and_eq_true, decide_eq_true_eq] at hrec
      obtain ⟨⟨h1, h2⟩, h3⟩ := hrec
      have hlt : pageNum h < pages.length := by simpa [mockPager] using h1
      have hget : pages.get? (pageNum h) = some (pages.get ⟨pageNum h, hlt⟩) :=
        List.get?_eq_get hlt
      have hnp : (mockPager pages).NextPage h = (some (pages.get ⟨pageNum h, hlt⟩), none) := by
        simp only [mockPager, hget]
      rw [hnp] at h2
      simp only [Prod.mk.injEq] at h2
      rw [← h2.1, ← h2.2] at h3 ⊢
      have := ih _ h3
      rw [pageNum_append] at this
      simp only [listed, pageNum]
      rw [this]
      have hd : pages.drop (pageNum h)
          = pages.get ⟨pageNum h, hlt⟩ :: pages.drop (pageNum h + 1) := by
        rw [List.drop_eq_getElem_cons hlt]
        rfl
      have h01 : pageNum [S3Event.NextPage (some (pages.get ⟨pageNum h, hlt⟩)) none] = 1 := rfl
      rw [h01, hd, List.take_succ_cons, List.map_cons, List.flatten_cons]
    | MkdirAll name perm err =>
      simp only [pagesRecorded] at hrec
      have := ih _ hrec
      rw [pageNum_append] at this
      simpa [listed, pageNum] using this
    | Create name fd err =>
      simp only [pagesRecorded] at hrec
      have := ih _ hrec
      rw [pageNum_append] at this
      simpa [listed, pageNum] using this
    | Download w inp m err =>
      simp only [pagesRecorded] at hrec
      have := ih _ hrec
      rw [pageNum_append] at this
      simpa [listed, pageNum] using this
/-! ## `Download`: the result of a run without error (C14, C15) -/

/-- What a run of `Download` that returns a nil error has done. -/
theorem Download_success (input : S3DownloaderInput) (fuel : Nat) (tr : List S3Event)
    (res : Option (List String))
    (h : (S3Downloader.Download input fuel tr).1 = some (.ret (res, none))) :
    ∃ evs rs, S3Downloader.Download input fuel tr = (some (.ret (some rs, none)), tr ++ evs) ∧
      res = some rs ∧
      (∀ pager, input.Pager = some pager → pagesRecorded pager tr evs = true) ∧
      (∀ o ∈ listed evs, o.Key ≠ none) ∧
      rs = (listed evs).filterMap (fun o => o.Key.map (localPath input)) ∧
      s3Run input (.run [] .mkdir []) evs = some (.run [] .mkdir rs) := by
  obtain ⟨evs, p, h1, h2, h3, _, _⟩ := Download_core input fuel tr
  obtain ⟨rs, hres, hp⟩ := h3 res h
  subst hp
  subst hres
  obtain ⟨hkeys, hrs⟩ := s3Run_results input evs [] .mkdir [] .mkdir rs h2
  refine ⟨evs, rs, Prod.ext h h1, rfl, ?_, by simpa using hkeys, by simpa using hrs, h2⟩
  intro pager hp
  unfold S3Downloader.Download at h1
  rw [hp] at h1
  dsimp only at h1
  obtain ⟨evs2, b1, b2⟩ := DownloadLoop_pages input pager fuel [] tr
  have : evs = evs2 := List.append_cancel_left (h1.symm.trans b1)
  rw [this]
  exact b2

theorem paths_length (input : S3DownloaderInput) : ∀ (l : List S3Object),
    (∀ o ∈ l, o.Key ≠ none) →
    (l.filterMap (fun o => o.Key.map (localPath input))).length = l.length := by
  intro l
  induction l with
  | nil => intro _; rfl
  | cons o os ih =>
    intro h4
    have ho := h4 o (List.mem_cons_self _ _)
    cases hk : o.Key with
    | none => exact (ho hk).elim
    | some k =>
      simp only [List.filterMap_cons, hk, Option.map_some', List.length_cons]
      rw [ih (fun o2 h2 => h4 o2 (List.mem_cons_of_mem _ h2))]

/-- C14: with a pager of `n` pages (`n = 0`: the pager reports no pages) whose listings
succeed and whose pages are all empty, `Download` returns, for every bound `fuel >= n` on
the number of pages, the empty list and a nil error, and calls neither `MkdirAll` nor
`Create` nor the download manager. -/
theorem Download_no_objects (input : S3DownloaderInput) (pager : IListObjectsV2Pager)
    (tr : List S3Event) (n fuel : Nat) (hp : input.Pager = some pager)
    (hmore : ∀ evs, pager.HasMorePages (tr ++ evs) = decide (pageNum evs < n))
    (hnext : ∀ evs, pageNum evs < n → ∃ page, pager.NextPage (tr ++ evs) = (some page, none) ∧
      page.Contents = [])
    (hfuel : n ≤ fuel) :
    ∃ evs, S3Downloader.Download input fuel tr = (some (.ret (some [], none)), tr ++ evs) ∧
      ∀ ev ∈ evs, ev.isObjectCall = false := by
  have hnext2 : ∀ evs, pageNum evs < n → ∃ page,
      pager.NextPage (tr ++ evs) = (some page, none) ∧
      ∀ o ∈ page.Contents, ∃ key, o.Key = some key ∧ ∀ h, ∃ m,
        (downloadToFile input.Downloader input.LocalDirectory input.Bucket key input.Filesystem
          input.Logger h).1 = .ret (m, none) := by
    intro evs hlt
    obtain ⟨page, h1, h2⟩ := hnext evs hlt
    refine ⟨page, h1, ?_⟩
    rw [h2]
    intro o ho
    cases ho
  obtain ⟨res, hres⟩ := DownloadLoop_ok input pager tr n hmore hnext2 fuel [] []
    (by simp only [pageNum]; omega)
  have hout : (S3Downloader.Download input fuel tr).1 = some (.ret (some res, none)) := by
    unfold S3Downloader.Download
    rw [hp]
    simpa using hres
  obtain ⟨evs, rs, h1, h2, h3, _, h5, h6⟩ := Download_success input fuel tr _ hout
  have hl : listed evs = [] := listed_nil pager tr n hmore hnext evs [] (by
    rw [List.append_nil]
    exact h3 pager hp)
  rw [hl] at h5
  simp only [List.filterMap_nil] at h5
  subst h5
  exact ⟨evs, h1, s3Run_no_objects input evs [] .mkdir [] h6 hl⟩

/-- C14, a concrete instance: the pager of the tests with two empty pages. -/
theorem Download_no_objects_witness :
    ∃ evs, S3Downloader.Download { testInput with Pager := some (mockPager [⟨[]⟩, ⟨[]⟩]) } 2 []
        = (some (.ret (some [], none)), [] ++ evs) ∧
      ∀ ev ∈ evs, ev.isObjectCall = false :=
  Download_no_objects { testInput with Pager := some (mockPager [⟨[]⟩, ⟨[]⟩]) }
    (mockPager [⟨[]⟩, ⟨[]⟩]) [] 2 2 rfl (fun evs => by simp [mockPager])
    (fun evs hlt => by
      have h2 : pageNum evs = 0 ∨ pageNum evs = 1 := by omega
      rcases h2 with h2 | h2 <;> simp [mockPager, h2])
    (by decide)

/-- With a pager of `n` pages whose listings succeed, and when every listed object has a key
and its download succeeds, `Download` requests all the `n` pages and returns one path per
listed object. -/
theorem Download_all_pages (input : S3DownloaderInput) (pager : IListObjectsV2Pager)
    (tr : List S3Event) (n fuel : Nat) (hp : input.Pager = some pager)
    (hmore : ∀ evs, pager.HasMorePages (tr ++ evs) = decide (pageNum evs < n))
    (hnext : ∀ evs, pageNum evs < n → ∃ page, pager.NextPage (tr ++ evs) = (some page, none) ∧
      ∀ o ∈ page.Contents, ∃ key, o.Key = some key ∧ ∀ h, ∃ m,
        (downloadToFile input.Downloader input.LocalDirectory input.Bucket key input.Filesystem
          input.Logger h).1 = .ret (m, none))
    (hfuel : n ≤ fuel) :
    ∃ evs rs, S3Downloader.Download input fuel tr = (some (.ret (some rs, none)), tr ++ evs) ∧
      pagesRecorded pager tr evs = true ∧
      pager.HasMorePages (tr ++ evs) = false ∧
      pageNum evs = n ∧
      (∀ o ∈ listed evs, o.Key ≠ none) ∧
      rs = (listed evs).filterMap (fun o => o.Key.map (localPath input)) ∧
      rs.length = (listed evs).length ∧
      s3Run input (.run [] .mkdir []) evs = some (.run [] .mkdir rs) := by
  obtain ⟨res, hres⟩ := DownloadLoop_ok input pager tr n hmore hnext fuel [] []
    (by simp only [pageNum]; omega)
  have hout : (S3Downloader.Download input fuel tr).1 = some (.ret (some res, none)) := by
    unfold S3Downloader.Download
    rw [hp]
    simpa using hres
  obtain ⟨evs, rs, h1, _, h3, h4, h5, h6⟩ := Download_success input fuel tr _ hout
  have hdone := Download_done input pager fuel tr _ hp hout
  rw [h1] at hdone
  dsimp only at hdone
  have hrec := h3 pager hp
  have hge : ¬ pageNum evs < n := by
    rw [hmore] at hdone
    simpa using hdone
  have hle := pageNum_le pager tr n hmore evs [] (by simpa using hrec) (by simp [pageNum])
  rw [List.nil_append] at hle
  refine ⟨evs, rs, h1, hrec, hdone, by omega, h4, h5, ?_, h6⟩
  rw [h5]
  exact paths_length input (listed evs) h4

/-- With the pager of the tests, every page listed without error and every download
successful, `Download` returns the paths of the objects of all the pages, in order. -/
theorem Download_mock (pages : List ListObjectsV2Output) (input : S3DownloaderInput)
    (fuel : Nat) (hp : input.Pager = some (mockPager pages))
    (hobj : ∀ page ∈ pages, ∀ o ∈ page.Contents, ∃ key, o.Key = some key ∧ ∀ h, ∃ m,
      (downloadToFile input.Downloader input.LocalDirectory input.Bucket key input.Filesystem
        input.Logger h).1 = .ret (m, none))
    (hfuel : pages.length ≤ fuel) :
    ∃ evs, S3Downloader.Download input fuel []
        = (some (.ret (some (((pages.map (fun p => p.Contents)).flatten).filterMap
            (fun o => o.Key.map (localPath input))), none)), evs) ∧
      listed evs = (pages.map (fun p => p.Contents)).flatten ∧
      pageNum evs = pages.length := by
  obtain ⟨evs, rs, h1, h2, _, h4, _, h6, _, _⟩ := Download_all_pages input (mockPager pages) []
    pages.length fuel hp (fun evs => by simp [mockPager])
    (fun evs hlt => by
      refine ⟨pages.get ⟨pageNum evs, hlt⟩, ?_, hobj _ (List.get_mem _ _ _)⟩
      have hget : pages.get? (pageNum evs) = some (pages.get ⟨pageNum evs, hlt⟩) :=
        List.get?_eq_get hlt
      simp only [mockPager, List.nil_append, hget])
    hfuel
  have hl := listed_mock pages evs [] h2
  rw [h4] at hl
  simp only [pageNum, List.drop_zero, List.take_length] at hl
  refine ⟨evs, ?_, hl, h4⟩
  rw [h1, h6, hl]
  simp

/-- C15: with a pager of `n` pages whose listings succeed, and when every listed object has
a key and its download succeeds, `Download` returns a nil error for every bound `fuel >= n`
on the number of pages; the run requests all the `n` pages, so that the pager reports no
more pages at the end, and it returns one path per listed object,
`filepath.Join(LocalDirectory, Bucket, key)`, in the order of the listing; its calls are in
order: a page is requested only when every object of the pages before has been transferred.
Every run of `Download` that returns a nil error ends when the pager reports no more pages
and returns the paths of the objects that the pager listed. With the pager of the tests the
result is the list of the paths of the objects of all the pages, pages in order and objects
within a page in order. For the bucket `test-bucket`, the key `test-key` and an empty
`LocalDirectory` the result is `["test-bucket/test-key"]`, and for the two pages `a`, `b` and
`c` the objects `a` and `b` are transferred before the second page is requested. -/
theorem Download_paths (input : S3DownloaderInput) (pager : IListObjectsV2Pager)
    (tr : List S3Event) (n fuel : Nat) (hp : input.Pager = some pager)
    (hmore : ∀ evs, pager.HasMorePages (tr ++ evs) = decide (pageNum evs < n))
    (hnext : ∀ evs, pageNum evs < n → ∃ page, pager.NextPage (tr ++ evs) = (some page, none) ∧
      ∀ o ∈ page.Contents, ∃ key, o.Key = some key ∧ ∀ h, ∃ m,
        (downloadToFile input.Downloader input.LocalDirectory input.Bucket key input.Filesystem
          input.Logger h).1 = .ret (m, none))
    (hfuel : n ≤ fuel) :
    (∃ evs rs, S3Downloader.Download input fuel tr = (some (.ret (some rs, none)), tr ++ evs) ∧
      pagesRecorded pager tr evs = true ∧
      pager.HasMorePages (tr ++ evs) = false ∧
      pageNum evs = n ∧
      (∀ o ∈ listed evs, o.Key ≠ none) ∧
      rs = (listed evs).filterMap (fun o => o.Key.map (localPath input)) ∧
      rs.length = (listed evs).length ∧
      s3Run input (.run [] .mkdir []) evs = some (.run [] .mkdir rs)) ∧
    (∀ input2 fuel2 tr2 res, (S3Downloader.Download input2 fuel2 tr2).1
        = some (.ret (res, none)) →
      ∃ evs rs, S3Downloader.Download input2 fuel2 tr2
          = (some (.ret (some rs, none)), tr2 ++ evs) ∧
        res = some rs ∧
        (∀ pager2, input2.Pager = some pager2 →
          pagesRecorded pager2 tr2 evs = true ∧ pager2.HasMorePages (tr2 ++ evs) = false) ∧
        (∀ o ∈ listed evs, o.Key ≠ none) ∧
        rs = (listed evs).filterMap (fun o => o.Key.map (localPath input2)) ∧
        s3Run input2 (.run [] .mkdir []) evs = some (.run [] .mkdir rs)) ∧
    (∀ (pages : List ListObjectsV2Output) (input3 : S3DownloaderInput) (fuel3 : Nat),
      input3.Pager = some (mockPager pages) →
      (∀ page ∈ pages, ∀ o ∈ page.Contents, ∃ key, o.Key = some key ∧ ∀ h, ∃ m,
        (downloadToFile input3.Downloader input3.LocalDirectory input3.Bucket key
          input3.Filesystem input3.Logger h).1 = .ret (m, none)) →
      pages.length ≤ fuel3 →
      ∃ evs, S3Downloader.Download input3 fuel3 []
          = (some (.ret (some (((pages.map (fun p => p.Contents)).flatten).filterMap
              (fun o => o.Key.map (localPath input3))), none)), evs) ∧
        listed evs = (pages.map (fun p => p.Contents)).flatten ∧
        pageNum evs = pages.length) ∧
    S3Downloader.Download testInput 1 []
      = (some (.ret (some ["test-bucket/test-key"], none)),
         [S3Event.NextPage (some testPage) none, S3Event.MkdirAll "test-bucket" 509 none,
          S3Event.Create "test-bucket/test-key" (some ⟨none⟩) none,
          S3Event.Download (some ⟨none⟩) ⟨"test-bucket", "test-key"⟩ 123 none]) ∧
    S3Downloader.Download twoPageInput 2 []
      = (some (.ret (some ["test-bucket/a", "test-bucket/b", "test-bucket/c"], none)),
         [S3Event.NextPage (some ⟨[⟨some "a"⟩, ⟨some "b"⟩]⟩) none,
          S3Event.MkdirAll "test-bucket" 509 none,
          S3Event.Create "test-bucket/a" (some ⟨none⟩) none,
          S3Event.Download (some ⟨none⟩) ⟨"test-bucket", "a"⟩ 123 none,
          S3Event.MkdirAll "test-bucket" 509 none,
          S3Event.Create "test-bucket/b" (some ⟨none⟩) none,
          S3Event.Download (some ⟨none⟩) ⟨"test-bucket", "b"⟩ 123 none,
          S3Event.NextPage (some ⟨[⟨some "c"⟩]⟩) none,
          S3Event.MkdirAll "test-bucket" 509 none,
          S3Event.Create "test-bucket/c" (some ⟨none⟩) none,
          S3Event.Download (some ⟨none⟩) ⟨"test-bucket", "c"⟩ 123 none]) := by
  refine ⟨Download_all_pages input pager tr n fuel hp hmore hnext hfuel, ?_, Download_mock,
    by decide, by decide⟩
  intro input2 fuel2 tr2 res h
  obtain ⟨evs, rs, h1, h2, h3, h4, h5, h6⟩ := Download_success input2 fuel2 tr2 res h
  refine ⟨evs, rs, h1, h2, ?_, h4, h5, h6⟩
  intro pager2 hp2
  have hdone := Download_done input2 pager2 fuel2 tr2 res hp2 h
  rw [h1] at hdone
  exact ⟨h3 pager2 hp2, hdone⟩

/-- C15, a concrete instance: the run for the two pages `a`, `b` and `c` requests both pages
and returns the three paths in the order of the listing. -/
theorem Download_paths_witness :
    twoPageInput.Pager = some (mockPager twoPages) ∧
    ∃ evs rs, S3Downloader.Download twoPageInput 2 [] = (some (.ret (some rs, none)), [] ++ evs) ∧
      pagesRecorded (mockPager twoPages) [] evs = true ∧
      (mockPager twoPages).HasMorePages ([] ++ evs) = false ∧
      pageNum evs = 2 ∧
      listed evs = [⟨some "a"⟩, ⟨some "b"⟩, ⟨some "c"⟩] ∧
      rs = ["test-bucket/a", "test-bucket/b", "test-bucket/c"] := by
  obtain ⟨evs, rs, h1, h2, h3, h4, _, _, _, _⟩ := (Download_paths twoPageInput
    (mockPager twoPages) [] 2 2 rfl (fun evs => by simp [mockPager, twoPages])
    (fun evs hlt => by
      have hcase : pageNum evs = 0 ∨ pageNum evs = 1 := by omega
      rcases hcase with h0 | h0
      · refine ⟨⟨[⟨some "a"⟩, ⟨some "b"⟩]⟩, by simp [mockPager, twoPages, h0], ?_⟩
        intro o ho
        simp only [List.mem_cons, List.mem_singleton, List.not_mem_nil, or_false] at ho
        rcases ho with ho | ho <;> subst ho
        · exact ⟨"a", rfl, fun h => ⟨123, rfl⟩⟩
        · exact ⟨"b", rfl, fun h => ⟨123, rfl⟩⟩
      · refine ⟨⟨[⟨some "c"⟩]⟩, by simp [mockPager, twoPages, h0], ?_⟩
        intro o ho
        simp only [List.mem_singleton] at ho
        subst ho
        exact ⟨"c", rfl, fun h => ⟨123, rfl⟩⟩)
    (by decide)).1
  have h5 : S3Downloader.Download twoPageInput 2 []
      = (some (.ret (some ["test-bucket/a", "test-bucket/b", "test-bucket/c"], none)),
         [S3Event.NextPage (some ⟨[⟨some "a"⟩, ⟨some "b"⟩]⟩) none,
          S3Event.MkdirAll "test-bucket" 509 none,
          S3Event.Create "test-bucket/a" (some ⟨none⟩) none,
          S3Event.Download (some ⟨none⟩) ⟨"test-bucket", "a"⟩ 123 none,
          S3Event.MkdirAll "test-bucket" 509 none,
          S3Event.Create "test-bucket/b" (some ⟨none⟩) none,
          S3Event.Download (some ⟨none⟩) ⟨"test-bucket", "b"⟩ 123 none,
          S3Event.NextPage (some ⟨[⟨some "c"⟩]⟩) none,
          S3Event.MkdirAll "test-bucket" 509 none,
          S3Event.Create "test-bucket/c" (some ⟨none⟩) none,
          S3Event.Download (some ⟨none⟩) ⟨"test-bucket", "c"⟩ 123 none]) := by decide
  have h6 := h1
  rw [h5] at h6
  simp only [Prod.mk.injEq, List.nil_append, Option.some.injEq, Outcome.ret.injEq,
    and_true] at h6
  refine ⟨rfl, evs, rs, h1, h2, h3, h4, ?_, h6.1.symm⟩
  rw [← h6.2]
  rfl
/-! ## The manifest PUT (C11) and the repository (C12, C13) -/

/-- C11: for a manifest file that is read, `putEcrImage` returns the manifest-too-large
error, without any call, when the file has more than `4194304` bytes; with at most `4194304`
bytes it never returns that error, and its one call is `PutImage` with the bytes of the file
unchanged and the repository name, tag and registry id of the input; the result is the
image of the output, or the error of `PutImage` wrapped. -/
theorem putEcrImage_size (env : Env) (input : UploadInput) (manifest : Manifest)
    (tr : List Event) (manBuffer : List Byte) (c : IClient)
    (hread : env.fs.ReadFile (filepathJoin [input.ImageLayersPath, "manifest.json"])
      = .ok manBuffer)
    (hclient : input.Client = some c) :
    (4194304 < manBuffer.length →
      putEcrImage env input manifest tr
        = (.ret (none, some (manifestTooLarge manBuffer.length)), tr)) ∧
    (manBuffer.length ≤ 4194304 →
      (∀ n, (putEcrImage env input manifest tr).1 ≠ .ret (none, some (manifestTooLarge n))) ∧
      (putEcrImage env input manifest tr).2
        = tr ++ [Event.PutImage
            { ImageManifest := manBuffer, RepositoryName := input.RepositoryName,
              ImageTag := input.Tag, RegistryId := input.RegistryId }
            (c.PutImage tr (putImageInput input manBuffer)).1
            (c.PutImage tr (putImageInput input manBuffer)).2] ∧
      (∀ out, c.PutImage tr (putImageInput input manBuffer) = (some out, none) →
        (putEcrImage env input manifest tr).1 = .ret (out.Image, none)) ∧
      (∀ out err, c.PutImage tr (putImageInput input manBuffer) = (out, some err) →
        (putEcrImage env input manifest tr).1
          = .ret (none, some (ErrorfW "put image error: " err "")))) := by
  unfold putEcrImage
  dsimp only
  rw [hread]
  dsimp only
  constructor
  · intro hbig
    rw [if_pos (by unfold IMAGE_MANIFEST_MAX_SIZE; omega)]
    rfl
  · intro hsmall
    rw [if_neg (by unfold IMAGE_MANIFEST_MAX_SIZE; omega), hclient]
    dsimp only
    rcases hp : c.PutImage tr (putImageInput input manBuffer) with ⟨out, err⟩
    dsimp only
    cases err with
    | some e =>
      refine ⟨?_, rfl, fun out2 h => by simp at h, fun out2 err2 h => ?_⟩
      · intro n h
        simp [manifestTooLarge, Errorf, ErrorfW] at h
      · simp only [Prod.mk.injEq, Option.some.injEq] at h
        rw [h.2]
    | none =>
      cases out with
      | none =>
        exact ⟨fun n h => by simp at h, rfl, fun out2 h => by simp at h,
          fun out2 err2 h => by simp at h⟩
      | some o =>
        refine ⟨fun n h => by simp at h, rfl, fun out2 h => ?_, fun out2 err2 h => by simp at h⟩
        simp only [Prod.mk.injEq, Option.some.injEq, and_true] at h
        rw [h]

/-- C11, a concrete instance: the manifest file of two bytes is put unchanged. -/
theorem putEcrImage_size_witness :
    (putEcrImage (envOf manifest2) (inputOf okClient) manifest2 []).2
      = [Event.PutImage
          { ImageManifest := [123, 125], RepositoryName := "repo", ImageTag := "v1",
            RegistryId := "123456789012" }
          (okClient.PutImage [] (putImageInput (inputOf okClient) [123, 125])).1 none] :=
  ((putEcrImage_size (envOf manifest2) (inputOf okClient) manifest2 [] [123, 125] okClient
    rfl rfl).2 (by decide)).2.1

/-- C12: when `DescribeRepositories` fails with a `RepositoryNotFoundException`, `checkRepo`
calls `CreateRepository` exactly once, after the describe call, and returns its output as
the created repository when the creation succeeds; when `DescribeRepositories` succeeds with
exactly one repository, `checkRepo` returns that output and calls `CreateRepository` not at
all. -/
theorem checkRepo_creates_once (input : UploadInput) (c : IClient) (tr : List Event)
    (hclient : input.Client = some c) :
    (∀ out e, c.DescribeRepositories tr (describeRepositoriesInput input) = (out, some e) →
      (e.As .RepositoryNotFoundException).isSome = true →
      ∃ cout cerr,
        c.CreateRepository (tr ++ [Event.DescribeRepositories (describeRepositoriesInput input)
          out (some e)]) (createRepositoryInput input) = (cout, cerr) ∧
        (checkRepo input tr).2
          = tr ++ [Event.DescribeRepositories (describeRepositoriesInput input) out (some e),
              Event.CreateRepository (createRepositoryInput input) cout cerr] ∧
        createCalls [Event.DescribeRepositories (describeRepositoriesInput input) out (some e),
              Event.CreateRepository (createRepositoryInput input) cout cerr] = 1 ∧
        (cerr = none → (checkRepo input tr).1 = .ret (none, cout, none))) ∧
    (∀ repo, c.DescribeRepositories tr (describeRepositoriesInput input)
        = (some ⟨[repo]⟩, none) →
      checkRepo input tr
        = (.ret (some ⟨[repo]⟩, none, none),
           tr ++ [Event.DescribeRepositories (describeRepositoriesInput input)
             (some ⟨[repo]⟩) none]) ∧
      createCalls [Event.DescribeRepositories (describeRepositoriesInput input)
             (some ⟨[repo]⟩) none] = 0) := by
  unfold checkRepo
  rw [hclient]
  dsimp only
  constructor
  · intro out e hd hnf
    rw [hd]
    dsimp only
    cases has : e.As .RepositoryNotFoundException with
    | none => rw [has] at hnf; simp at hnf
    | some x =>
      dsimp only
      rcases hc : c.CreateRepository (tr ++ [Event.DescribeRepositories
        (describeRepositoriesInput input) out (some e)]) (createRepositoryInput input)
        with ⟨cout, cerr⟩
      refine ⟨cout, cerr, rfl, ?_, rfl, ?_⟩
      · cases cerr <;> simp
      · intro hnil
        subst hnil
        rfl
  · intro repo hd
    rw [hd]
    exact ⟨rfl, rfl⟩

/-- C12, a concrete instance: with a repository that does not exist yet, the repository is
created once and returned. -/
theorem checkRepo_creates_once_witness :
    ∃ cout, checkRepo (inputOf notFoundClient) []
      = (.ret (none, cout, none),
         [Event.DescribeRepositories (describeRepositoriesInput (inputOf notFoundClient))
            none (some notFound),
          Event.CreateRepository (createRepositoryInput (inputOf notFoundClient)) cout none]) := by
  obtain ⟨cout, cerr, h1, h2, _, h4⟩ := (checkRepo_creates_once (inputOf notFoundClient)
    notFoundClient [] rfl).1 none notFound rfl (by decide)
  have hc : cerr = none := by
    have : (notFoundClient.CreateRepository ([] ++ [Event.DescribeRepositories
      (describeRepositoriesInput (inputOf notFoundClient)) none (some notFound)])
      (createRepositoryInput (inputOf notFoundClient))).2 = none := rfl
    rw [h1] at this
    exact this
  subst hc
  exact ⟨cout, Prod.ext (h4 rfl) (by simpa using h2)⟩

/-- C13 as written fails for a client whose `CreateRepository` returns a nil output with a
nil error: `checkRepo` succeeds with both outputs nil. -/
theorem checkRepo_both_nil_counterexample :
    checkRepo (inputOf nilCreateClient) []
      = (.ret (none, none, none),
         [Event.DescribeRepositories (describeRepositoriesInput (inputOf nilCreateClient))
            none (some notFound),
          Event.CreateRepository (createRepositoryInput (inputOf nilCreateClient))
            none none]) := by
  decide

/-- C13 (amended): `checkRepo` returns an error with both outputs nil, after the describe
call alone, when `DescribeRepositories` succeeds with a number of repositories other than
one, and when it fails with an error that is not a `RepositoryNotFoundException`; on success
at most one of the two outputs is non-nil, a non-nil describe output holds exactly one
repository, so that the access to `Repositories[0]` in `Upload` is in range, a nil describe
output comes with the output of a successful `CreateRepository`, and exactly one output is
non-nil when `CreateRepository` returns a non-nil output with every nil error. -/
theorem checkRepo_errors (input : UploadInput) (c : IClient) (tr : List Event)
    (hclient : input.Client = some c) :
    (∀ d, c.DescribeRepositories tr (describeRepositoriesInput input) = (some d, none) →
      d.Repositories.length ≠ 1 →
      checkRepo input tr
        = (.ret (none, none, some (Errorf ("invalid number of repositories found ("
            ++ fmtD d.Repositories.length ++ "), expected 1"))),
           tr ++ [Event.DescribeRepositories (describeRepositoriesInput input) (some d) none])) ∧
    (∀ out e, c.DescribeRepositories tr (describeRepositoriesInput input) = (out, some e) →
      e.As .RepositoryNotFoundException = none →
      checkRepo input tr
        = (.ret (none, none, some (ErrorfW "error describing repositories: " e "")),
           tr ++ [Event.DescribeRepositories (describeRepositoriesInput input) out (some e)])) ∧
    (∀ d cr, (checkRepo input tr).1 = .ret (d, cr, none) →
      (d = none ∨ cr = none) ∧
      (∀ dd, d = some dd → ∃ repo, dd.Repositories = [repo]) ∧
      (d = none → ∃ h, c.CreateRepository h (createRepositoryInput input) = (cr, none)) ∧
      ((∀ h i o, c.CreateRepository h i = (o, none) → o ≠ none) → (d = none ↔ cr ≠ none)) ∧
      (∀ logger, logRepository logger d cr
        ≠ .panic "runtime error: index out of range [0] with length 0")) := by
  unfold checkRepo
  rw [hclient]
  dsimp only
  refine ⟨?_, ?_, ?_⟩
  · intro d hd hlen
    rw [hd]
    dsimp only
    rw [if_pos hlen]
  · intro out e hd hnf
    rw [hd]
    dsimp only
    rw [hnf]
  · intro d cr
    rcases hd : c.DescribeRepositories tr (describeRepositoriesInput input) with ⟨out, err⟩
    dsimp only
    cases err with
    | some e =>
      dsimp only
      cases e.As .RepositoryNotFoundException with
      | none => intro h; simp at h
      | some x =>
        dsimp only
        rcases hc : c.CreateRepository (tr ++ [Event.DescribeRepositories
          (describeRepositoriesInput input) out (some e)]) (createRepositoryInput input)
          with ⟨cout, cerr⟩
        dsimp only
        cases cerr with
        | some ce => intro h; simp at h
        | none =>
          intro h
          simp only [Outcome.ret.injEq, Prod.mk.injEq, and_true] at h
          obtain ⟨h1, h2⟩ := h
          subst h1
          subst h2
          refine ⟨Or.inl rfl, fun dd h => by simp at h, fun _ => ⟨_, hc⟩, ?_, ?_⟩
          · intro hconv
            have := hconv _ _ _ hc
            simp [this]
          · intro logger
            cases cout with
            | none => simp [logRepository]
            | some co =>
              cases hr : co.Repository with
              | none => simp [logRepository, hr, nilDeref]
              | some repo =>
                cases logger <;>
                  simp only [logRepository, hr, logDeref, Printfln, nilDeref] <;>
                  split_ifs <;> simp
    | none =>
      dsimp only
      cases out with
      | none => intro h; simp at h
      | some dd =>
        dsimp only
        split_ifs with hlen
        · intro h; simp at h
        · intro h
          simp only [Outcome.ret.injEq, Prod.mk.injEq, and_true] at h
          obtain ⟨h1, h2⟩ := h
          subst h1
          subst h2
          have hone : ∃ repo, dd.Repositories = [repo] := by
            rcases hr : dd.Repositories with _ | ⟨repo, rest⟩
            · rw [hr] at hlen; simp at hlen
            · cases rest with
              | nil => exact ⟨repo, rfl⟩
              | cons r2 rest2 => rw [hr] at hlen; simp at hlen
          refine ⟨Or.inr rfl, fun dd2 h => ?_, fun h => by simp at h, fun _ => by simp, ?_⟩
          · simp only [Option.some.injEq] at h
            subst h
            exact hone
          · intro logger
            obtain ⟨repo, hr⟩ := hone
            cases logger <;>
              simp only [logRepository, hr, logDeref, Printfln, nilDeref] <;>
              split_ifs <;> simp

/-- C13, a concrete instance: a describe call that finds no repository is an error. -/
theorem checkRepo_errors_witness :
    checkRepo (inputOf noRepoClient) []
      = (.ret (none, none, some (Errorf "invalid number of repositories found (0), expected 1")),
         [Event.DescribeRepositories (describeRepositoriesInput (inputOf noRepoClient))
            (some ⟨[]⟩) none]) :=
  (checkRepo_errors (inputOf noRepoClient) noRepoClient [] rfl).1 ⟨[]⟩ rfl (by decide)

/-! ## The zero-valued input (C18) and the causes of errors (C19) -/

/-- C18, the divergence: the claim is the assertion of the test `TestUpload`, and the code
does not meet it. `Upload` with the zero-valued input makes no registry call and never
returns an image with a nil error. It reads the file `manifest.json` of the working
directory: without that file, as in the directory of the test, it returns a nil image and
the read error wrapped; with a file of an unknown type or one that does not parse it returns
a nil image and the error of `FromBlob`; and once the manifest is parsed, `FromBlob` calls
the nil logger and the run panics. -/
theorem Upload_zero_input (env : Env) (tr : List Event) :
    Upload missingEnv zeroInput []
      = (.ret (none, some (ErrorfW "error reading manifest file: " notExist "")), []) ∧
    (Upload env zeroInput tr).2 = tr ∧
    (∀ img, (Upload env zeroInput tr).1 ≠ .ret (some img, none)) ∧
    ((∃ e, (Upload env zeroInput tr).1 = .ret (none, some e)) ∨
      (Upload env zeroInput tr).1 = .panic nilDeref) ∧
    (∀ e, env.fs.ReadFile "manifest.json" = .error e →
      (Upload env zeroInput tr).1
        = .ret (none, some (ErrorfW "error reading manifest file: " e ""))) ∧
    (∀ buf manifest, env.fs.ReadFile "manifest.json" = .ok buf →
      env.GuessMIMEType buf ≠ "" →
      env.ManifestFromBlob buf (env.GuessMIMEType buf) = .ok manifest →
      (Upload env zeroInput tr).1 = .panic nilDeref) := by
  refine ⟨by decide, ?_⟩
  have hpath : filepathJoin [zeroInput.ImageLayersPath, "manifest.json"] = "manifest.json" := by
    decide
  unfold Upload
  rw [hpath]
  cases hread : env.fs.ReadFile "manifest.json" with
  | error e =>
    exact ⟨rfl, fun img h => by simp at h, Or.inl ⟨_, rfl⟩, fun e2 h => by simp at h; rw [h],
      fun _ _ h => by simp at h⟩
  | ok buf =>
    dsimp only
    unfold FromBlob
    dsimp only
    split_ifs with hm
    · exact ⟨rfl, fun img h => by simp at h, Or.inl ⟨_, rfl⟩, fun e2 h => by simp at h,
        fun b m h1 h2 => by
        simp only [Except.ok.injEq] at h1
        subst h1
        exact (h2 hm).elim⟩
    · cases hp : env.ManifestFromBlob buf (env.GuessMIMEType buf) with
      | error e =>
        exact ⟨rfl, fun img h => by simp at h, Or.inl ⟨_, rfl⟩, fun e2 h => by simp at h,
          fun b m h1 _ h3 => by
          simp only [Except.ok.injEq] at h1
          subst h1
          rw [hp] at h3
          simp at h3⟩
      | ok parsed =>
        exact ⟨rfl, fun img h => by simp [Printfln, zeroInput] at h, Or.inr rfl,
          fun e2 h => by simp at h, fun _ _ _ _ _ => rfl⟩

/-- C19, the divergence: when `DescribeRepositories` reports not-found with `e` and
`CreateRepository` then fails, `checkRepo` wraps `e`, the error of the describe call, and
not the creation failure: with the client `createFailClient` the error that `Upload`
returns has `notFound` in its chain and not `createDenied`. In the same way the error of
`os.Stat` in `doUploadLayerParts` and the error of `ReadFile` in `putEcrImage` are replaced
by a plain error string that wraps nothing. -/
theorem checkRepo_create_error_lost :
    (∀ (input : UploadInput) (c : IClient) (tr : List Event) out e cout cerr,
      input.Client = some c →
      c.DescribeRepositories tr (describeRepositoriesInput input) = (out, some e) →
      (e.As .RepositoryNotFoundException).isSome = true →
      c.CreateRepository (tr ++ [Event.DescribeRepositories (describeRepositoriesInput input)
        out (some e)]) (createRepositoryInput input) = (cout, some cerr) →
      (checkRepo input tr).1
        = .ret (none, none, some (ErrorfW "error creating repository: " e ""))) ∧
    (∃ err, (Upload (envOf manifest2) (inputOf createFailClient) []).1 = .ret (none, some err) ∧
      err.Is createDenied = false ∧ err.Is notFound = true ∧
      err.Error = "error checking Repository: error creating repository: "
        ++ "RepositoryNotFoundException: repo not found") ∧
    (∀ (env : Env) (input : UploadInput) (c : IClient) (d : String) (tr : List Event) out e,
      input.Client = some c →
      c.InitiateLayerUpload tr (initiateLayerUploadInput input) = (out, none) →
      env.fs.Stat (filepathJoin [input.ImageLayersPath, stringsReplaceColon d]) = .error e →
      (doUploadLayerParts env input.Client input d tr).1
        = .ret (some (Errorf ("error reading file info for "
            ++ filepathJoin [input.ImageLayersPath, stringsReplaceColon d])))) ∧
    (∀ (env : Env) (input : UploadInput) (m : Manifest) (tr : List Event) e,
      env.fs.ReadFile (filepathJoin [input.ImageLayersPath, "manifest.json"]) = .error e →
      putEcrImage env input m tr
        = (.ret (none, some (Errorf ("error reading "
            ++ fmtQ (filepathJoin [input.ImageLayersPath, "manifest.json"])))), tr)) ∧
    (∀ (msg : String) (e : GoError), e ≠ Errorf msg → (Errorf msg).Is e = false) := by
  refine ⟨?_, ⟨ErrorfW "error checking Repository: "
    (ErrorfW "error creating repository: " notFound "") "", by decide, by decide, by decide,
    by decide⟩, ?_, ?_, ?_⟩
  · intro input c tr out e cout cerr hclient hd hnf hc
    unfold checkRepo
    rw [hclient]
    dsimp only
    rw [hd]
    dsimp only
    cases has : e.As .RepositoryNotFoundException with
    | none => rw [has] at hnf; simp at hnf
    | some x =>
      dsimp only
      rw [hc]
  · intro env input c d tr out e hclient hi hs
    rw [doUploadLayerParts_unfold]
    have hinit : initLayerUpload input tr = (.ret (out, none),
        tr ++ [Event.InitiateLayerUpload (initiateLayerUploadInput input) out none]) := by
      unfold initLayerUpload
      rw [hclient]
      dsimp only
      rw [hi]
    rw [hinit]
    dsimp only
    rw [hs]
  · intro env input m tr e hr
    unfold putEcrImage
    dsimp only
    rw [hr]
  · intro msg e hne
    simp only [Errorf, GoError.Is, decide_eq_false_iff_not]
    intro h
    exact hne h.symm

/-! ## The upload id of a layer -/

theorem uploadPartsLoop_calls (env : Env) (client : Option IClient) (input : UploadInput)
    (initOut : InitiateLayerUploadOutput) (blobs : OrderedMap) :
    ∀ (keys : List String) (firstPart : Int) (tr : List Event),
    ∃ evs,
      (uploadPartsLoop env client input initOut blobs keys firstPart tr).2 = tr ++ evs ∧
      ∀ ev ∈ evs, ∃ v first o e,
        ev = Event.UploadLayerPart (uploadLayerPartInput input initOut v first) o e := by
  intro keys
  induction keys with
  | nil => intro firstPart tr; exact ⟨[], by simp [uploadPartsLoop], by simp⟩
  | cons key keys ih =>
    intro firstPart tr
    rw [uploadPartsLoop_cons]
    cases blobs.Get key with
    | none => exact ⟨[], by simp, by simp⟩
    | some v =>
      dsimp only
      cases env.SpinnerStart key v.length with
      | some err => exact ⟨[], by simp, by simp⟩
      | none =>
        dsimp only
        cases logDeref input.Logger [initOut.UploadId] with
        | panic msg => exact ⟨[], by simp, by simp⟩
        | ret u =>
          dsimp only
          cases client with
          | none => exact ⟨[], by simp, by simp⟩
          | some c =>
            dsimp only
            rcases hr : c.UploadLayerPart tr (uploadLayerPartInput input initOut v firstPart)
              with ⟨o, e⟩
            dsimp only
            have hone : ∀ ev ∈ [Event.UploadLayerPart
                (uploadLayerPartInput input initOut v firstPart) o e], ∃ v2 first o2 e2,
                ev = Event.UploadLayerPart (uploadLayerPartInput input initOut v2 first) o2 e2 := by
              intro ev hev
              rw [List.mem_singleton] at hev
              exact ⟨v, firstPart, o, e, hev⟩
            cases e with
            | some err => exact ⟨_, rfl, hone⟩
            | none =>
              dsimp only
              cases o with
              | none => exact ⟨_, rfl, hone⟩
              | some out =>
                dsimp only
                obtain ⟨evs, h1, h2⟩ := ih (firstPart + (v.length : Int))
                  (tr ++ [Event.UploadLayerPart (uploadLayerPartInput input initOut v firstPart)
                    (some out) none])
                refine ⟨Event.UploadLayerPart (uploadLayerPartInput input initOut v firstPart)
                  (some out) none :: evs, by rw [h1]; simp, ?_⟩
                intro ev hev
                rcases List.mem_cons.1 hev with h | h
                · exact ⟨v, firstPart, some out, none, h⟩
                · exact h2 ev h

theorem completeLayerUpload_calls (input : UploadInput) (uploadId : Option String)
    (digests : List String) (tr : List Event) :
    ∃ evs, (completeLayerUpload input uploadId digests tr).2 = tr ++ evs ∧
      (evs = [] ∨ ∃ o e, evs = [Event.CompleteLayerUpload
        (completeLayerUploadInput input uploadId digests) o e]) := by
  unfold completeLayerUpload
  cases input.Client with
  | none => exact ⟨[], by simp, Or.inl rfl⟩
  | some c =>
    dsimp only
    rcases hr : c.CompleteLayerUpload tr (completeLayerUploadInput input uploadId digests)
      with ⟨o, e⟩
    dsimp only
    refine ⟨[Event.CompleteLayerUpload (completeLayerUploadInput input uploadId digests) o e],
      ?_, Or.inr ⟨o, e, rfl⟩⟩
    cases e with
    | some err =>
      dsimp only
      cases err.As .InvalidLayerException <;> rfl
    | none =>
      dsimp only
      cases o with
      | none => rfl
      | some out =>
        dsimp only
        cases out.LayerDigest <;> rfl

/-- The calls of `doUploadLayerParts` are the calls of one layer. -/
theorem doUploadLayerParts_calls (env : Env) (client : Option IClient) (input : UploadInput)
    (d : String) (tr : List Event) :
    ∃ evs, (doUploadLayerParts env client input d tr).2 = tr ++ evs ∧ layerCalls input d evs ∧
      (input.Client ≠ none → evs ≠ []) := by
  rw [doUploadLayerParts_unfold]
  unfold initLayerUpload
  cases hcl : input.Client with
  | none => exact ⟨[], by simp, Or.inl rfl, fun h => (h rfl).elim⟩
  | some c =>
    dsimp only
    rcases hr : c.InitiateLayerUpload tr (initiateLayerUploadInput input) with ⟨initOutPtr, e0⟩
    have early : ∀ (out : Outcome (Option GoError)), ∃ evs,
        (out, tr ++ [Event.InitiateLayerUpload (initiateLayerUploadInput input)
          initOutPtr e0]).2 = tr ++ evs ∧ layerCalls input d evs ∧
        (some c ≠ none → evs ≠ []) := fun out =>
      ⟨[Event.InitiateLayerUpload (initiateLayerUploadInput input) initOutPtr e0], rfl,
        Or.inr ⟨initOutPtr, e0, [], [], rfl, by simp, Or.inl rfl⟩, fun _ => by simp⟩
    cases e0 with
    | some err => exact early _
    | none =>
      dsimp only
      cases env.fs.Stat (filepathJoin [input.ImageLayersPath, stringsReplaceColon d]) with
      | error e => exact early _
      | ok fi =>
        dsimp only
        cases Printfln input.Logger with
        | panic msg => exact early _
        | ret u =>
          dsimp only
          cases initOutPtr with
          | none => exact early _
          | some initOut =>
            dsimp only
            cases logDeref input.Logger [initOut.UploadId] with
            | panic msg => exact early _
            | ret u2 =>
              dsimp only
              cases layerBlobParts env.fs d
                (filepathJoin [input.ImageLayersPath, stringsReplaceColon d]) input.Logger with
              | panic msg => exact early _
              | ret r2 =>
                obtain ⟨bl, e2⟩ := r2
                cases e2 with
                | some err => cases bl <;> exact early _
                | none =>
                  cases bl with
                  | none => exact early _
                  | some blobs =>
                    dsimp only
                    obtain ⟨evs1, b1, b2⟩ := uploadPartsLoop_calls env client input initOut blobs
                      blobs.Keys 0 (tr ++ [Event.InitiateLayerUpload
                        (initiateLayerUploadInput input) (some initOut) none])
                    rcases hl : uploadPartsLoop env client input initOut blobs blobs.Keys 0
                      (tr ++ [Event.InitiateLayerUpload (initiateLayerUploadInput input)
                        (some initOut) none]) with ⟨out1, tr2⟩
                    rw [hl] at b1
                    dsimp only at b1
                    subst b1
                    have hparts : ∀ ev ∈ evs1, ∃ io v first o e, some initOut = some io ∧
                        ev = Event.UploadLayerPart (uploadLayerPartInput input io v first) o e :=
                      fun ev hev => by
                        obtain ⟨v, first, o, e, h⟩ := b2 ev hev
                        exact ⟨initOut, v, first, o, e, rfl, h⟩
                    have stop : ∀ (out : Outcome (Option GoError)), ∃ evs,
                        (out, tr ++ [Event.InitiateLayerUpload (initiateLayerUploadInput input)
                          (some initOut) none] ++ evs1).2 = tr ++ evs ∧ layerCalls input d evs ∧
                        (some c ≠ none → evs ≠ []) := fun out =>
                      ⟨Event.InitiateLayerUpload (initiateLayerUploadInput input) (some initOut)
                        none :: (evs1 ++ []), by simp,
                        Or.inr ⟨some initOut, none, evs1, [], rfl, hparts, Or.inl rfl⟩,
                        fun _ => by simp⟩
                    cases out1 with
                    | panic msg => exact stop _
                    | ret r3 =>
                      cases r3 with
                      | some err => exact stop _
                      | none =>
                        dsimp only
                        obtain ⟨evs2, c1, c2⟩ := completeLayerUpload_calls input initOut.UploadId
                          [d] (tr ++ [Event.InitiateLayerUpload (initiateLayerUploadInput input)
                            (some initOut) none] ++ evs1)
                        rcases hc : completeLayerUpload input initOut.UploadId [d]
                          (tr ++ [Event.InitiateLayerUpload (initiateLayerUploadInput input)
                            (some initOut) none] ++ evs1) with ⟨out2, tr3⟩
                        rw [hc] at c1
                        dsimp only at c1
                        subst c1
                        have fin : ∀ (out : Outcome (Option GoError)), ∃ evs,
                            (out, tr ++ [Event.InitiateLayerUpload
                              (initiateLayerUploadInput input) (some initOut) none]
                              ++ evs1 ++ evs2).2 = tr ++ evs ∧ layerCalls input d evs ∧
                            (some c ≠ none → evs ≠ []) := fun out =>
                          ⟨Event.InitiateLayerUpload (initiateLayerUploadInput input)
                            (some initOut) none :: (evs1 ++ evs2), by simp,
                            Or.inr ⟨some initOut, none, evs1, evs2, rfl, hparts, by
                              rcases c2 with h | ⟨o, e, h⟩
                              · exact Or.inl h
                              · exact Or.inr ⟨initOut, o, e, rfl, h⟩⟩,
                            fun _ => by simp⟩
                        cases out2 with
                        | panic msg => exact fin _
                        | ret r4 =>
                          obtain ⟨s, e4⟩ := r4
                          cases e4 with
                          | none => exact fin _
                          | some err =>
                            dsimp only
                            cases err.As .LayerAlreadyExistsException with
                            | none => exact fin _
                            | some x =>
                              exact fin _

/-! ## A property of the calls of every stage is a property of the calls of `Upload` -/

theorem uploadLayersLoop_trace (env : Env) (input : UploadInput) (Q : List Event → Prop)
    (hnil : Q []) (happ : ∀ a b, Q a → Q b → Q (a ++ b))
    (hlayer : ∀ d tr0, ∃ evs,
      (doUploadLayerParts env input.Client input d tr0).2 = tr0 ++ evs ∧ Q evs) :
    ∀ (layers : List BlobInfo) (tr : List Event),
    ∃ evs, (uploadLayersLoop env input layers tr).2 = tr ++ evs ∧ Q evs := by
  intro layers
  induction layers with
  | nil => intro tr; exact ⟨[], by simp [uploadLayersLoop], hnil⟩
  | cons layer layers ih =>
    intro tr
    have hunf : uploadLayersLoop env input (layer :: layers) tr =
        match Printfln input.Logger with
        | .panic msg => (.panic msg, tr)
        | .ret _ =>
          match doUploadLayerParts env input.Client input layer.Digest tr with
          | (.panic msg, tr1) => (.panic msg, tr1)
          | (.ret (some err), tr1) => (.ret (some (ErrorfW "error uploading layer: " err "")), tr1)
          | (.ret none, tr1) => uploadLayersLoop env input layers tr1 := rfl
    rw [hunf]
    cases Printfln input.Logger with
    | panic msg => exact ⟨[], by simp, hnil⟩
    | ret u =>
      dsimp only
      obtain ⟨evs1, a1, a2⟩ := hlayer layer.Digest tr
      rcases hd : doUploadLayerParts env input.Client input layer.Digest tr with ⟨out1, tr1⟩
      rw [hd] at a1
      dsimp only at a1
      subst a1
      cases out1 with
      | panic msg => exact ⟨evs1, rfl, a2⟩
      | ret r =>
        cases r with
        | some err => exact ⟨evs1, rfl, a2⟩
        | none =>
          dsimp only
          obtain ⟨evs2, b1, b2⟩ := ih (tr ++ evs1)
          exact ⟨evs1 ++ evs2, by rw [b1, List.append_assoc], happ _ _ a2 b2⟩

theorem uploadLayerParts_trace (env : Env) (input : UploadInput) (manifest : Manifest)
    (Q : List Event → Prop) (hnil : Q []) (happ : ∀ a b, Q a → Q b → Q (a ++ b))
    (hlayer : ∀ d tr0, ∃ evs,
      (doUploadLayerParts env input.Client input d tr0).2 = tr0 ++ evs ∧ Q evs)
    (tr : List Event) :
    ∃ evs, (uploadLayerParts env input manifest tr).2 = tr ++ evs ∧ Q evs := by
  unfold uploadLayerParts
  cases Printfln input.Logger with
  | panic msg => exact ⟨[], by simp, hnil⟩
  | ret u =>
    dsimp only
    obtain ⟨evs1, a1, a2⟩ := hlayer manifest.ConfigInfo.Digest tr
    rcases hd : doUploadLayerParts env input.Client input manifest.ConfigInfo.Digest tr
      with ⟨out1, tr1⟩
    rw [hd] at a1
    dsimp only at a1
    subst a1
    cases out1 with
    | panic msg => exact ⟨evs1, rfl, a2⟩
    | ret r =>
      cases r with
      | some err => exact ⟨evs1, rfl, a2⟩
      | none =>
        dsimp only
        obtain ⟨evs2, b1, b2⟩ := uploadLayersLoop_trace env input Q hnil happ hlayer
          manifest.LayerInfos (tr ++ evs1)
        exact ⟨evs1 ++ evs2, by rw [b1, List.append_assoc], happ _ _ a2 b2⟩

/-- A property of traces that holds of the calls of `checkRepo`, of `doUploadLayerParts` and
of `putEcrImage`, and of the concatenation of two traces that have it, holds of the calls of
`Upload`. -/
theorem Upload_trace (env : Env) (input : UploadInput) (Q : List Event → Prop)
    (hnil : Q []) (happ : ∀ a b, Q a → Q b → Q (a ++ b))
    (hrepo : ∀ tr0, ∃ evs, (checkRepo input tr0).2 = tr0 ++ evs ∧ Q evs)
    (hlayer : ∀ d tr0, ∃ evs,
      (doUploadLayerParts env input.Client input d tr0).2 = tr0 ++ evs ∧ Q evs)
    (hput : ∀ m tr0, ∃ evs, (putEcrImage env input m tr0).2 = tr0 ++ evs ∧ Q evs)
    (tr : List Event) :
    ∃ evs, (Upload env input tr).2 = tr ++ evs ∧ Q evs := by
  unfold Upload
  cases env.fs.ReadFile (filepathJoin [input.ImageLayersPath, "manifest.json"]) with
  | error e => exact ⟨[], by simp, hnil⟩
  | ok manBuffer =>
    dsimp only
    cases FromBlob env manBuffer input.Logger with
    | panic msg => exact ⟨[], by simp, hnil⟩
    | ret r =>
      obtain ⟨m, e⟩ := r
      cases e with
      | some err => cases m <;> exact ⟨[], by simp, hnil⟩
      | none =>
        cases m with
        | none => exact ⟨[], by simp, hnil⟩
        | some manifest =>
          dsimp only
          split_ifs with hcount
          · exact ⟨[], by simp, hnil⟩
          · obtain ⟨evs0, a1, a2⟩ := hrepo tr
            rcases hc : checkRepo input tr with ⟨out0, tr1⟩
            rw [hc] at a1
            dsimp only at a1
            subst a1
            cases out0 with
            | panic msg => exact ⟨evs0, rfl, a2⟩
            | ret r0 =>
              obtain ⟨descOut, createOut, e0⟩ := r0
              cases e0 with
              | some err => exact ⟨evs0, rfl, a2⟩
              | none =>
                dsimp only
                cases logRepository input.Logger descOut createOut with
                | panic msg => exact ⟨evs0, rfl, a2⟩
                | ret u =>
                  dsimp only
                  obtain ⟨evs1, b1, b2⟩ := uploadLayerParts_trace env input manifest Q hnil happ
                    hlayer (tr ++ evs0)
                  rcases hu : uploadLayerParts env input manifest (tr ++ evs0) with ⟨out1, tr2⟩
                  rw [hu] at b1
                  dsimp only at b1
                  subst b1
                  have q1 := happ _ _ a2 b2
                  cases out1 with
                  | panic msg => exact ⟨evs0 ++ evs1, by simp, q1⟩
                  | ret r1 =>
                    cases r1 with
                    | some err => exact ⟨evs0 ++ evs1, by simp, q1⟩
                    | none =>
                      dsimp only
                      obtain ⟨evs2, c1, c2⟩ := hput manifest (tr ++ evs0 ++ evs1)
                      rcases hp : putEcrImage env input manifest (tr ++ evs0 ++ evs1)
                        with ⟨out2, tr3⟩
                      rw [hp] at c1
                      dsimp only at c1
                      subst c1
                      have q2 := happ _ _ q1 c2
                      cases out2 with
                      | panic msg => exact ⟨evs0 ++ evs1 ++ evs2, by simp, q2⟩
                      | ret r2 =>
                        obtain ⟨image, e2⟩ := r2
                        cases e2 <;> exact ⟨evs0 ++ evs1 ++ evs2, by simp, q2⟩

/-! ## The upload id of a layer is used for that layer only (C20) -/

theorem layerIds_parts (input : UploadInput) (initOut : InitiateLayerUploadOutput) :
    ∀ (parts rest : List Event),
    (∀ ev ∈ parts, ∃ v first o e,
      ev = Event.UploadLayerPart (uploadLayerPartInput input initOut v first) o e) →
    layerIds input (some initOut.UploadId) (parts ++ rest)
      = layerIds input (some initOut.UploadId) rest := by
  intro parts
  induction parts with
  | nil => intro rest _; rfl
  | cons p ps ih =>
    intro rest h
    obtain ⟨v, first, o, e, hp⟩ := h p (List.mem_cons_self _ _)
    subst hp
    rw [List.cons_append]
    simp only [layerIds, uploadLayerPartInput, decide_True, Bool.true_and]
    exact ih rest (fun ev hev => h ev (List.mem_cons_of_mem _ hev))

/-- The calls of one layer pass the scan of the upload ids, whatever id came before. -/
theorem layerIds_of_layerCalls (input : UploadInput) (d : String) (evs : List Event)
    (h : layerCalls input d evs) : ∀ s, layerIds input s evs = true := by
  intro s
  rcases h with h | ⟨out, err, parts, compl, hevs, hparts, hcompl⟩
  · subst h; rfl
  · subst hevs
    simp only [layerIds, decide_True, Bool.true_and]
    cases out with
    | none =>
      have hp : parts = [] := by
        cases parts with
        | nil => rfl
        | cons p ps =>
          obtain ⟨io, _, _, _, _, h, _⟩ := hparts p (List.mem_cons_self _ _)
          simp at h
      have hc : compl = [] := by
        rcases hcompl with h | ⟨io, _, _, h, _⟩
        · exact h
        · simp at h
      subst hp
      subst hc
      rfl
    | some initOut =>
      simp only [Option.map_some']
      rw [layerIds_parts input initOut parts compl (fun ev hev => by
        obtain ⟨io, v, first, o, e, h1, h2⟩ := hparts ev hev
        simp only [Option.some.injEq] at h1
        subst h1
        exact ⟨v, first, o, e, h2⟩)]
      rcases hcompl with h | ⟨io, o, e, h1, h2⟩
      · subst h; rfl
      · simp only [Option.some.injEq] at h1
        subst h1
        subst h2
        simp [layerIds, completeLayerUploadInput]

theorem layerIds_append (input : UploadInput) (b : List Event)
    (hb : ∀ t, layerIds input t b = true) : ∀ (a : List Event) s,
    layerIds input s a = true → layerIds input s (a ++ b) = true := by
  intro a
  induction a with
  | nil => intro s _; exact hb s
  | cons ev evs ih =>
    intro s h
    rw [List.cons_append]
    cases ev with
    | InitiateLayerUpload inp out err =>
      simp only [layerIds, Bool.and_eq_true] at h ⊢
      exact ⟨h.1, ih _ h.2⟩
    | UploadLayerPart inp out err =>
      simp only [layerIds, Bool.and_eq_true] at h ⊢
      exact ⟨h.1, ih _ h.2⟩
    | CompleteLayerUpload inp out err =>
      simp only [layerIds, Bool.and_eq_true] at h ⊢
      exact ⟨h.1, ih _ h.2⟩
    | DescribeRepositories inp out err =>
      simp only [layerIds] at h ⊢
      exact ih _ h
    | CreateRepository inp out err =>
      simp only [layerIds] at h ⊢
      exact ih _ h
    | PutImage inp out err =>
      simp only [layerIds] at h ⊢
      exact ih _ h

theorem initiateCalls_of_layerCalls (input : UploadInput) (d : String) (evs : List Event)
    (h : layerCalls input d evs) :
    initiateCalls evs ≤ 1 ∧ (evs ≠ [] → initiateCalls evs = 1) := by
  rcases h with h | ⟨out, err, parts, compl, hevs, hparts, hcompl⟩
  · subst h; exact ⟨by simp [initiateCalls], fun h => (h rfl).elim⟩
  · subst hevs
    have h0 : initiateCalls (parts ++ compl) = 0 := by
      have hc : initiateCalls compl = 0 := by
        rcases hcompl with h | ⟨_, _, _, _, h⟩ <;> subst h <;> rfl
      clear hcompl
      induction parts with
      | nil => exact hc
      | cons p ps ih =>
        obtain ⟨_, _, _, _, _, _, hp⟩ := hparts p (List.mem_cons_self _ _)
        subst hp
        rw [List.cons_append]
        simp only [initiateCalls]
        exact ih (fun ev hev => hparts ev (List.mem_cons_of_mem _ hev))
    simp only [initiateCalls, h0]
    simp

theorem checkRepo_ids (input : UploadInput) (tr : List Event) :
    ∃ evs, (checkRepo input tr).2 = tr ++ evs ∧ ∀ s, layerIds input s evs = true := by
  unfold checkRepo
  cases input.Client with
  | none => exact ⟨[], by simp, fun _ => rfl⟩
  | some c =>
    dsimp only
    rcases hd : c.DescribeRepositories tr (describeRepositoriesInput input) with ⟨o, e⟩
    dsimp only
    cases e with
    | some err =>
      dsimp only
      cases err.As .RepositoryNotFoundException with
      | none => exact ⟨[_], rfl, fun _ => rfl⟩
      | some x =>
        dsimp only
        rcases hc : c.CreateRepository (tr ++ [Event.DescribeRepositories
          (describeRepositoriesInput input) o (some err)]) (createRepositoryInput input)
          with ⟨co, ce⟩
        dsimp only
        have hboth : ∀ (out : Outcome (Option DescribeRepositoriesOutput ×
            Option CreateRepositoryOutput × Option GoError)), ∃ evs,
            (out, tr ++ [Event.DescribeRepositories (describeRepositoriesInput input) o
              (some err)] ++ [Event.CreateRepository (createRepositoryInput input) co ce]).2
              = tr ++ evs ∧ ∀ s, layerIds input s evs = true := fun out =>
          ⟨[Event.DescribeRepositories (describeRepositoriesInput input) o (some err),
            Event.CreateRepository (createRepositoryInput input) co ce], by simp, fun _ => rfl⟩
        cases ce <;> exact hboth _
    | none =>
      dsimp only
      cases o with
      | none => exact ⟨[_], rfl, fun _ => rfl⟩
      | some dd =>
        dsimp only
        split_ifs <;> exact ⟨[_], rfl, fun _ => rfl⟩

theorem putEcrImage_ids (env : Env) (input : UploadInput) (m : Manifest) (tr : List Event) :
    ∃ evs, (putEcrImage env input m tr).2 = tr ++ evs ∧ ∀ s, layerIds input s evs = true := by
  unfold putEcrImage
  dsimp only
  cases env.fs.ReadFile (filepathJoin [input.ImageLayersPath, "manifest.json"]) with
  | error e => exact ⟨[], by simp, fun _ => rfl⟩
  | ok buf =>
    dsimp only
    split_ifs
    · exact ⟨[], by simp, fun _ => rfl⟩
    · cases input.Client with
      | none => exact ⟨[], by simp, fun _ => rfl⟩
      | some c =>
        dsimp only
        rcases hp : c.PutImage tr (putImageInput input buf) with ⟨o, e⟩
        dsimp only
        cases e with
        | some err => exact ⟨[_], rfl, fun _ => rfl⟩
        | none =>
          dsimp only
          cases o <;> exact ⟨[_], rfl, fun _ => rfl⟩

/-- C20: the calls that `doUploadLayerParts` makes for a layer digest are one
`InitiateLayerUpload` (none without a client) followed by `UploadLayerPart` calls and at
most one `CompleteLayerUpload`, which all carry the upload id that this initiation returned
together with the repository name and the registry id of the input, the completion listing
exactly the digest of the layer; and in the calls of every run of `Upload`, each part upload
and each completion carries the upload id of the latest initiation, and no call carries an
upload id after the completion that used it. -/
theorem doUploadLayerParts_uploadId (env : Env) (client : Option IClient)
    (input : UploadInput) (digest : String) (tr : List Event) :
    (∃ evs, (doUploadLayerParts env client input digest tr).2 = tr ++ evs ∧
      layerCalls input digest evs ∧
      initiateCalls evs ≤ 1 ∧ (input.Client ≠ none → initiateCalls evs = 1) ∧
      ∀ s, layerIds input s evs = true) ∧
    (∃ evs, (Upload env input tr).2 = tr ++ evs ∧ layerIds input none evs = true) ∧
    (Upload (envOf manifest2) (inputOf countingClient) []).2.filterMap (fun ev =>
        match ev with
        | .InitiateLayerUpload _ out _ => some ("initiate", out.bind (fun o => o.UploadId))
        | .UploadLayerPart inp _ _ => some ("part", inp.UploadId)
        | .CompleteLayerUpload inp _ _ => some ("complete", inp.UploadId)
        | _ => none)
      = [("initiate", some "upload-0"), ("part", some "upload-0"), ("complete", some "upload-0"),
         ("initiate", some "upload-1"), ("part", some "upload-1"), ("complete", some "upload-1"),
         ("initiate", some "upload-2"), ("part", some "upload-2"),
         ("complete", some "upload-2")] := by
  refine ⟨?_, ?_, by decide⟩
  · obtain ⟨evs, h1, h2, h3⟩ := doUploadLayerParts_calls env client input digest tr
    obtain ⟨h4, h5⟩ := initiateCalls_of_layerCalls input digest evs h2
    exact ⟨evs, h1, h2, h4, fun hc => h5 (h3 hc), layerIds_of_layerCalls input digest evs h2⟩
  · obtain ⟨evs, h1, h2⟩ := Upload_trace env input (fun evs => ∀ s, layerIds input s evs = true)
      (fun _ => rfl) (fun a b ha hb s => layerIds_append input b hb a s (ha s))
      (checkRepo_ids input)
      (fun d tr0 => by
        obtain ⟨evs, h1, h2, _⟩ := doUploadLayerParts_calls env input.Client input d tr0
        exact ⟨evs, h1, layerIds_of_layerCalls input d evs h2⟩)
      (putEcrImage_ids env input) tr
    exact ⟨evs, h1, h2 none⟩

/-! ## The local path of an object (C21) -/

theorem splitSlash_ne_nil (cs : List Char) : splitSlash cs ≠ [] := by
  cases cs with
  | nil => simp [splitSlash]
  | cons c cs =>
    simp only [splitSlash]
    split_ifs
    · simp
    · cases splitSlash cs <;> simp

theorem splitSlash_append (a b : List Char) :
    splitSlash (a ++ '/' :: b) = splitSlash a ++ splitSlash b := by
  induction a with
  | nil => simp [splitSlash]
  | cons c cs ih =>
    rw [List.cons_append]
    simp only [splitSlash]
    split_ifs with hc
    · rw [ih, List.cons_append]
    · rw [ih]
      cases hs : splitSlash cs with
      | nil => exact (splitSlash_ne_nil cs hs).elim
      | cons w ws => rfl

theorem cleanElems_append (rooted : Bool) : ∀ (xs ys acc : List (List Char)),
    cleanElems rooted (xs ++ ys) acc
      = cleanElems rooted ys (cleanElems rooted xs acc).reverse := by
  intro xs
  induction xs with
  | nil => intro ys acc; simp [cleanElems]
  | cons el rest ih =>
    intro ys acc
    rw [List.cons_append]
    by_cases h1 : el = [] ∨ el = ['.']
    · simp only [cleanElems, if_pos h1]
      exact ih ys acc
    · by_cases h2 : el = ['.', '.']
      · cases acc with
        | nil =>
          cases rooted
          · simp only [cleanElems, if_neg h1, if_pos h2, Bool.false_eq_true, if_false]
            exact ih ys _
          · simp only [cleanElems, if_neg h1, if_pos h2, if_true]
            exact ih ys _
        | cons top acc1 =>
          by_cases h3 : top = ['.', '.']
          · simp only [cleanElems, if_neg h1, if_pos h2, if_pos h3]
            exact ih ys _
          · simp only [cleanElems, if_neg h1, if_pos h2, if_neg h3]
            exact ih ys _
      · simp only [cleanElems, if_neg h1, if_neg h2]
        exact ih ys _

theorem cleanElems_nodots (rooted : Bool) : ∀ (ys acc : List (List Char)),
    (∀ el ∈ ys, el ≠ ['.', '.']) →
    cleanElems rooted ys acc
      = acc.reverse ++ ys.filter (fun el => decide (¬ (el = [] ∨ el = ['.']))) := by
  intro ys
  induction ys with
  | nil => intro acc _; simp [cleanElems]
  | cons el rest ih =>
    intro acc h
    have hel := h el (List.mem_cons_self _ _)
    have hrest : ∀ e ∈ rest, e ≠ ['.', '.'] := fun e he => h e (List.mem_cons_of_mem _ he)
    by_cases h1 : el = [] ∨ el = ['.']
    · simp only [cleanElems, if_pos h1]
      rw [ih acc hrest, List.filter_cons_of_neg (by simp [h1])]
    · simp only [cleanElems, if_neg h1, if_neg hel]
      rw [ih (el :: acc) hrest, List.filter_cons_of_pos (by simp [h1])]
      simp

/-- Below a directory path `a` that is not empty, a key without an element `..` adds its
elements to the elements of `a`. -/
theorem pathElems_key (a key : String) (ha : a ≠ "")
    (hkey : ∀ el ∈ splitSlash key.data, el ≠ ['.', '.']) :
    isRooted (a ++ "/" ++ key) = isRooted a ∧
    pathElems (a ++ "/" ++ key) = pathElems a ++ keyElems key := by
  have hdata : (a ++ "/" ++ key).data = a.data ++ '/' :: key.data := by
    simp [String.data_append]
  have hne : a.data ≠ [] := by
    intro h
    apply ha
    exact String.ext h
  have hroot : isRooted (a ++ "/" ++ key) = isRooted a := by
    unfold isRooted
    rw [hdata]
    cases hd : a.data with
    | nil => exact (hne hd).elim
    | cons c cs => rfl
  refine ⟨hroot, ?_⟩
  unfold pathElems keyElems
  rw [hroot, hdata, splitSlash_append, cleanElems_append, cleanElems_nodots _ _ _ hkey,
    List.reverse_reverse]

theorem filepathJoin_dir (L B : String) (h : L ≠ "" ∨ B ≠ "") :
    ∃ a, a ≠ "" ∧ filepathJoin [L, B] = filepathClean a ∧
      ∀ key, filepathJoin [L, B, key] = filepathClean (a ++ "/" ++ key) := by
  by_cases hL : L = ""
  · have hB : B ≠ "" := by
      rcases h with h | h
      · exact (h hL).elim
      · exact h
    subst hL
    refine ⟨B, hB, ?_, fun key => ?_⟩
    · simp only [filepathJoin, if_true, if_neg hB]
      rfl
    · simp only [filepathJoin, if_true, if_neg hB]
      rfl
  · refine ⟨L ++ "/" ++ B, ?_, ?_, fun key => ?_⟩
    · intro h2
      apply hL
      have := congrArg String.data h2
      simp only [String.data_append] at this
      have h3 : L.data = [] := by
        cases hd : L.data with
        | nil => rfl
        | cons c cs => rw [hd] at this; simp at this
      exact String.ext h3
    · simp only [filepathJoin, if_neg hL]
      rfl
    · simp only [filepathJoin, if_neg hL]
      rfl

/-- C21, the divergence: a key with `..` elements leaves the destination. With the
destination `/data/bkt` and the listed key `../../etc/passwd`, `Download` creates the
directory `/etc`, creates and writes the file `/etc/passwd` and reports that path; the
elements of the cleaned path are not below the elements `data`, `bkt` of the destination.
What holds is that a key without an element `..` stays below a destination that is not
empty: the cleaned path has the elements of the cleaned destination followed by the
elements of the key that are neither empty nor `.`. -/
theorem localPath_escapes :
    S3Downloader.Download escapeInput 1 []
      = (some (.ret (some ["/etc/passwd"], none)),
         [S3Event.NextPage (some ⟨[⟨some "../../etc/passwd"⟩]⟩) none,
          S3Event.MkdirAll "/etc" 509 none,
          S3Event.Create "/etc/passwd" (some ⟨none⟩) none,
          S3Event.Download (some ⟨none⟩) ⟨"bkt", "../../etc/passwd"⟩ 123 none]) ∧
    filepathJoin [escapeInput.LocalDirectory, escapeInput.Bucket] = "/data/bkt" ∧
    localPath escapeInput "../../etc/passwd" = "/etc/passwd" ∧
    pathElems "/data/bkt" = ["data".data, "bkt".data] ∧
    pathElems ("/data/bkt" ++ "/" ++ "../../etc/passwd") = ["etc".data, "passwd".data] ∧
    (∀ (L B key : String), (L ≠ "" ∨ B ≠ "") →
      (∀ el ∈ splitSlash key.data, el ≠ ['.', '.']) →
      ∃ a, filepathJoin [L, B] = filepathClean a ∧
        filepathJoin [L, B, key] = filepathClean (a ++ "/" ++ key) ∧
        isRooted (a ++ "/" ++ key) = isRooted a ∧
        pathElems (a ++ "/" ++ key) = pathElems a ++ keyElems key) ∧
    (∀ p : String, p ≠ "" →
      filepathClean p =
        if (if isRooted p = true
            then "/" ++ String.mk (List.intercalate ['/'] (pathElems p))
            else String.mk (List.intercalate ['/'] (pathElems p))) = "" then "."
        else if isRooted p = true
          then "/" ++ String.mk (List.intercalate ['/'] (pathElems p))
          else String.mk (List.intercalate ['/'] (pathElems p))) := by
  refine ⟨by decide, by decide, by decide, by decide, by decide, ?_, ?_⟩
  · intro L B key h hkey
    obtain ⟨a, ha, h1, h2⟩ := filepathJoin_dir L B h
    obtain ⟨h3, h4⟩ := pathElems_key a key ha hkey
    exact ⟨a, h1, h2 key, h3, h4⟩
  · intro p hp
    unfold filepathClean
    rw [if_neg hp]
    simp only [pathElems, isRooted, decide_eq_true_eq]

end DockerReassembler
